import Mathlib

/-!
# Semantic analysis of C-MINUS: scope-tree symbol table and two-pass analyzer

A shallow embedding of `src/3_Semantic/symtab.c` and `src/3_Semantic/analyze.c`.

Pointers are modelled as `Option Nat`: `none` is `NULL`, `some a` is the address `a`
of a record in a store (a list indexed by address).  `malloc` returns the next free
address, i.e. the length of the store.  Every function that dereferences a pointer
returns `none` when the pointer is `NULL` or dangling, and every loop over a linked
structure carries a fuel counter; `none` therefore stands for "no result" (a crash or a
loop that does not end).
-/

namespace Cminus

/-! ## Types of `globals.h` used by the analyzer -/

/-- Modelled from the spec: the enumeration `ExpType` of `globals.h` is not part of the
sources at hand.  The spec says that the source derives the element type of an array type
by subtracting a fixed constant from the array type's enumeration value; `checkNode` uses
the constant 2.  The values below follow the order of the cases of `typestr` in
`symtab.c`, which is the order with that property.  As in C, an `ExpType` is an integer. -/
abbrev ExpType := Int

/-- Modelled from the spec: enumerator `Void` of `ExpType`. -/
abbrev Void : ExpType := 0
/-- Modelled from the spec: enumerator `Integer` of `ExpType`. -/
abbrev Integer : ExpType := 1
/-- Modelled from the spec: enumerator `VoidArr` of `ExpType` (`Void + 2`). -/
abbrev VoidArr : ExpType := 2
/-- Modelled from the spec: enumerator `IntegerArr` of `ExpType` (`Integer + 2`). -/
abbrev IntegerArr : ExpType := 3
/-- Modelled from the spec: enumerator `Boolean` of `ExpType`. -/
abbrev Boolean : ExpType := 4
/-- Modelled from the spec: enumerator `Function` of `ExpType`. -/
abbrev Function : ExpType := 5
/-- Modelled from the spec: enumerator `ErrorExp` of `ExpType`, the error sentinel. -/
abbrev ErrorExp : ExpType := 6

/-- Statement kinds, as named by the case labels of `insertNode` and `checkNode`. -/
inductive StmtKind where
  | VarDeclK | ParamK | VoidParamK | FuncDeclK | CompoundK
  | IfK | IfElseK | WhileK | ReturnK
  deriving DecidableEq, Repr

/-- Expression kinds, as named by the case labels of `insertNode` and `checkNode`. -/
inductive ExpKind where
  | OpK | ConstK | AssignK | VarAccessK | CallK
  deriving DecidableEq, Repr

/-- The tag `nodekind` together with the member of the union `kind` it selects. -/
inductive NodeKind where
  | StmtK (stmt : StmtKind)
  | ExpK (exp : ExpKind)
  deriving DecidableEq, Repr

/-- A `TreeNode *`: `null` is `NULL`; a node has its kind, line number, `attr.name`,
`type`, the children `child[0..2]` and the `sibling` link.
Modelled from the spec: `MAXCHILDREN` of `globals.h` is not part of the sources at hand;
three children are what an if-else node (condition, then, else) needs. -/
inductive TreeNode where
  | null : TreeNode
  | node (nodekind : NodeKind) (lineno : Int) (name : String) (type : ExpType)
      (child0 child1 child2 sibling : TreeNode) : TreeNode
  deriving DecidableEq, Repr

/-! ## Records of `symtab.h` -/

/-- A `ScopeList` pointer. -/
abbrev ScopeList := Option Nat

/-- A `BucketList` pointer. -/
abbrev BucketList := Option Nat

/-- One entry of `func.param[]`. -/
structure ParamRec where
  name : String
  type : ExpType
  deriving DecidableEq, Repr

/-- The member `func` of a bucket record.  `malloc` does not initialise it: a field that
was never written is `none`, and a read of it yields what the unwritten word holds (see
`Indet`, `FuncRec.typeRead`, `FuncRec.paramsRead`, `FuncRec.paramAt`). -/
structure FuncRec where
  type : Option ExpType
  params : Option Nat
  param : Nat → Option ParamRec

/-- The content of `func` right after `malloc`. -/
def FuncRec.fresh : FuncRec := ⟨none, none, fun _ => none⟩

/-- The record `struct BucketListRec`; `lines` is the linked list of line numbers. -/
structure BucketListRec where
  name : String
  type : ExpType
  lines : List Int
  memloc : Int
  func : FuncRec
  next : BucketList
  scope : ScopeList

/-- The record `struct ScopeListRec`; `bucket` is the array of `HASH_TBL_SIZE` chains. -/
structure ScopeListRec where
  name : String
  bucket : Nat → BucketList
  parent : ScopeList
  leftMostChild : ScopeList
  rightSibling : ScopeList

/-- The assignment `scope->bucket[h] = l`. -/
def ScopeListRec.setBucket (sr : ScopeListRec) (h : Nat) (l : BucketList) : ScopeListRec :=
  { sr with bucket := fun i => if i = h then l else sr.bucket i }

/-- The symbol table: the store of scope records, the store of bucket records and the
global variable `globalScope`. -/
structure SymTab where
  scopes : List ScopeListRec
  buckets : List BucketListRec
  globalScope : ScopeList

def HASH_TBL_SIZE : Nat := 211

def MAX_FUNC_PARAMS : Nat := 127

def SHIFT : Nat := 4

/-! ## `symtab.c` -/

/-- The loop of `hash`, with `temp` as accumulator.  A character enters with its code,
which is not negative (identifiers are ASCII); `temp` stays below `HASH_TBL_SIZE`, so
the shift does not overflow an `int`. -/
def hashLoop : List Char → Nat → Nat
  | [], temp => temp
  | c :: cs, temp => hashLoop cs (((temp <<< SHIFT) + c.toNat) % HASH_TBL_SIZE)

/-- The hash function. -/
def hash (key : String) : Nat := hashLoop key.data 0

/-- The record `buildScope` fills in: the name, the parent, no children, every chain
`NULL`. -/
def newScopeRec (name : String) (parent : ScopeList) : ScopeListRec :=
  ⟨name, fun _ => none, parent, none, none⟩

/-- `buildScope`: allocate a scope record; returns the new address. -/
def buildScope (st : SymTab) (name : String) (parent : ScopeList) : ScopeList × SymTab :=
  (some st.scopes.length, { st with scopes := st.scopes ++ [newScopeRec name parent] })

/-- The loop `while (current->rightSibling != NULL) current = current->rightSibling`. -/
def lastSibling (scopes : List ScopeListRec) : Nat → Nat → Option Nat
  | 0, _ => none
  | fuel + 1, current =>
    match scopes[current]? with
    | none => none
    | some r =>
      match r.rightSibling with
      | none => some current
      | some nx => lastSibling scopes fuel nx

/-- `addChildScope`. -/
def addChildScope (st : SymTab) (parent child : ScopeList) : Option SymTab :=
  match parent with
  | none => none
  | some p =>
    match st.scopes[p]? with
    | none => none
    | some pr =>
      match pr.leftMostChild with
      | none => some { st with scopes := st.scopes.set p { pr with leftMostChild := child } }
      | some c =>
        match lastSibling st.scopes st.scopes.length c with
        | none => none
        | some current =>
          match st.scopes[current]? with
          | none => none
          | some cr =>
            some { st with scopes := st.scopes.set current { cr with rightSibling := child } }

/-- The two calls `newScope = buildScope(name, parent); addChildScope(parent, newScope)`
with which the analyzer creates a scope; returns `newScope`. -/
def createScope (st : SymTab) (name : String) (parent : ScopeList) :
    Option (ScopeList × SymTab) :=
  let (newScope, st) := buildScope st name parent
  match addChildScope st parent newScope with
  | none => none
  | some st => some (newScope, st)

/-- The loop of `findScope` over the sibling chain. -/
def findScopeLoop (scopes : List ScopeListRec) (name : String) : Nat → ScopeList → Option ScopeList
  | _, none => some none
  | 0, some _ => none
  | fuel + 1, some current =>
    match scopes[current]? with
    | none => none
    | some r =>
      if r.name = name then some (some current)
      else findScopeLoop scopes name fuel r.rightSibling

/-- `findScope`. -/
def findScope (st : SymTab) (name : String) (parent : ScopeList) : Option ScopeList :=
  match parent with
  | none => none
  | some p =>
    match st.scopes[p]? with
    | none => none
    | some pr => findScopeLoop st.scopes name st.scopes.length pr.leftMostChild

/-- The loop `while ((l != NULL) && (strcmp(name,l->name) != 0)) l = l->next`. -/
def bucketLoop (buckets : List BucketListRec) (name : String) : Nat → BucketList → Option BucketList
  | _, none => some none
  | 0, some _ => none
  | fuel + 1, some l =>
    match buckets[l]? with
    | none => none
    | some r =>
      if r.name = name then some (some l)
      else bucketLoop buckets name fuel r.next

/-- `st_insert`; returns the pointer `l` and the new table. -/
def st_insert (st : SymTab) (scope : ScopeList) (name : String) (type : ExpType)
    (lineno : Int) (loc : Int) : Option (BucketList × SymTab) :=
  match scope with
  | none => none
  | some s =>
    match st.scopes[s]? with
    | none => none
    | some sr =>
      let h := hash name
      match bucketLoop st.buckets name st.buckets.length (sr.bucket h) with
      | none => none
      | some none =>
        let l := st.buckets.length
        some (some l,
          { st with
            buckets := st.buckets ++
              [⟨name, type, [lineno], loc, FuncRec.fresh, sr.bucket h, some s⟩]
            scopes := st.scopes.set s (sr.setBucket h (some l)) })
      | some (some l) =>
        match st.buckets[l]? with
        | none => none
        | some r =>
          some (some l,
            { st with buckets := st.buckets.set l { r with lines := r.lines ++ [lineno] } })

/-- The outer loop of `st_lookup` over the scope and its ancestors. -/
def st_lookupLoop (st : SymTab) (name : String) (h : Nat) : Nat → ScopeList → Option BucketList
  | _, none => some none
  | 0, some _ => none
  | fuel + 1, some s =>
    match st.scopes[s]? with
    | none => none
    | some sr =>
      match bucketLoop st.buckets name st.buckets.length (sr.bucket h) with
      | none => none
      | some (some l) => some (some l)
      | some none => st_lookupLoop st name h fuel sr.parent

/-- `st_lookup`. -/
def st_lookup (st : SymTab) (scope : ScopeList) (name : String) : Option BucketList :=
  st_lookupLoop st name (hash name) st.scopes.length scope

/-- Write through `l->func`: apply `f` to the member `func` of the bucket at `l`. -/
def setFunc (st : SymTab) (l : BucketList) (f : FuncRec → FuncRec) : Option SymTab :=
  match l with
  | none => none
  | some a =>
    match st.buckets[a]? with
    | none => none
    | some r => some { st with buckets := st.buckets.set a { r with func := f r.func } }

/-- `init_symtab`: the global scope with the built-in functions `output` and `input`.
The table is created fresh: records of an earlier run are unreachable from it. -/
def init_symtab : Option SymTab :=
  let (g, st) := buildScope ⟨[], [], none⟩ "global" none
  let st := { st with globalScope := g }
  match st_insert st st.globalScope "output" Function 0 1 with
  | none => none
  | some (output_bl, st) =>
    match setFunc st output_bl (fun f => { f with type := some Void }) with
    | none => none
    | some st =>
    match setFunc st output_bl (fun f => { f with params := some 1 }) with
    | none => none
    | some st =>
    match setFunc st output_bl (fun f =>
        { f with param := fun i => if i = 0 then some ⟨"value", Integer⟩ else f.param i }) with
    | none => none
    | some st =>
      match st_insert st st.globalScope "input" Function 0 0 with
      | none => none
      | some (input_bl, st) =>
        match setFunc st input_bl (fun f => { f with type := some Integer }) with
        | none => none
        | some st => setFunc st input_bl (fun f => { f with params := some 0 })

/-- `typestr`. -/
def typestr (t : ExpType) : String :=
  if t = Void then "void"
  else if t = Integer then "int"
  else if t = VoidArr then "void[]"
  else if t = IntegerArr then "int[]"
  else if t = Boolean then "bool"
  else if t = Function then "Function"
  else "Unknown"

/-! ## `analyze.c` -/

/-- The format string and arguments of one call of `semanticError`. -/
inductive Msg where
  | redefinedVariable (name : String)
  | redefinedFunction (name : String)
  | undefinedIdentifier (name : String)
  | invalidParamType (type : String) (name : String)
  | invalidVarType (type : String) (name : String)
  | invalidCondition (type : String)
  | returnValueInVoid
  | returnTypeMismatch (expected : String)
  | returnNoValue
  | opNotAllowed (left right : String)
  | assignLeftNotExpression
  | lvalueRequired
  | assignTypeMismatch
  | arrayIndexNotInteger
  | indexOnNonArray
  | tooFewArguments (name : String)
  | tooManyArguments (name : String)
  | argTypeMismatch (param arg : String)
  deriving DecidableEq, Repr

/-- One diagnostic written to `listing`: the message and the line number of the node. -/
structure Diag where
  msg : Msg
  lineno : Int
  deriving DecidableEq, Repr

/-- The text `vfprintf` produces for a message. -/
def Msg.text : Msg → String
  | .redefinedVariable n => "redefined variable '" ++ n ++ "'"
  | .redefinedFunction n => "redefined function '" ++ n ++ "'"
  | .undefinedIdentifier n => "undefined identifier '" ++ n ++ "'"
  | .invalidParamType ty n => "invalid type '" ++ ty ++ "' for parameter '" ++ n ++ "'"
  | .invalidVarType ty n => "invalid type '" ++ ty ++ "' for variable '" ++ n ++ "'"
  | .invalidCondition ty => "invalid type '" ++ ty ++ "' for condition"
  | .returnValueInVoid => "return with a value, in function returing void"
  | .returnTypeMismatch ty => "return type mismatch, expected '" ++ ty ++ "'"
  | .returnNoValue => "return with no value, in function returning non-void"
  | .opNotAllowed a b => "not allowed operation between '" ++ a ++ "' and '" ++ b ++ "'"
  | .assignLeftNotExpression => "left operand of assignment must be expression"
  | .lvalueRequired => "lvalue required as left operand of assignment"
  | .assignTypeMismatch => "type mismatch between left and right operand of assignment"
  | .arrayIndexNotInteger => "array index must be integer"
  | .indexOnNonArray => "array index is not allowed for non-array variable"
  | .tooFewArguments n => "too few arguments for function '" ++ n ++ "'"
  | .tooManyArguments n => "too many arguments to function '" ++ n ++ "'"
  | .argTypeMismatch p a => "type mismatch between parameter '" ++ p ++ "' and argument '" ++ a ++ "'"

/-- The line one call of `semanticError` writes to `listing`. -/
def Diag.render (d : Diag) : String :=
  "Semantic Error: " ++ d.msg.text ++ " at line " ++ toString d.lineno ++ "\n"

/-- The contents of the words of the symbol records that `malloc` returned and that the
program has not written: what a read of the field `func.type`, `func.params` or
`func.param[p]` of the record at address `l` yields while that field is unwritten (the
fields of `FuncRec` that are `none`).  No procedure of the analyzer changes them. -/
structure Indet where
  type : Nat → ExpType
  params : Nat → Int
  param : Nat → Nat → ParamRec

/-- The state of the analyzer: the symbol table, the static variables `currentScope` and
`func_decl_flag`, the global flag `Error`, the diagnostics written to `listing`, and the
contents `indet` of the unwritten words of the symbol records. -/
structure State where
  tab : SymTab
  currentScope : ScopeList
  func_decl_flag : Int
  Error : Bool
  listing : List Diag
  indet : Indet

/-- The field `lineno` of a node (`none` for `NULL`). -/
def TreeNode.lineno? : TreeNode → Option Int
  | .null => none
  | .node _ ln _ _ _ _ _ _ => some ln

/-- The field `type` of a node (`none` for `NULL`). -/
def TreeNode.type? : TreeNode → Option ExpType
  | .null => none
  | .node _ _ _ ty _ _ _ _ => some ty

/-- The field `nodekind` with `kind` of a node (`none` for `NULL`). -/
def TreeNode.kind? : TreeNode → Option NodeKind
  | .null => none
  | .node k _ _ _ _ _ _ _ => some k

/-- The field `attr.name` of a node (`none` for `NULL`). -/
def TreeNode.name? : TreeNode → Option String
  | .null => none
  | .node _ _ nm _ _ _ _ _ => some nm

/-- The field `sibling` of a node (`NULL` for `NULL`). -/
def TreeNode.sibling : TreeNode → TreeNode
  | .null => .null
  | .node _ _ _ _ _ _ _ sib => sib

/-- `semanticError`: write one diagnostic for the node `t` and set `Error`. -/
def semanticError (t : TreeNode) (message : Msg) (s : State) : Option State :=
  match t.lineno? with
  | none => none
  | some ln => some { s with listing := s.listing ++ [⟨message, ln⟩], Error := true }

/-- The procedure `traverse`: `preProc` in preorder, the children, `postProc` in
postorder, then the sibling.  `postProc` sees the node with its children already
processed and returns the value of the node's `type` field after the call, the only
field of a tree node the analyzer writes. -/
def traverse (preProc : TreeNode → State → Option State)
    (postProc : TreeNode → State → Option (ExpType × State)) :
    TreeNode → State → Option (TreeNode × State)
  | .null, s => some (.null, s)
  | .node k ln nm ty c0 c1 c2 sib, s =>
    match preProc (.node k ln nm ty c0 c1 c2 sib) s with
    | none => none
    | some s =>
    match traverse preProc postProc c0 s with
    | none => none
    | some (c0, s) =>
    match traverse preProc postProc c1 s with
    | none => none
    | some (c1, s) =>
    match traverse preProc postProc c2 s with
    | none => none
    | some (c2, s) =>
    match postProc (.node k ln nm ty c0 c1 c2 sib) s with
    | none => none
    | some (ty, s) =>
    match traverse preProc postProc sib s with
    | none => none
    | some (sib, s) => some (.node k ln nm ty c0 c1 c2 sib, s)

/-- The test `(l = st_lookup(currentScope, name)) != NULL && l->scope == currentScope`. -/
def declaredHere (s : State) (name : String) : Option Bool :=
  match st_lookup s.tab s.currentScope name with
  | none => none
  | some none => some false
  | some (some l) =>
    match s.tab.buckets[l]? with
    | none => none
    | some r => some (decide (r.scope = s.currentScope))

/-- The loop of `insertNode` that records the parameters of a function: `remaining` is
`MAX_FUNC_PARAMS - l->func.params`, `i` is `l->func.params`. -/
def recordParams : Nat → Nat → TreeNode → FuncRec → FuncRec
  | 0, i, _, f => { f with params := some i }
  | _ + 1, i, .null, f => { f with params := some i }
  | remaining + 1, i, .node _ _ nm ty _ _ _ sib, f =>
    recordParams remaining (i + 1) sib
      { f with params := some i,
               param := fun j => if j = i then some ⟨nm, ty⟩ else f.param j }

/-- The statement `if (param->type != Void) { for (...) ... }` of `insertNode`, which
records the parameters of the function symbol `l`. -/
def recordSignature (tab : SymTab) (l : BucketList) (param : TreeNode) : Option SymTab :=
  match param.type? with
  | none => none
  | some pty =>
    if pty ≠ Void then setFunc tab l (recordParams MAX_FUNC_PARAMS 0 param)
    else some tab

/-- Create a scope named `name` under the current scope and move the cursor into it:
`buildScope`, `addChildScope`, `currentScope = newScope`. -/
def enterNewScope (s : State) (name : String) : Option State :=
  match createScope s.tab name s.currentScope with
  | none => none
  | some (newScope, tab) => some { s with tab := tab, currentScope := newScope }

/-- The name `sprintf(buf, "%s-%d", currentScope->name, t->lineno)` builds, for names
that fit the buffer `buf[256]`. -/
def blockScopeName (scopeName : String) (lineno : Int) : String :=
  scopeName ++ "-" ++ toString lineno

/-- The procedure `insertNode`. -/
def insertNode (t : TreeNode) (s : State) : Option State :=
  match t with
  | .null => none
  | .node (.StmtK .VoidParamK) _ _ _ _ _ _ _ => some s
  | .node (.StmtK .ParamK) ln nm ty _ _ _ _
  | .node (.StmtK .VarDeclK) ln nm ty _ _ _ _ =>
    match declaredHere s nm with
    | none => none
    | some true => semanticError t (.redefinedVariable nm) s
    | some false =>
      match st_insert s.tab s.currentScope nm ty ln ln with
      | none => none
      | some (_, tab) => some { s with tab := tab }
  | .node (.StmtK .FuncDeclK) ln nm ty param _ _ _ =>
    match declaredHere s nm with
    | none => none
    | some true => semanticError t (.redefinedFunction nm) s
    | some false =>
      match st_insert s.tab s.currentScope nm Function ln ln with
      | none => none
      | some (l, tab) =>
        match setFunc tab l (fun f => { f with type := some ty }) with
        | none => none
        | some tab =>
          match recordSignature tab l param with
          | none => none
          | some tab =>
            match enterNewScope { s with tab := tab } nm with
            | none => none
            | some s => some { s with func_decl_flag := 1 }
  | .node (.StmtK .CompoundK) ln _ _ _ _ _ _ =>
    if s.func_decl_flag = 1 then some { s with func_decl_flag := 0 }
    else
      match s.currentScope with
      | none => none
      | some c =>
        match s.tab.scopes[c]? with
        | none => none
        | some cr => enterNewScope s (blockScopeName cr.name ln)
  | .node (.StmtK _) _ _ _ _ _ _ _ => some s
  | .node (.ExpK .VarAccessK) ln nm _ _ _ _ _
  | .node (.ExpK .CallK) ln nm _ _ _ _ _ =>
    match st_lookup s.tab s.currentScope nm with
    | none => none
    | some none => semanticError t (.undefinedIdentifier nm) s
    | some (some l) =>
      match s.tab.buckets[l]? with
      | none => none
      | some r =>
        match st_insert s.tab r.scope nm r.type ln ln with
        | none => none
        | some (_, tab) => some { s with tab := tab }
  | .node (.ExpK _) _ _ _ _ _ _ _ => some s

/-- The step `currentScope = currentScope->parent`. -/
def leaveScope (s : State) : Option State :=
  match s.currentScope with
  | none => none
  | some c =>
    match s.tab.scopes[c]? with
    | none => none
    | some cr => some { s with currentScope := cr.parent }

/-- The procedure `afterInsertNode`. -/
def afterInsertNode (t : TreeNode) (s : State) : Option State :=
  match t with
  | .null => none
  | .node (.StmtK .CompoundK) _ _ _ _ _ _ _ => leaveScope s
  | .node _ _ _ _ _ _ _ _ => some s

/-- `afterInsertNode` as the `postProc` of `traverse`: it leaves `t->type` as it is. -/
def afterInsertProc (t : TreeNode) (s : State) : Option (ExpType × State) :=
  match t.type?, afterInsertNode t s with
  | some ty, some s => some (ty, s)
  | _, _ => none

/-- The function `buildSymtab`, with `TraceAnalyze` off (the tables it would print are
no diagnostics). -/
def buildSymtab (syntaxTree : TreeNode) (s : State) : Option (TreeNode × State) :=
  match init_symtab with
  | none => none
  | some tab =>
    traverse insertNode afterInsertProc syntaxTree
      { s with tab := tab, currentScope := tab.globalScope }

/-- The procedure `beforeCheckNode`. -/
def beforeCheckNode (t : TreeNode) (s : State) : Option State :=
  match t with
  | .null => none
  | .node (.StmtK .FuncDeclK) _ nm _ _ _ _ _ =>
    match findScope s.tab nm s.currentScope with
    | none => none
    | some sc => some { s with currentScope := sc, func_decl_flag := 1 }
  | .node (.StmtK .CompoundK) ln _ _ _ _ _ _ =>
    if s.func_decl_flag = 1 then some { s with func_decl_flag := 0 }
    else
      match s.currentScope with
      | none => none
      | some c =>
        match s.tab.scopes[c]? with
        | none => none
        | some cr =>
          match findScope s.tab (blockScopeName cr.name ln) s.currentScope with
          | none => none
          | some sc => some { s with currentScope := sc }
  | .node _ _ _ _ _ _ _ _ => some s

/-- The loop `while (sc->parent != globalScope) sc = sc->parent` of the return check. -/
def functionScope (tab : SymTab) : Nat → ScopeList → Option Nat
  | 0, _ => none
  | _, none => none
  | fuel + 1, some sc =>
    match tab.scopes[sc]? with
    | none => none
    | some r =>
      if r.parent ≠ tab.globalScope then functionScope tab fuel r.parent
      else some sc

/-- The loop of `checkNode` that counts the arguments of a call. -/
def countArgs : TreeNode → Nat
  | .null => 0
  | .node _ _ _ _ _ _ _ sib => countArgs sib + 1

/-- The value a read of `l->func.param[p]` yields: the entry written by the declaration
pass or by `init_symtab`, or else the unwritten contents `junk p` of the record (a type,
and the text that printing the unwritten `name` gives where the run goes on). -/
def FuncRec.paramAt (f : FuncRec) (junk : Nat → ParamRec) (p : Nat) : ParamRec :=
  match f.param p with
  | some pr => pr
  | none => junk p

/-- The value a read of `l->func.params` yields. -/
def FuncRec.paramsRead (f : FuncRec) (junk : Int) : Int :=
  match f.params with
  | some n => (n : Int)
  | none => junk

/-- The value a read of `l->func.type` yields. -/
def FuncRec.typeRead (f : FuncRec) (junk : ExpType) : ExpType :=
  match f.type with
  | some fty => fty
  | none => junk

/-- The loop of `checkNode` that compares the arguments with the parameters, from
position `p` on, `remaining` being `params - p`: the first mismatch, if there is one.
`junk` is what the unwritten entries of `l->func.param` hold. -/
def checkArgs (f : FuncRec) (junk : Nat → ParamRec) :
    Nat → Nat → TreeNode → Option (Option Msg)
  | 0, _, _ => some none
  | _ + 1, _, .null => none
  | remaining + 1, p, .node _ _ nm ty _ _ _ sib =>
    if ty ≠ (f.paramAt junk p).type then
      some (some (.argTypeMismatch (f.paramAt junk p).name nm))
    else checkArgs f junk remaining (p + 1) sib

/-- The procedure `checkNode`; returns the value of `t->type` after the call. -/
def checkNode (t : TreeNode) (s : State) : Option (ExpType × State) :=
  match t with
  | .null => none
  | .node (.StmtK .VoidParamK) _ _ ty _ _ _ _ => some (ty, s)
  | .node (.StmtK .ParamK) _ nm ty _ _ _ _ =>
    if ty = Void ∨ ty = VoidArr then
      (semanticError t (.invalidParamType (typestr ty) nm) s).map (fun s => (ty, s))
    else some (ty, s)
  | .node (.StmtK .VarDeclK) _ nm ty _ _ _ _ =>
    if ty = Void ∨ ty = VoidArr then
      (semanticError t (.invalidVarType (typestr ty) nm) s).map (fun s => (ty, s))
    else some (ty, s)
  | .node (.StmtK .FuncDeclK) _ _ ty _ _ _ _ => some (ty, s)
  | .node (.StmtK .CompoundK) _ _ ty _ _ _ _ => (leaveScope s).map (fun s => (ty, s))
  | .node (.StmtK .IfK) _ _ ty c0 _ _ _
  | .node (.StmtK .IfElseK) _ _ ty c0 _ _ _
  | .node (.StmtK .WhileK) _ _ ty c0 _ _ _ =>
    match c0.type? with
    | none => none
    | some cty =>
      if cty ≠ Integer then
        (semanticError c0 (.invalidCondition (typestr cty)) s).map (fun s => (ty, s))
      else some (ty, s)
  | .node (.StmtK .ReturnK) _ _ ty c0 _ _ _ =>
    match functionScope s.tab s.tab.scopes.length s.currentScope with
    | none => none
    | some sc =>
      match s.tab.scopes[sc]? with
      | none => none
      | some scr =>
        match st_lookup s.tab s.tab.globalScope scr.name with
        | none => none
        | some none => none
        | some (some l) =>
          match s.tab.buckets[l]? with
          | none => none
          | some r =>
            let fty := r.func.typeRead (s.indet.type l)
            match c0.type? with
            | some cty =>
              if fty = Void then
                (semanticError c0 .returnValueInVoid s).map (fun s => (ty, s))
              else if cty ≠ fty then
                (semanticError c0 (.returnTypeMismatch (typestr r.type)) s).map
                  (fun s => (ty, s))
              else some (ty, s)
            | none =>
              if fty ≠ Void then
                (semanticError t .returnNoValue s).map (fun s => (ty, s))
              else some (ty, s)
  | .node (.ExpK .OpK) _ _ ty c0 c1 _ _ =>
    match c0.type? with
    | none => none
    | some t0 =>
      if t0 = ErrorExp then some (ErrorExp, s)
      else
        match c1.type? with
        | none => none
        | some t1 =>
          if t1 = ErrorExp then some (ErrorExp, s)
          else if t0 ≠ Integer ∨ t1 ≠ Integer then
            (semanticError t (.opNotAllowed (typestr t0) (typestr t1)) s).map
              (fun s => (ty, s))
          else some (Integer, s)
  | .node (.ExpK .ConstK) _ _ _ _ _ _ _ => some (Integer, s)
  | .node (.ExpK .AssignK) _ _ ty c0 c1 _ _ =>
    match c0.kind?, c0.type? with
    | some (.StmtK _), _ =>
      (semanticError t .assignLeftNotExpression s).map (fun s => (ty, s))
    | some (.ExpK k0), some t0 =>
      if t0 = ErrorExp then some (ErrorExp, s)
      else
        match c1.type? with
        | none => none
        | some t1 =>
          if t1 = ErrorExp then some (ErrorExp, s)
          else if k0 ≠ .VarAccessK ∨ t0 = Function ∨ t0 = IntegerArr ∨ t0 = VoidArr then
            (semanticError t .lvalueRequired s).map (fun s => (ty, s))
          else if t0 ≠ t1 then
            (semanticError t .assignTypeMismatch s).map (fun s => (ty, s))
          else some (t0, s)
    | _, _ => none
  | .node (.ExpK .VarAccessK) _ nm _ c0 _ _ _ =>
    match st_lookup s.tab s.currentScope nm with
    | none => none
    | some none => some (ErrorExp, s)
    | some (some l) =>
      match s.tab.buckets[l]? with
      | none => none
      | some r =>
        match c0.type? with
        | none => some (r.type, s)
        | some ity =>
          if ity = ErrorExp then some (ErrorExp, s)
          else if r.type = IntegerArr ∨ r.type = VoidArr then
            if ity ≠ Integer then
              (semanticError t .arrayIndexNotInteger s).map (fun s => (r.type, s))
            else some (r.type - 2, s)
          else
            (semanticError t .indexOnNonArray s).map (fun s => (r.type, s))
  | .node (.ExpK .CallK) _ nm ty c0 _ _ _ =>
    match st_lookup s.tab s.currentScope nm with
    | none => none
    | some none => some (ErrorExp, s)
    | some (some l) =>
      match s.tab.buckets[l]? with
      | none => none
      | some r =>
        let params := countArgs c0
        let fparams := r.func.paramsRead (s.indet.params l)
        if (params : Int) < fparams then
          (semanticError t (.tooFewArguments nm) s).map (fun s => (ty, s))
        else if (params : Int) > fparams then
          (semanticError t (.tooManyArguments nm) s).map (fun s => (ty, s))
        else
          match checkArgs r.func (s.indet.param l) params 0 c0 with
          | none => none
          | some mismatch =>
            let s? := match mismatch with
              | some m => semanticError t m s
              | none => some s
            match s? with
            | some s => some (r.func.typeRead (s.indet.type l), s)
            | none => none

/-- The procedure `typeCheck`. -/
def typeCheck (syntaxTree : TreeNode) (s : State) : Option (TreeNode × State) :=
  traverse beforeCheckNode checkNode syntaxTree s

/-- Unwritten words that read as zero. -/
def Indet.zero : Indet := ⟨fun _ => 0, fun _ => 0, fun _ _ => ⟨"", 0⟩⟩

/-- The state before the analysis: no table yet, `func_decl_flag` and `Error` as
initialised, nothing written to `listing`; the unwritten words of the records to come
read as zero. -/
def initState : State := ⟨⟨[], [], none⟩, none, 0, false, [], Indet.zero⟩

/-- The two passes in the order the compiler runs them. -/
def analyze (syntaxTree : TreeNode) : Option (TreeNode × State) :=
  match buildSymtab syntaxTree initState with
  | none => none
  | some (t, s) => typeCheck t s

/-- The two passes, started in the state `s`. -/
def analyzeFrom (s : State) (syntaxTree : TreeNode) : Option (TreeNode × State) :=
  match buildSymtab syntaxTree s with
  | none => none
  | some (t, s) => typeCheck t s

/-! ## Reading the linked structures of the symbol table -/

/-- The addresses met when following a link field from `p` until `NULL`: `nxt a` is the
link stored at address `a` (`none` when `a` is not an address of the store). -/
def walk (nxt : Nat → Option (Option Nat)) : Nat → Option Nat → List Nat
  | 0, _ => []
  | _ + 1, none => []
  | fuel + 1, some a =>
    match nxt a with
    | none => []
    | some k => a :: walk nxt fuel k

/-- `Chain nxt p xs`: following the link field from `p` one meets exactly the addresses
`xs`, all of them in the store, and then `NULL`. -/
inductive Chain (nxt : Nat → Option (Option Nat)) : Option Nat → List Nat → Prop where
  | nil : Chain nxt none []
  | cons {a : Nat} {k : Option Nat} {xs : List Nat} :
      nxt a = some k → Chain nxt k xs → Chain nxt (some a) (a :: xs)

/-- The field `next` of the bucket record at an address. -/
def nextOf (buckets : List BucketListRec) (a : Nat) : Option BucketList :=
  buckets[a]?.map (fun r => r.next)

/-- The field `rightSibling` of the scope record at an address. -/
def siblingOf (scopes : List ScopeListRec) (a : Nat) : Option ScopeList :=
  scopes[a]?.map (fun r => r.rightSibling)

/-- The field `parent` of the scope record at an address. -/
def parentOf (scopes : List ScopeListRec) (a : Nat) : Option ScopeList :=
  scopes[a]?.map (fun r => r.parent)

/-- The name of the symbol at an address. -/
def symName (st : SymTab) (b : Nat) : Option String :=
  st.buckets[b]?.map (fun r => r.name)

/-- The name of the scope at an address. -/
def scopeName (st : SymTab) (s : Nat) : Option String :=
  st.scopes[s]?.map (fun r => r.name)

/-- The symbols of the bucket chain that starts at `l`, in chain order. -/
def chainList (st : SymTab) (l : BucketList) : List Nat :=
  walk (nextOf st.buckets) st.buckets.length l

/-- The symbols of the scope's own table: those of its `HASH_TBL_SIZE` chains. -/
def tableOf (st : SymTab) (s : Nat) : List Nat :=
  match st.scopes[s]? with
  | none => []
  | some sr => (List.range HASH_TBL_SIZE).flatMap (fun h => chainList st (sr.bucket h))

/-- The scope chain `s, s.parent, ..., root`. -/
def scopeChain (st : SymTab) (s : Nat) : List Nat :=
  walk (parentOf st.scopes) st.scopes.length (some s)

/-- The direct children of a scope, from `leftMostChild` along `rightSibling`. -/
def children (st : SymTab) (p : Nat) : List Nat :=
  match st.scopes[p]? with
  | none => []
  | some pr => walk (siblingOf st.scopes) st.scopes.length pr.leftMostChild

/-- The table after the branch of `st_insert` that allocates a new symbol. -/
def insertNew (st : SymTab) (s : Nat) (sr : ScopeListRec) (n : String) (t : ExpType)
    (k loc : Int) : SymTab :=
  { st with
    buckets := st.buckets ++ [⟨n, t, [k], loc, FuncRec.fresh, sr.bucket (hash n), some s⟩]
    scopes := st.scopes.set s (sr.setBucket (hash n) (some st.buckets.length)) }

/-- The table after the branch of `st_insert` that appends a line number. -/
def insertLine (st : SymTab) (b : Nat) (r : BucketListRec) (k : Int) : SymTab :=
  { st with buckets := st.buckets.set b { r with lines := r.lines ++ [k] } }

/-- The symbol named `n` in the chain of scope `s` where `n` hashes to, if there is
one: what the inner loop of `st_lookup` finds in `s`. -/
def localFind (st : SymTab) (n : String) (s : Nat) : BucketList :=
  match st.scopes[s]? with
  | none => none
  | some sr =>
    (chainList st (sr.bucket (hash n))).find? (fun b => decide (symName st b = some n))

/-- The table after `createScope` when the parent had no child. -/
def linkFirst (st : SymTab) (n : String) (P : Nat) (pr : ScopeListRec) : SymTab :=
  { st with
    scopes := (st.scopes ++ [newScopeRec n (some P)]).set P
      ({ pr with leftMostChild := some st.scopes.length }) }

/-- The table after `createScope` when the last child of the parent was `last`. -/
def linkLast (st : SymTab) (n : String) (P last : Nat) (lr : ScopeListRec) : SymTab :=
  { st with
    scopes := (st.scopes ++ [newScopeRec n (some P)]).set last
      ({ lr with rightSibling := some st.scopes.length }) }

/-- A bucket chain of scope `s` at index `h`, starting at `l`: it ends, holds symbols
whose owning scope is `s` and whose names hash to `h`, and no name twice. -/
def TableOK (st : SymTab) (s : Nat) (h : Nat) (l : BucketList) : Prop :=
  ∃ xs, Chain (nextOf st.buckets) l xs ∧ xs.length ≤ st.buckets.length ∧
    (∀ b ∈ xs, ∃ r, st.buckets[b]? = some r ∧ r.scope = some s ∧ hash r.name = h) ∧
    (xs.map (symName st)).Nodup

/-- A child chain of scope `p`, starting at `l`: it ends and holds scopes whose parent
is `p`, in the order of their addresses. -/
def KidsOK (scopes : List ScopeListRec) (p : Nat) (l : ScopeList) : Prop :=
  ∃ xs, Chain (siblingOf scopes) l xs ∧ xs.length ≤ scopes.length ∧
    (∀ c ∈ xs, ∃ cr, scopes[c]? = some cr ∧ cr.parent = some p) ∧
    xs.Pairwise (fun a b => a < b)

/-- A parent chain starting at `l`: it ends after fewer scopes than the store holds. -/
def AncOK (scopes : List ScopeListRec) (l : ScopeList) : Prop :=
  ∃ xs, Chain (parentOf scopes) l xs ∧ xs.length < scopes.length

/-- The shape of a symbol table that `init_symtab`, `st_insert`, `buildScope` and
`addChildScope` build: every bucket chain ends, holds symbols of the scope it belongs to
whose names hash to its index and are pairwise different; every child chain ends and holds
scopes whose parent is the scope it starts from, in the order of their addresses; every
parent chain ends. -/
structure WF (st : SymTab) : Prop where
  table : ∀ (s : Nat) (sr : ScopeListRec) (h : Nat), st.scopes[s]? = some sr →
    TableOK st s h (sr.bucket h)
  kids : ∀ (p : Nat) (pr : ScopeListRec), st.scopes[p]? = some pr →
    KidsOK st.scopes p pr.leftMostChild
  anc : ∀ (s : Nat) (sr : ScopeListRec), st.scopes[s]? = some sr → AncOK st.scopes sr.parent

/-- The bucket store `bs2` keeps every record of `bs` up to the fields `lines` and
`func`. -/
def BucketsExt (bs bs2 : List BucketListRec) : Prop :=
  ∀ (b : Nat) (r : BucketListRec), bs[b]? = some r →
    ∃ r2 : BucketListRec, bs2[b]? = some r2 ∧ r2.name = r.name ∧ r2.type = r.type ∧ r2.next = r.next ∧
      r2.scope = r.scope

/-- The scope store `ss2` keeps the name and the parent and sibling links of every
record of `ss`. -/
def ScopesExt (ss ss2 : List ScopeListRec) : Prop :=
  ∀ (a : Nat) (r : ScopeListRec), ss[a]? = some r →
    ∃ r2 : ScopeListRec, ss2[a]? = some r2 ∧ r2.name = r.name ∧ r2.parent = r.parent ∧
      r2.rightSibling = r.rightSibling

/-- What the analyzer relies on between two steps: the table is well-formed and the
cursor `currentScope`, unless `NULL`, is a scope of the table. -/
def State.OK (s : State) : Prop :=
  WF s.tab ∧ ∀ c, s.currentScope = some c → c < s.tab.scopes.length

/-! ## Sample programs -/

/-- A node without children and sibling. -/
def leaf (k : NodeKind) (ln : Int) (nm : String) (ty : ExpType) : TreeNode :=
  .node k ln nm ty .null .null .null .null

/-- The state in which `buildSymtab` leaves the analyzer for a tree (the state before
the analysis if it has no result). -/
def stateAfter (t : TreeNode) : State :=
  match buildSymtab t initState with
  | some (_, s) => s
  | none => initState

/-- The tree of
```
1  int x;
2  void main(void) {
3    int x;
4    x = 1; }
```
-/
def progShadow : TreeNode :=
  .node (.StmtK .VarDeclK) 1 "x" Integer .null .null .null
    (.node (.StmtK .FuncDeclK) 2 "main" Void
      (leaf (.StmtK .VoidParamK) 2 "" Void)
      (.node (.StmtK .CompoundK) 2 "" Void
        (leaf (.StmtK .VarDeclK) 3 "x" Integer)
        (.node (.ExpK .AssignK) 4 "" Void
          (leaf (.ExpK .VarAccessK) 4 "x" Void)
          (leaf (.ExpK .ConstK) 4 "" Void)
          .null .null)
        .null .null)
      .null .null)

/-- The symbol table `buildSymtab` builds for `progShadow`: the scopes `global` (0) and
`main` (1), the symbols `output`, `input`, `x`, `main` of `global` and `x` of `main`. -/
def shadowTab : SymTab := (stateAfter progShadow).tab

/-- The procedure `traverse` with a log: besides the result of `traverse`, the values
of the cursor `currentScope` right after `preProc` and right after `postProc` at each
node, in the order of the calls. -/
def traverseLog (preProc : TreeNode → State → Option State)
    (postProc : TreeNode → State → Option (ExpType × State)) :
    TreeNode → State → Option (List ScopeList × TreeNode × State)
  | .null, s => some ([], .null, s)
  | .node k ln nm ty c0 c1 c2 sib, s =>
    match preProc (.node k ln nm ty c0 c1 c2 sib) s with
    | none => none
    | some s1 =>
    match traverseLog preProc postProc c0 s1 with
    | none => none
    | some (l0, c0, s) =>
    match traverseLog preProc postProc c1 s with
    | none => none
    | some (l1, c1, s) =>
    match traverseLog preProc postProc c2 s with
    | none => none
    | some (l2, c2, s) =>
    match postProc (.node k ln nm ty c0 c1 c2 sib) s with
    | none => none
    | some (ty, s6) =>
    match traverseLog preProc postProc sib s6 with
    | none => none
    | some (ls, sib, s) =>
      some (s1.currentScope :: (l0 ++ l1 ++ l2 ++ s6.currentScope :: ls),
        .node k ln nm ty c0 c1 c2 sib, s)

/-- The cursor log of the declaration pass on a tree. -/
def buildSymtabLog (syntaxTree : TreeNode) (s : State) :
    Option (List ScopeList × TreeNode × State) :=
  match init_symtab with
  | none => none
  | some tab =>
    traverseLog insertNode afterInsertProc syntaxTree
      { s with tab := tab, currentScope := tab.globalScope }

/-- The cursor log of the type-checking pass, run after the declaration pass. -/
def typeCheckLog (syntaxTree : TreeNode) : Option (List ScopeList × TreeNode × State) :=
  match buildSymtab syntaxTree initState with
  | none => none
  | some (t, s) => traverseLog beforeCheckNode checkNode t s

/-- The tree of
```
1  void f(void) { }
2  void f(void) { }
```
-/
def progRedeclared : TreeNode :=
  .node (.StmtK .FuncDeclK) 1 "f" Void
    (leaf (.StmtK .VoidParamK) 1 "" Void)
    (leaf (.StmtK .CompoundK) 1 "" Void)
    .null
    (.node (.StmtK .FuncDeclK) 2 "f" Void
      (leaf (.StmtK .VoidParamK) 2 "" Void)
      (leaf (.StmtK .CompoundK) 2 "" Void)
      .null .null)

/-- The tree of
```
1  void main(void) {
2    output(undeclared); }
```
-/
def progUndeclaredArg : TreeNode :=
  .node (.StmtK .FuncDeclK) 1 "main" Void
    (leaf (.StmtK .VoidParamK) 1 "" Void)
    (.node (.StmtK .CompoundK) 1 "" Void
      .null
      (.node (.ExpK .CallK) 2 "output" Void
        (leaf (.ExpK .VarAccessK) 2 "undeclared" Void) .null .null .null)
      .null .null)
    .null .null

/-- The arguments of a call, first to last: the name and the type of each node on the
sibling chain that starts at `child[0]`. -/
def argList : TreeNode → List (String × ExpType)
  | .null => []
  | .node _ _ nm ty _ _ _ sib => (nm, ty) :: argList sib

/-- The call `input(1)` at line 5, its `type` field holding `Void` and its argument
already typed. -/
def callInputOne : TreeNode :=
  .node (.ExpK .CallK) 5 "input" Void (leaf (.ExpK .ConstK) 5 "" Integer) .null .null .null

/-- The state after `semanticError` for a node at line `ln`. -/
def State.report (s : State) (m : Msg) (ln : Int) : State :=
  { s with listing := s.listing ++ [⟨m, ln⟩], Error := true }

/-- The call `output(1)` at line 5, its argument already typed. -/
def callOutputOne : TreeNode :=
  .node (.ExpK .CallK) 5 "output" Void (leaf (.ExpK .ConstK) 5 "" Integer) .null .null .null

/-- The tree of
```
1  int h(void) {
2    { return 1; } }
```
-/
def progReturn : TreeNode :=
  .node (.StmtK .FuncDeclK) 1 "h" Integer
    (leaf (.StmtK .VoidParamK) 1 "" Void)
    (.node (.StmtK .CompoundK) 1 "" Void
      .null
      (.node (.StmtK .CompoundK) 2 "" Void
        .null
        (.node (.StmtK .ReturnK) 2 "" Void (leaf (.ExpK .ConstK) 2 "" Void) .null .null .null)
        .null .null)
      .null .null)
    .null .null

/-- The tree of
```
1  int a[5];
2  void main(void) {
3    a[0]; }
```
-/
def progArray : TreeNode :=
  .node (.StmtK .VarDeclK) 1 "a" IntegerArr (leaf (.ExpK .ConstK) 1 "" Void) .null .null
    (.node (.StmtK .FuncDeclK) 2 "main" Void
      (leaf (.StmtK .VoidParamK) 2 "" Void)
      (.node (.StmtK .CompoundK) 2 "" Void
        .null
        (.node (.ExpK .VarAccessK) 3 "a" Void (leaf (.ExpK .ConstK) 3 "" Void) .null .null .null)
        .null .null)
      .null .null)

/-- The tree of
```
1  int f;
2  void f(void) { }
```
-/
def progVarFunction : TreeNode :=
  .node (.StmtK .VarDeclK) 1 "f" Integer .null .null .null
    (.node (.StmtK .FuncDeclK) 2 "f" Void
      (leaf (.StmtK .VoidParamK) 2 "" Void)
      (leaf (.StmtK .CompoundK) 2 "" Void)
      .null .null)

/-- One call of a procedure of the analyzer either leaves the diagnostics and the flag
as they are or writes one diagnostic and sets the flag. -/
def Step (s s2 : State) : Prop :=
  (s2.listing = s.listing ∧ s2.Error = s.Error) ∨
  ∃ d, s2.listing = s.listing ++ [d] ∧ s2.Error = true

/-- Several calls: the diagnostics grow by a list `ds`; the flag is set if `ds` is not
empty and kept if it is. -/
def Grows (s s2 : State) : Prop :=
  ∃ ds, s2.listing = s.listing ++ ds ∧ (ds = [] → s2.Error = s.Error) ∧
    (ds ≠ [] → s2.Error = true)

/-- The operator node `1 + v` at line 2 with its `type` field holding `Void`, the left
operand typed `Integer` and the right operand, a call, typed `Void`. -/
def opIntVoid : TreeNode :=
  .node (.ExpK .OpK) 2 "" Void (leaf (.ExpK .ConstK) 2 "" Integer)
    (leaf (.ExpK .CallK) 2 "output" Void) .null .null

/-- The tree of
```
1  void main(void) {
2    (1 + output(1)) + 1; }
```
-/
def progOpCascade : TreeNode :=
  .node (.StmtK .FuncDeclK) 1 "main" Void
    (leaf (.StmtK .VoidParamK) 1 "" Void)
    (.node (.StmtK .CompoundK) 1 "" Void
      .null
      (.node (.ExpK .OpK) 2 "" Void
        (.node (.ExpK .OpK) 2 "" Void
          (leaf (.ExpK .ConstK) 2 "" Void)
          (.node (.ExpK .CallK) 2 "output" Void (leaf (.ExpK .ConstK) 2 "" Void)
            .null .null .null)
          .null .null)
        (leaf (.ExpK .ConstK) 2 "" Void)
        .null .null)
      .null .null)
    .null .null

/-- The part of a scope record that makes the shape of the scope tree: the name and
the links to the parent, the first child and the next sibling. -/
def scopeLinks (r : ScopeListRec) : String × ScopeList × ScopeList × ScopeList :=
  (r.name, r.parent, r.leftMostChild, r.rightSibling)

/-- The two tables have the same scope tree: the same scopes at the same addresses
with the same names and links. -/
def SameTree (st st2 : SymTab) : Prop :=
  st2.scopes.map scopeLinks = st.scopes.map scopeLinks

/-- Scope `S` holds a symbol named `n` in its own table. -/
def Declares (st : SymTab) (S : Nat) (n : String) : Prop :=
  ∃ b ∈ tableOf st S, symName st b = some n

/-- A chain of parameter nodes without children: `ParamK` and `VoidParamK` nodes linked
by `sibling`. -/
def paramChain : TreeNode → Bool
  | .null => true
  | .node (.StmtK .ParamK) _ _ _ .null .null .null sib => paramChain sib
  | .node (.StmtK .VoidParamK) _ _ _ .null .null .null sib => paramChain sib
  | _ => false

/-- The names of the `ParamK` nodes on a chain of parameter nodes. -/
def paramNames : TreeNode → List String
  | .null => []
  | .node (.StmtK .ParamK) _ nm _ _ _ _ sib => nm :: paramNames sib
  | .node _ _ _ _ _ _ _ sib => paramNames sib

/-- The tree of
```
1  void f(int a) {
2    int a; }
```
-/
def progParamShadow : TreeNode :=
  .node (.StmtK .FuncDeclK) 1 "f" Void
    (leaf (.StmtK .ParamK) 1 "a" Integer)
    (.node (.StmtK .CompoundK) 1 "" Void
      (leaf (.StmtK .VarDeclK) 2 "a" Integer) .null .null .null)
    .null .null

/-- The tree of
```
1  void g(void) { }
2  void main(void) {
3    g(); }
```
-/
def progVoidCall : TreeNode :=
  .node (.StmtK .FuncDeclK) 1 "g" Void
    (leaf (.StmtK .VoidParamK) 1 "" Void)
    (leaf (.StmtK .CompoundK) 1 "" Void)
    .null
    (.node (.StmtK .FuncDeclK) 2 "main" Void
      (leaf (.StmtK .VoidParamK) 2 "" Void)
      (.node (.StmtK .CompoundK) 2 "" Void
        .null
        (leaf (.ExpK .CallK) 3 "g" Void)
        .null .null)
      .null .null)

/-- The tree of
```
1  void main(void) { { int a; } { int a[5]; a[0]; } }
```
-/
def progSameLine : TreeNode :=
  .node (.StmtK .FuncDeclK) 1 "main" Void
    (leaf (.StmtK .VoidParamK) 1 "" Void)
    (.node (.StmtK .CompoundK) 1 "" Void
      .null
      (.node (.StmtK .CompoundK) 1 "" Void
        (leaf (.StmtK .VarDeclK) 1 "a" Integer)
        .null .null
        (.node (.StmtK .CompoundK) 1 "" Void
          (.node (.StmtK .VarDeclK) 1 "a" IntegerArr (leaf (.ExpK .ConstK) 1 "" Void)
            .null .null .null)
          (.node (.ExpK .VarAccessK) 1 "a" Void (leaf (.ExpK .ConstK) 1 "" Void)
            .null .null .null)
          .null .null))
      .null .null)
    .null .null

/-- The table `st2` keeps what the table `st` holds: every symbol record up to the
fields `lines` and `func`, the name and the parent of every scope, and every symbol of
every scope's table. -/
def Keeps (st st2 : SymTab) : Prop :=
  BucketsExt st.buckets st2.buckets ∧ st.scopes.length ≤ st2.scopes.length ∧
  (∀ a, a < st.scopes.length →
    scopeName st2 a = scopeName st a ∧ parentOf st2.scopes a = parentOf st.scopes a) ∧
  ∀ a b, b ∈ tableOf st a → b ∈ tableOf st2 a

/-- The tree of
```
1  int input;
```
-/
def progDeclInput : TreeNode := leaf (.StmtK .VarDeclK) 1 "input" Integer

/-- The tree of
```
1  void output(void) { }
```
-/
def progDeclOutput : TreeNode :=
  .node (.StmtK .FuncDeclK) 1 "output" Void
    (leaf (.StmtK .VoidParamK) 1 "" Void)
    (leaf (.StmtK .CompoundK) 1 "" Void)
    .null .null

/-- The tree of
```
1  void main(void) {
2    output(input()); }
```
-/
def progBuiltinCall : TreeNode :=
  .node (.StmtK .FuncDeclK) 1 "main" Void
    (leaf (.StmtK .VoidParamK) 1 "" Void)
    (.node (.StmtK .CompoundK) 1 "" Void
      .null
      (.node (.ExpK .CallK) 2 "output" Void (leaf (.ExpK .CallK) 2 "input" Void)
        .null .null .null)
      .null .null)
    .null .null

/-- The tree of
```
1  void main(void) {
2    x; }
3  int x;
```
-/
def progUseBeforeDecl : TreeNode :=
  .node (.StmtK .FuncDeclK) 1 "main" Void
    (leaf (.StmtK .VoidParamK) 1 "" Void)
    (.node (.StmtK .CompoundK) 1 "" Void
      .null
      (leaf (.ExpK .VarAccessK) 2 "x" Void)
      .null .null)
    .null
    (leaf (.StmtK .VarDeclK) 3 "x" Integer)

/-- The tree of
```
1  void main(void) {
2    x[0]; }
3  int x;
```
-/
def progIndexBeforeDecl : TreeNode :=
  .node (.StmtK .FuncDeclK) 1 "main" Void
    (leaf (.StmtK .VoidParamK) 1 "" Void)
    (.node (.StmtK .CompoundK) 1 "" Void
      .null
      (.node (.ExpK .VarAccessK) 2 "x" Void (leaf (.ExpK .ConstK) 2 "" Void)
        .null .null .null)
      .null .null)
    .null
    (leaf (.StmtK .VarDeclK) 3 "x" Integer)

/-- The state before the analysis when the unwritten parameter counts of the records to
come read as `v`, all other unwritten words as zero. -/
def countState (v : Int) : State :=
  { initState with indet := { Indet.zero with params := fun _ => v } }

/-- The tree of
```
1  void main(void) {
2    int x;
3    x = input(1); }
```
-/
def progStaleCall : TreeNode :=
  .node (.StmtK .FuncDeclK) 1 "main" Void
    (leaf (.StmtK .VoidParamK) 1 "" Void)
    (.node (.StmtK .CompoundK) 1 "" Void
      (leaf (.StmtK .VarDeclK) 2 "x" Integer)
      (.node (.ExpK .AssignK) 3 "" Void
        (leaf (.ExpK .VarAccessK) 3 "x" Void)
        (.node (.ExpK .CallK) 3 "input" Void (leaf (.ExpK .ConstK) 3 "" Void)
          .null .null .null)
        .null .null)
      .null .null)
    .null .null

/-- The tree of
```
1  int h(void){ { } { { return 1; } } }
```
-/
def progReturnBlocks : TreeNode :=
  .node (.StmtK .FuncDeclK) 1 "h" Integer
    (leaf (.StmtK .VoidParamK) 1 "" Void)
    (.node (.StmtK .CompoundK) 1 "" Void
      .null
      (.node (.StmtK .CompoundK) 1 "" Void
        .null .null .null
        (.node (.StmtK .CompoundK) 1 "" Void
          .null
          (.node (.StmtK .CompoundK) 1 "" Void
            .null
            (.node (.StmtK .ReturnK) 1 "" Void (leaf (.ExpK .ConstK) 1 "" Void)
              .null .null .null)
            .null .null)
          .null .null))
      .null .null)
    .null .null

/-- The tree holds a declaration of the name `n`: a `VarDeclK`, `ParamK` or `FuncDeclK`
node named `n`, at any place. -/
def declaresName (n : String) : TreeNode → Bool
  | .null => false
  | .node k _ nm _ c0 c1 c2 sib =>
    (decide (k = .StmtK .VarDeclK ∨ k = .StmtK .ParamK ∨ k = .StmtK .FuncDeclK) && decide (nm = n))
      || declaresName n c0 || declaresName n c1 || declaresName n c2 || declaresName n sib

/-- The table holds the built-in functions as `init_symtab` wrote them, at the addresses
0 and 1 in the table of the scope at address 0, no other symbol has one of their names,
and the parent chain of every scope reaches the scope at address 0. -/
def BuiltinsKept (st : SymTab) : Prop :=
  (∃ ro, st.buckets[0]? = some ro ∧ ro.name = "output" ∧ ro.func.type = some Void ∧
    ro.func.params = some 1 ∧ ro.func.param 0 = some ⟨"value", Integer⟩) ∧
  (∃ ri, st.buckets[1]? = some ri ∧ ri.name = "input" ∧ ri.func.type = some Integer ∧
    ri.func.params = some 0) ∧
  0 ∈ tableOf st 0 ∧ 1 ∈ tableOf st 0 ∧
  (∀ b r, st.buckets[b]? = some r → (r.name = "output" → b = 0) ∧ (r.name = "input" → b = 1)) ∧
  ∀ S, S < st.scopes.length → 0 ∈ scopeChain st S

/-- The bucket store `bs2` keeps the name and the member `func` of every record of `bs`
below the address `n`. -/
def FuncsKept (n : Nat) (bs bs2 : List BucketListRec) : Prop :=
  ∀ (b : Nat) (r : BucketListRec), b < n → bs[b]? = some r →
    ∃ r2 : BucketListRec, bs2[b]? = some r2 ∧ r2.name = r.name ∧ r2.func = r.func

/-! ## Chains of links -/

theorem walk_of_chain {nxt : Nat → Option (Option Nat)} {p : Option Nat} {xs : List Nat}
    (hc : Chain nxt p xs) : ∀ fuel, xs.length ≤ fuel → walk nxt fuel p = xs := by
  induction hc with
  | nil => intro fuel _; cases fuel <;> rfl
  | cons hn _ ih =>
    intro fuel hf
    cases fuel with
    | zero => simp at hf
    | succ f =>
      simp only [walk, hn]
      rw [ih f (by simpa using hf)]

theorem chain_congr {nxt nxt2 : Nat → Option (Option Nat)} {p : Option Nat} {xs : List Nat}
    (hc : Chain nxt p xs) (h : ∀ a ∈ xs, nxt2 a = nxt a) : Chain nxt2 p xs := by
  induction hc with
  | nil => exact Chain.nil
  | cons hn _ ih =>
    refine Chain.cons ?_ (ih fun a ha => h a (List.mem_cons_of_mem _ ha))
    rw [h _ (List.mem_cons_self _ _)]; exact hn

theorem chain_unique {nxt : Nat → Option (Option Nat)} {p : Option Nat} {xs ys : List Nat}
    (hx : Chain nxt p xs) (hy : Chain nxt p ys) : xs = ys := by
  induction hx generalizing ys with
  | nil => cases hy; rfl
  | cons hn _ ih =>
    cases hy with
    | cons hn2 hy2 =>
      rw [hn] at hn2
      cases hn2
      rw [ih hy2]

theorem chain_valid {nxt : Nat → Option (Option Nat)} {p : Option Nat} {xs : List Nat}
    (hc : Chain nxt p xs) : ∀ a ∈ xs, ∃ k, nxt a = some k := by
  induction hc with
  | nil => intro a ha; cases ha
  | cons hn _ ih =>
    intro b hb
    rcases List.mem_cons.1 hb with rfl | hb
    · exact ⟨_, hn⟩
    · exact ih b hb

/-- The chain that starts at a member of a chain is a suffix of it. -/
theorem chain_suffix {nxt : Nat → Option (Option Nat)} {p : Option Nat} {xs : List Nat}
    (hc : Chain nxt p xs) : ∀ a ∈ xs, ∃ pre post, xs = pre ++ a :: post ∧
      Chain nxt (some a) (a :: post) := by
  induction hc with
  | nil => intro a ha; cases ha
  | @cons a0 k xs0 hn hc0 ih =>
    intro b hb
    rcases List.mem_cons.1 hb with rfl | hb
    · exact ⟨[], xs0, rfl, Chain.cons hn hc0⟩
    · obtain ⟨pre, post, h1, h2⟩ := ih b hb
      exact ⟨a0 :: pre, post, by rw [h1]; rfl, h2⟩

theorem chain_nodup {nxt : Nat → Option (Option Nat)} {p : Option Nat} {xs : List Nat}
    (hc : Chain nxt p xs) : xs.Nodup := by
  induction hc with
  | nil => exact List.nodup_nil
  | @cons a k xs0 hn hc0 ih =>
    refine List.nodup_cons.2 ⟨?_, ih⟩
    intro ha
    obtain ⟨pre, post, h1, h2⟩ := chain_suffix hc0 a ha
    have h3 := chain_unique h2 (Chain.cons hn hc0)
    have : (a :: post).length = (a :: xs0).length := by rw [h3]
    rw [h1] at this
    simp at this
    omega

/-- Appending at the end of a chain: the last link is redirected to a new address. -/
theorem chain_snoc {nxt nxt2 : Nat → Option (Option Nat)} {p : Option Nat} {xs : List Nat}
    {last c : Nat} (hc : Chain nxt p (xs ++ [last])) (hcx : c ∉ xs ++ [last])
    (hlast : nxt2 last = some (some c)) (hnew : nxt2 c = some none)
    (hsame : ∀ a, a ≠ last → a ≠ c → nxt2 a = nxt a) :
    Chain nxt2 p (xs ++ [last] ++ [c]) := by
  have hnd := chain_nodup hc
  induction xs generalizing p with
  | nil =>
    cases hc with
    | cons hn hc0 =>
      cases hc0
      exact Chain.cons hlast (Chain.cons hnew Chain.nil)
  | cons x xs ih =>
    cases hc with
    | cons hn hc0 =>
      have hx1 : x ≠ last := by
        intro h
        have := (List.nodup_cons.1 hnd).1
        apply this; rw [h]; simp
      have hx2 : x ≠ c := by
        intro h; apply hcx; rw [h]; simp
      refine Chain.cons (by rw [hsame x hx1 hx2]; exact hn) ?_
      exact ih hc0 (fun h => hcx (List.mem_cons_of_mem _ h)) (List.nodup_cons.1 hnd).2

/-! ## Lookup in one table -/

theorem hashLoop_lt (cs : List Char) : ∀ temp, temp < HASH_TBL_SIZE → hashLoop cs temp < HASH_TBL_SIZE := by
  induction cs with
  | nil => intro temp h; exact h
  | cons c cs ih =>
    intro temp _
    exact ih _ (Nat.mod_lt _ (by decide))

theorem hash_lt (key : String) : hash key < HASH_TBL_SIZE :=
  hashLoop_lt _ 0 (by decide)

theorem chainList_eq {st : SymTab} {l : BucketList} {xs : List Nat}
    (hc : Chain (nextOf st.buckets) l xs) (hl : xs.length ≤ st.buckets.length) :
    chainList st l = xs :=
  walk_of_chain hc _ hl

theorem mem_tableOf {st : SymTab} {s b : Nat} :
    b ∈ tableOf st s ↔ ∃ sr, st.scopes[s]? = some sr ∧
      ∃ h, h < HASH_TBL_SIZE ∧ b ∈ chainList st (sr.bucket h) := by
  unfold tableOf
  cases hs : st.scopes[s]? with
  | none => simp
  | some sr => simp [List.mem_flatMap]

/-- What membership in a scope's table means for the record of a symbol. -/
theorem tableOf_props {st : SymTab} (hwf : WF st) {s b : Nat} (hb : b ∈ tableOf st s) :
    ∃ sr r, st.scopes[s]? = some sr ∧ st.buckets[b]? = some r ∧ r.scope = some s ∧
      b ∈ chainList st (sr.bucket (hash r.name)) := by
  obtain ⟨sr, hs, h, _, hmem⟩ := mem_tableOf.1 hb
  obtain ⟨xs, hc, hl, hp, _⟩ := hwf.table s sr h hs
  rw [chainList_eq hc hl] at hmem
  obtain ⟨r, hr, hsc, hh⟩ := hp b hmem
  refine ⟨sr, r, hs, hr, hsc, ?_⟩
  rw [hh, chainList_eq hc hl]; exact hmem

/-- Two symbols of one table with the same name are the same symbol. -/
theorem tableOf_unique {st : SymTab} (hwf : WF st) {s b b2 : Nat} {n : String}
    (hb : b ∈ tableOf st s) (hb2 : b2 ∈ tableOf st s)
    (hn : symName st b = some n) (hn2 : symName st b2 = some n) : b = b2 := by
  obtain ⟨sr, r, hs, hr, _, hm⟩ := tableOf_props hwf hb
  obtain ⟨sr2, r2, hs2, hr2, _, hm2⟩ := tableOf_props hwf hb2
  rw [hs] at hs2; cases hs2
  have e1 : r.name = n := by simpa [symName, hr] using hn
  have e2 : r2.name = n := by simpa [symName, hr2] using hn2
  rw [e1] at hm; rw [e2] at hm2
  obtain ⟨xs, hc, hl, _, hnd⟩ := hwf.table s sr (hash n) hs
  rw [chainList_eq hc hl] at hm hm2
  exact List.inj_on_of_nodup_map hnd hm hm2 (by rw [hn, hn2])

theorem bucketLoop_of_chain {st : SymTab} {n : String} {l : BucketList} {xs : List Nat}
    (hc : Chain (nextOf st.buckets) l xs) : ∀ fuel, xs.length ≤ fuel →
    bucketLoop st.buckets n fuel l =
      some (xs.find? (fun b => decide (symName st b = some n))) := by
  induction hc with
  | nil => intro fuel _; cases fuel <;> rfl
  | @cons a k xs0 hn _ ih =>
    intro fuel hf
    cases fuel with
    | zero => simp at hf
    | succ f =>
      unfold nextOf at hn
      cases hr : st.buckets[a]? with
      | none => simp [hr] at hn
      | some r =>
        simp only [hr, Option.map_some', Option.some.injEq] at hn
        simp only [bucketLoop, hr, List.find?_cons, symName, Option.map_some']
        by_cases e : r.name = n
        · simp [e]
        · simp only [e, if_false, Option.some.injEq, decide_False]
          rw [hn]
          exact ih f (by simpa using hf)

/-- The inner loop of `st_lookup` and `st_insert` finds the symbol of the table with
the given name. -/
theorem bucketLoop_table {st : SymTab} (hwf : WF st) {s : Nat} {sr : ScopeListRec}
    (hs : st.scopes[s]? = some sr) (n : String) :
    ∃ r, bucketLoop st.buckets n st.buckets.length (sr.bucket (hash n)) = some r ∧
      (∀ b, r = some b → b ∈ tableOf st s ∧ symName st b = some n) ∧
      (r = none → ∀ b ∈ tableOf st s, symName st b ≠ some n) := by
  obtain ⟨xs, hc, hl, hp, _⟩ := hwf.table s sr (hash n) hs
  refine ⟨_, bucketLoop_of_chain hc _ hl, ?_, ?_⟩
  · intro b hb
    have h1 := List.find?_some hb
    have h2 := List.mem_of_find?_eq_some hb
    refine ⟨mem_tableOf.2 ⟨sr, hs, hash n, hash_lt n, ?_⟩, by simpa using h1⟩
    rw [chainList_eq hc hl]; exact h2
  · intro hnone b hb hname
    obtain ⟨sr2, r, hs2, hr, _, hm⟩ := tableOf_props hwf hb
    rw [hs] at hs2; cases hs2
    have e1 : r.name = n := by simpa [symName, hr] using hname
    rw [e1, chainList_eq hc hl] at hm
    have := List.find?_eq_none.1 hnone b hm
    simp [hname] at this

/-! ## `st_lookup` -/

/-- The parent chain of a scope of a well-formed table is complete. -/
theorem scopeChain_chain {st : SymTab} (hwf : WF st) {s : Nat} (hs : s < st.scopes.length) :
    Chain (parentOf st.scopes) (some s) (scopeChain st s) ∧
      (scopeChain st s).length ≤ st.scopes.length := by
  obtain ⟨sr, hsr⟩ : ∃ sr, st.scopes[s]? = some sr := ⟨_, List.getElem?_eq_getElem hs⟩
  obtain ⟨xs, hc, hl⟩ := hwf.anc s sr hsr
  have hc2 : Chain (parentOf st.scopes) (some s) (s :: xs) :=
    Chain.cons (by simp [parentOf, hsr]) hc
  have hl2 : (s :: xs).length ≤ st.scopes.length := by simpa using hl
  have : scopeChain st s = s :: xs := walk_of_chain hc2 _ hl2
  rw [this]; exact ⟨hc2, hl2⟩

/-- The outer loop of `st_lookup` along a complete parent chain. -/
theorem st_lookupLoop_spec {st : SymTab} (hwf : WF st) (n : String) {p : ScopeList}
    {ys : List Nat} (hc : Chain (parentOf st.scopes) p ys) :
    ∀ fuel, ys.length ≤ fuel →
    ∃ r, st_lookupLoop st n (hash n) fuel p = some r ∧
      (∀ b, r = some b → ∃ pre s post, ys = pre ++ s :: post ∧
        b ∈ tableOf st s ∧ symName st b = some n ∧
        ∀ s2 ∈ pre, ∀ b2 ∈ tableOf st s2, symName st b2 ≠ some n) ∧
      (r = none → ∀ s ∈ ys, ∀ b ∈ tableOf st s, symName st b ≠ some n) := by
  induction hc with
  | nil =>
    intro fuel _
    refine ⟨none, by cases fuel <;> rfl, by simp, by simp⟩
  | @cons a k ys0 hn _ ih =>
    intro fuel hf
    cases fuel with
    | zero => simp at hf
    | succ f =>
      unfold parentOf at hn
      cases hr : st.scopes[a]? with
      | none => simp [hr] at hn
      | some sr =>
        simp only [hr, Option.map_some', Option.some.injEq] at hn
        obtain ⟨r, hloop, hsome, hnone⟩ := bucketLoop_table hwf hr n
        cases r with
        | some b =>
          refine ⟨some b, by simp [st_lookupLoop, hr, hloop], ?_, by simp⟩
          intro b2 hb2
          cases hb2
          obtain ⟨h1, h2⟩ := hsome b rfl
          exact ⟨[], a, ys0, rfl, h1, h2, by simp⟩
        | none =>
          obtain ⟨r2, hrec, hsome2, hnone2⟩ := ih f (by simpa using hf)
          refine ⟨r2, by simp [st_lookupLoop, hr, hloop, hn, hrec], ?_, ?_⟩
          · intro b hb
            obtain ⟨pre, s, post, e, h1, h2, h3⟩ := hsome2 b hb
            refine ⟨a :: pre, s, post, by rw [e]; rfl, h1, h2, ?_⟩
            intro s2 hs2
            rcases List.mem_cons.1 hs2 with rfl | hs2
            · exact hnone rfl
            · exact h3 s2 hs2
          · intro hr2 s hs
            rcases List.mem_cons.1 hs with rfl | hs
            · exact hnone rfl
            · exact hnone2 hr2 s hs

/-- C1: in a well-formed symbol table, `st_lookup(S, n)` returns a result; when it
returns a symbol, the scope chain `S, S.parent, ..., root` splits at a scope whose own
table holds that symbol, the symbol is named `n`, it is the only symbol of that table
named `n`, and no table of a scope nearer to `S` holds a symbol named `n`; it returns
`NULL` exactly when no table of a scope on the chain holds a symbol named `n`. -/
theorem st_lookup_nearest (st : SymTab) (hwf : WF st) (S : Nat) (hS : S < st.scopes.length)
    (n : String) :
    Chain (parentOf st.scopes) (some S) (scopeChain st S) ∧
    ∃ r, st_lookup st (some S) n = some r ∧
      (∀ b, r = some b → ∃ pre s post, scopeChain st S = pre ++ s :: post ∧
        b ∈ tableOf st s ∧ symName st b = some n ∧
        (∀ b2 ∈ tableOf st s, symName st b2 = some n → b2 = b) ∧
        ∀ s2 ∈ pre, ∀ b2 ∈ tableOf st s2, symName st b2 ≠ some n) ∧
      (r = none ↔ ∀ s ∈ scopeChain st S, ∀ b ∈ tableOf st s, symName st b ≠ some n) := by
  obtain ⟨hc, hl⟩ := scopeChain_chain hwf hS
  refine ⟨hc, ?_⟩
  obtain ⟨r, hr, hsome, hnone⟩ := st_lookupLoop_spec hwf n hc _ hl
  refine ⟨r, hr, ?_, hnone, ?_⟩
  · intro b hb
    obtain ⟨pre, s, post, e, h1, h2, h3⟩ := hsome b hb
    exact ⟨pre, s, post, e, h1, h2, fun b2 hb2 hn2 => tableOf_unique hwf hb2 h1 hn2 h2, h3⟩
  · intro hall
    cases r with
    | none => rfl
    | some b =>
      obtain ⟨pre, s, post, e, h1, h2, _⟩ := hsome b rfl
      exact absurd h2 (hall s (by rw [e]; simp) b h1)

/-! ## Stores that keep their records -/

theorem bucketsExt_refl (bs : List BucketListRec) : BucketsExt bs bs :=
  fun _ r hr => ⟨r, hr, rfl, rfl, rfl, rfl⟩

theorem bucketsExt_trans {a b c : List BucketListRec} (h1 : BucketsExt a b)
    (h2 : BucketsExt b c) : BucketsExt a c := by
  intro i r hr
  obtain ⟨r2, hr2, e1, e2, e3, e4⟩ := h1 i r hr
  obtain ⟨r3, hr3, f1, f2, f3, f4⟩ := h2 i r2 hr2
  exact ⟨r3, hr3, f1.trans e1, f2.trans e2, f3.trans e3, f4.trans e4⟩

theorem bucketsExt_length_le {a b : List BucketListRec} (h : BucketsExt a b) :
    a.length ≤ b.length := by
  by_contra hlt
  have hlt : b.length < a.length := by omega
  obtain ⟨r2, hr2, _⟩ := h b.length _ (List.getElem?_eq_getElem hlt)
  simp at hr2

theorem bucketsExt_append (bs : List BucketListRec) (r : BucketListRec) :
    BucketsExt bs (bs ++ [r]) := by
  intro i ri hi
  have hlt : i < bs.length := (List.getElem?_eq_some.1 hi).1
  exact ⟨ri, by rw [List.getElem?_append_left hlt]; exact hi, rfl, rfl, rfl, rfl⟩

theorem bucketsExt_set (bs : List BucketListRec) (l : Nat) (r r2 : BucketListRec)
    (hr : bs[l]? = some r) (e1 : r2.name = r.name) (e2 : r2.type = r.type)
    (e3 : r2.next = r.next) (e4 : r2.scope = r.scope) : BucketsExt bs (bs.set l r2) := by
  intro i ri hi
  by_cases hil : l = i
  · subst hil
    rw [hr] at hi; cases hi
    have hlt : l < bs.length := (List.getElem?_eq_some.1 hr).1
    exact ⟨r2, List.getElem?_set_self hlt, e1, e2, e3, e4⟩
  · exact ⟨ri, by rw [List.getElem?_set_ne hil]; exact hi, rfl, rfl, rfl, rfl⟩

theorem scopesExt_refl (ss : List ScopeListRec) : ScopesExt ss ss :=
  fun _ r hr => ⟨r, hr, rfl, rfl, rfl⟩

theorem scopesExt_length_le {a b : List ScopeListRec} (h : ScopesExt a b) :
    a.length ≤ b.length := by
  by_contra hlt
  have hlt : b.length < a.length := by omega
  obtain ⟨r2, hr2, _⟩ := h b.length _ (List.getElem?_eq_getElem hlt)
  simp at hr2

theorem scopesExt_append (ss : List ScopeListRec) (r : ScopeListRec) :
    ScopesExt ss (ss ++ [r]) := by
  intro i ri hi
  have hlt : i < ss.length := (List.getElem?_eq_some.1 hi).1
  exact ⟨ri, by rw [List.getElem?_append_left hlt]; exact hi, rfl, rfl, rfl⟩

theorem scopesExt_set (ss : List ScopeListRec) (l : Nat) (r r2 : ScopeListRec)
    (hr : ss[l]? = some r) (e1 : r2.name = r.name) (e2 : r2.parent = r.parent)
    (e3 : r2.rightSibling = r.rightSibling) : ScopesExt ss (ss.set l r2) := by
  intro i ri hi
  by_cases hil : l = i
  · subst hil
    rw [hr] at hi; cases hi
    have hlt : l < ss.length := (List.getElem?_eq_some.1 hr).1
    exact ⟨r2, List.getElem?_set_self hlt, e1, e2, e3⟩
  · exact ⟨ri, by rw [List.getElem?_set_ne hil]; exact hi, rfl, rfl, rfl⟩

theorem nextOf_ext {bs bs2 : List BucketListRec} (h : BucketsExt bs bs2) {a : Nat}
    {k : Option Nat} (ha : nextOf bs a = some k) : nextOf bs2 a = nextOf bs a := by
  unfold nextOf at ha ⊢
  cases hr : bs[a]? with
  | none => simp [hr] at ha
  | some r =>
    obtain ⟨r2, hr2, _, _, e3, _⟩ := h a r hr
    simp [hr2, e3]

theorem symName_ext {st st2 : SymTab} (h : BucketsExt st.buckets st2.buckets) {a : Nat}
    {k : Option Nat} (ha : nextOf st.buckets a = some k) : symName st2 a = symName st a := by
  unfold nextOf at ha
  unfold symName
  cases hr : st.buckets[a]? with
  | none => simp [hr] at ha
  | some r =>
    obtain ⟨r2, hr2, e1, _⟩ := h a r hr
    simp [hr2, e1]

theorem siblingOf_ext {ss ss2 : List ScopeListRec} (h : ScopesExt ss ss2) {a : Nat}
    {k : Option Nat} (ha : siblingOf ss a = some k) : siblingOf ss2 a = siblingOf ss a := by
  unfold siblingOf at ha ⊢
  cases hr : ss[a]? with
  | none => simp [hr] at ha
  | some r =>
    obtain ⟨r2, hr2, _, _, e3⟩ := h a r hr
    simp [hr2, e3]

theorem parentOf_ext {ss ss2 : List ScopeListRec} (h : ScopesExt ss ss2) {a : Nat}
    {k : Option Nat} (ha : parentOf ss a = some k) : parentOf ss2 a = parentOf ss a := by
  unfold parentOf at ha ⊢
  cases hr : ss[a]? with
  | none => simp [hr] at ha
  | some r =>
    obtain ⟨r2, hr2, _, e2, _⟩ := h a r hr
    simp [hr2, e2]

theorem chain_ext_buckets {bs bs2 : List BucketListRec} (h : BucketsExt bs bs2)
    {l : BucketList} {xs : List Nat} (hc : Chain (nextOf bs) l xs) :
    Chain (nextOf bs2) l xs :=
  chain_congr hc fun a ha => by
    obtain ⟨k, hk⟩ := chain_valid hc a ha
    exact nextOf_ext h hk

theorem chain_ext_sibling {ss ss2 : List ScopeListRec} (h : ScopesExt ss ss2)
    {l : ScopeList} {xs : List Nat} (hc : Chain (siblingOf ss) l xs) :
    Chain (siblingOf ss2) l xs :=
  chain_congr hc fun a ha => by
    obtain ⟨k, hk⟩ := chain_valid hc a ha
    exact siblingOf_ext h hk

theorem chain_ext_parent {ss ss2 : List ScopeListRec} (h : ScopesExt ss ss2)
    {l : ScopeList} {xs : List Nat} (hc : Chain (parentOf ss) l xs) :
    Chain (parentOf ss2) l xs :=
  chain_congr hc fun a ha => by
    obtain ⟨k, hk⟩ := chain_valid hc a ha
    exact parentOf_ext h hk

theorem TableOK_mono {st st2 : SymTab} (h : BucketsExt st.buckets st2.buckets)
    {s hh : Nat} {l : BucketList} (hok : TableOK st s hh l) : TableOK st2 s hh l := by
  obtain ⟨xs, hc, hl, hp, hnd⟩ := hok
  refine ⟨xs, chain_ext_buckets h hc, le_trans hl (bucketsExt_length_le h), ?_, ?_⟩
  · intro b hb
    obtain ⟨r, hr, e1, e2⟩ := hp b hb
    obtain ⟨r2, hr2, f1, _, _, f4⟩ := h b r hr
    exact ⟨r2, hr2, f4.trans e1, by rw [f1]; exact e2⟩
  · have : xs.map (symName st2) = xs.map (symName st) :=
      List.map_congr_left fun a ha => by
        obtain ⟨k, hk⟩ := chain_valid hc a ha
        exact symName_ext h hk
    rw [this]; exact hnd

theorem KidsOK_mono {ss ss2 : List ScopeListRec} (h : ScopesExt ss ss2)
    {p : Nat} {l : ScopeList} (hok : KidsOK ss p l) : KidsOK ss2 p l := by
  obtain ⟨xs, hc, hl, hp, hs⟩ := hok
  refine ⟨xs, chain_ext_sibling h hc, le_trans hl (scopesExt_length_le h), ?_, hs⟩
  intro c hc2
  obtain ⟨cr, hcr, e⟩ := hp c hc2
  obtain ⟨r2, hr2, _, f2, _⟩ := h c cr hcr
  exact ⟨r2, hr2, f2.trans e⟩

theorem AncOK_mono {ss ss2 : List ScopeListRec} (h : ScopesExt ss ss2)
    {l : ScopeList} (hok : AncOK ss l) : AncOK ss2 l := by
  obtain ⟨xs, hc, hl⟩ := hok
  exact ⟨xs, chain_ext_parent h hc, lt_of_lt_of_le hl (scopesExt_length_le h)⟩

/-- A table whose stores keep the old records, bucket heads and child heads is
well-formed again. -/
theorem WF_of_ext {st st2 : SymTab} (hwf : WF st)
    (hb : BucketsExt st.buckets st2.buckets) (hs : ScopesExt st.scopes st2.scopes)
    (hrec : ∀ (s : Nat) (sr2 : ScopeListRec), st2.scopes[s]? = some sr2 →
      ∃ sr, st.scopes[s]? = some sr ∧ sr2.bucket = sr.bucket ∧
        sr2.leftMostChild = sr.leftMostChild ∧ sr2.parent = sr.parent) : WF st2 := by
  constructor
  · intro s sr2 h hs2
    obtain ⟨sr, hsr, e1, _, _⟩ := hrec s sr2 hs2
    rw [e1]
    exact TableOK_mono hb (hwf.table s sr h hsr)
  · intro p pr2 hp2
    obtain ⟨pr, hpr, _, e2, _⟩ := hrec p pr2 hp2
    rw [e2]
    exact KidsOK_mono hs (hwf.kids p pr hpr)
  · intro s sr2 hs2
    obtain ⟨sr, hsr, _, _, e3⟩ := hrec s sr2 hs2
    rw [e3]
    exact AncOK_mono hs (hwf.anc s sr hsr)

theorem WF_setFunc {st st2 : SymTab} (hwf : WF st) {l : BucketList} {f : FuncRec → FuncRec}
    (h : setFunc st l f = some st2) : WF st2 := by
  unfold setFunc at h
  cases l with
  | none => simp at h
  | some a =>
    cases hr : st.buckets[a]? with
    | none => simp [hr] at h
    | some r =>
      simp only [hr, Option.some.injEq] at h
      subst h
      exact WF_of_ext hwf (bucketsExt_set _ _ r _ hr rfl rfl rfl rfl) (scopesExt_refl _)
        (fun s sr2 hs2 => ⟨sr2, hs2, rfl, rfl, rfl⟩)

/-! ## `st_insert` -/

theorem st_insert_cases {st : SymTab} (hwf : WF st) {s : Nat} {sr : ScopeListRec}
    (hs : st.scopes[s]? = some sr) (n : String) (t : ExpType) (k loc : Int) :
    ((∀ b ∈ tableOf st s, symName st b ≠ some n) ∧
      st_insert st (some s) n t k loc =
        some (some st.buckets.length, insertNew st s sr n t k loc)) ∨
    (∃ b r, b ∈ tableOf st s ∧ symName st b = some n ∧ st.buckets[b]? = some r ∧
      st_insert st (some s) n t k loc = some (some b, insertLine st b r k)) := by
  obtain ⟨res, hloop, hsome, hnone⟩ := bucketLoop_table hwf hs n
  cases res with
  | none =>
    left
    refine ⟨hnone rfl, ?_⟩
    simp only [st_insert, hs, hloop, insertNew]
  | some b =>
    right
    obtain ⟨h1, h2⟩ := hsome b rfl
    obtain ⟨_, r, _, hr, _, _⟩ := tableOf_props hwf h1
    refine ⟨b, r, h1, h2, hr, ?_⟩
    simp only [st_insert, hs, hloop, hr, insertLine]

theorem chainList_mono {st st2 : SymTab} (h : BucketsExt st.buckets st2.buckets)
    {s hh : Nat} {l : BucketList} (hok : TableOK st s hh l) :
    chainList st2 l = chainList st l := by
  obtain ⟨xs, hc, hl, _, _⟩ := hok
  rw [chainList_eq hc hl, chainList_eq (chain_ext_buckets h hc) (le_trans hl (bucketsExt_length_le h))]

theorem tableOf_mono {st st2 : SymTab} (hwf : WF st)
    (h : BucketsExt st.buckets st2.buckets) {s : Nat} {sr sr2 : ScopeListRec}
    (hs : st.scopes[s]? = some sr) (hs2 : st2.scopes[s]? = some sr2)
    (e : sr2.bucket = sr.bucket) : tableOf st2 s = tableOf st s := by
  unfold tableOf
  rw [hs, hs2]
  simp only [e]
  congr 1
  funext hh
  exact chainList_mono h (hwf.table s sr hh hs)

theorem WF_insertLine {st : SymTab} (hwf : WF st) {b : Nat} {r : BucketListRec}
    (hr : st.buckets[b]? = some r) (k : Int) : WF (insertLine st b r k) :=
  WF_of_ext hwf (bucketsExt_set _ _ r _ hr rfl rfl rfl rfl) (scopesExt_refl _)
    (fun _ sr2 hs2 => ⟨sr2, hs2, rfl, rfl, rfl⟩)

theorem insertNew_table {st : SymTab} (hwf : WF st) {s : Nat} {sr : ScopeListRec}
    (hs : st.scopes[s]? = some sr) (n : String) (t : ExpType) (k loc : Int)
    (hnone : ∀ b ∈ tableOf st s, symName st b ≠ some n) :
    TableOK (insertNew st s sr n t k loc) s (hash n) (some st.buckets.length) := by
  obtain ⟨xs, hc, hl, hp, hnd⟩ := hwf.table s sr (hash n) hs
  have hext : BucketsExt st.buckets (insertNew st s sr n t k loc).buckets :=
    bucketsExt_append _ _
  have hnew : (insertNew st s sr n t k loc).buckets[st.buckets.length]? =
      some ⟨n, t, [k], loc, FuncRec.fresh, sr.bucket (hash n), some s⟩ := by
    simp [insertNew]
  refine ⟨st.buckets.length :: xs, Chain.cons ?_ (chain_ext_buckets hext hc), ?_, ?_, ?_⟩
  · simp [nextOf, hnew]
  · simp [insertNew]; exact hl
  · intro b hb
    rcases List.mem_cons.1 hb with rfl | hb
    · exact ⟨_, hnew, rfl, rfl⟩
    · obtain ⟨r, hr, e1, e2⟩ := hp b hb
      obtain ⟨r2, hr2, f1, _, _, f4⟩ := hext b r hr
      exact ⟨r2, hr2, f4.trans e1, by rw [f1]; exact e2⟩
  · have hmap : xs.map (symName (insertNew st s sr n t k loc)) = xs.map (symName st) :=
      List.map_congr_left fun a ha => by
        obtain ⟨kk, hk⟩ := chain_valid hc a ha
        exact symName_ext hext hk
    rw [List.map_cons, hmap]
    refine List.nodup_cons.2 ⟨?_, hnd⟩
    intro hmem
    obtain ⟨b, hb, hbn⟩ := List.mem_map.1 hmem
    have hbn : symName st b = some n := by
      rw [hbn]; simp [symName, hnew]
    refine hnone b (mem_tableOf.2 ⟨sr, hs, hash n, hash_lt n, ?_⟩) hbn
    rw [chainList_eq hc hl]; exact hb

theorem WF_insertNew {st : SymTab} (hwf : WF st) {s : Nat} {sr : ScopeListRec}
    (hs : st.scopes[s]? = some sr) (n : String) (t : ExpType) (k loc : Int)
    (hnone : ∀ b ∈ tableOf st s, symName st b ≠ some n) :
    WF (insertNew st s sr n t k loc) := by
  have hext : BucketsExt st.buckets (insertNew st s sr n t k loc).buckets :=
    bucketsExt_append _ _
  have hsext : ScopesExt st.scopes (insertNew st s sr n t k loc).scopes :=
    scopesExt_set _ _ sr _ hs rfl rfl rfl
  have hlt : s < st.scopes.length := (List.getElem?_eq_some.1 hs).1
  have hrec : ∀ (s2 : Nat) (sr2 : ScopeListRec),
      (insertNew st s sr n t k loc).scopes[s2]? = some sr2 →
      (s2 = s ∧ sr2 = sr.setBucket (hash n) (some st.buckets.length)) ∨
      (s2 ≠ s ∧ st.scopes[s2]? = some sr2) := by
    intro s2 sr2 h2
    by_cases e : s = s2
    · subst e
      left
      simp only [insertNew, List.getElem?_set_self hlt, Option.some.injEq] at h2
      exact ⟨rfl, h2.symm⟩
    · right
      simp only [insertNew, List.getElem?_set_ne e] at h2
      exact ⟨fun h => e h.symm, h2⟩
  constructor
  · intro s2 sr2 hh h2
    rcases hrec s2 sr2 h2 with ⟨rfl, rfl⟩ | ⟨_, h3⟩
    · by_cases e : hh = hash n
      · subst e
        simp only [ScopeListRec.setBucket, if_true]
        exact insertNew_table hwf hs n t k loc hnone
      · simp only [ScopeListRec.setBucket, e, if_false]
        exact TableOK_mono hext (hwf.table s2 sr hh hs)
    · exact TableOK_mono hext (hwf.table s2 sr2 hh h3)
  · intro s2 sr2 h2
    rcases hrec s2 sr2 h2 with ⟨rfl, rfl⟩ | ⟨_, h3⟩
    · exact KidsOK_mono hsext (hwf.kids s2 sr hs)
    · exact KidsOK_mono hsext (hwf.kids s2 sr2 h3)
  · intro s2 sr2 h2
    rcases hrec s2 sr2 h2 with ⟨rfl, rfl⟩ | ⟨_, h3⟩
    · exact AncOK_mono hsext (hwf.anc s2 sr hs)
    · exact AncOK_mono hsext (hwf.anc s2 sr2 h3)

/-- `st_insert` keeps the table well-formed. -/
theorem WF_st_insert {st st2 : SymTab} (hwf : WF st) {sc : ScopeList} {n : String}
    {t : ExpType} {k loc : Int} {l : BucketList}
    (h : st_insert st sc n t k loc = some (l, st2)) : WF st2 := by
  cases sc with
  | none => simp [st_insert] at h
  | some s =>
    cases hs : st.scopes[s]? with
    | none => simp [st_insert, hs] at h
    | some sr =>
      rcases st_insert_cases hwf hs n t k loc with ⟨hnone, e⟩ | ⟨b, r, _, _, hr, e⟩
      · rw [e] at h
        simp only [Option.some.injEq, Prod.mk.injEq] at h
        rw [← h.2]
        exact WF_insertNew hwf hs n t k loc hnone
      · rw [e] at h
        simp only [Option.some.injEq, Prod.mk.injEq] at h
        rw [← h.2]
        exact WF_insertLine hwf hr k


theorem chainList_insertNew_head {st : SymTab} (hwf : WF st) {s : Nat} {sr : ScopeListRec}
    (hs : st.scopes[s]? = some sr) (n : String) (t : ExpType) (k loc : Int) :
    chainList (insertNew st s sr n t k loc) (some st.buckets.length) =
      st.buckets.length :: chainList st (sr.bucket (hash n)) := by
  obtain ⟨xs, hc, hl, _, _⟩ := hwf.table s sr (hash n) hs
  have hext : BucketsExt st.buckets (insertNew st s sr n t k loc).buckets :=
    bucketsExt_append _ _
  have hnew : (insertNew st s sr n t k loc).buckets[st.buckets.length]? =
      some ⟨n, t, [k], loc, FuncRec.fresh, sr.bucket (hash n), some s⟩ := by
    simp [insertNew]
  have hc2 : Chain (nextOf (insertNew st s sr n t k loc).buckets) (some st.buckets.length)
      (st.buckets.length :: xs) :=
    Chain.cons (by simp [nextOf, hnew]) (chain_ext_buckets hext hc)
  rw [chainList_eq hc hl, chainList_eq hc2 (by simp [insertNew]; exact hl)]

theorem tableOf_frame {st st2 : SymTab} (hwf : WF st)
    (h : BucketsExt st.buckets st2.buckets) {s : Nat}
    (hs : st2.scopes[s]? = st.scopes[s]?) : tableOf st2 s = tableOf st s := by
  cases hsr : st.scopes[s]? with
  | none => simp [tableOf, hs, hsr]
  | some sr => exact tableOf_mono hwf h hsr (hs.trans hsr) rfl

theorem mem_tableOf_insertNew {st : SymTab} (hwf : WF st) {s : Nat} {sr : ScopeListRec}
    (hs : st.scopes[s]? = some sr) (n : String) (t : ExpType) (k loc : Int) (b : Nat) :
    b ∈ tableOf (insertNew st s sr n t k loc) s ↔ b = st.buckets.length ∨ b ∈ tableOf st s := by
  have hlt : s < st.scopes.length := (List.getElem?_eq_some.1 hs).1
  have hext : BucketsExt st.buckets (insertNew st s sr n t k loc).buckets :=
    bucketsExt_append _ _
  have hs2 : (insertNew st s sr n t k loc).scopes[s]? =
      some (sr.setBucket (hash n) (some st.buckets.length)) := by
    simp [insertNew, List.getElem?_set_self hlt]
  have hother : ∀ hh, hh ≠ hash n →
      chainList (insertNew st s sr n t k loc) (sr.bucket hh) = chainList st (sr.bucket hh) :=
    fun hh _ => chainList_mono hext (hwf.table s sr hh hs)
  have hsame : chainList (insertNew st s sr n t k loc) (sr.bucket (hash n)) =
      chainList st (sr.bucket (hash n)) := chainList_mono hext (hwf.table s sr _ hs)
  constructor
  · intro hb
    obtain ⟨sr2, h2, hh, hhl, hm⟩ := mem_tableOf.1 hb
    rw [hs2] at h2; cases h2
    by_cases e : hh = hash n
    · subst e
      simp only [ScopeListRec.setBucket, if_true] at hm
      rw [chainList_insertNew_head hwf hs] at hm
      rcases List.mem_cons.1 hm with h | h
      · exact Or.inl h
      · exact Or.inr (mem_tableOf.2 ⟨sr, hs, _, hhl, h⟩)
    · simp only [ScopeListRec.setBucket, e, if_false] at hm
      rw [hother hh e] at hm
      exact Or.inr (mem_tableOf.2 ⟨sr, hs, hh, hhl, hm⟩)
  · rintro (rfl | hb)
    · refine mem_tableOf.2 ⟨_, hs2, hash n, hash_lt n, ?_⟩
      simp only [ScopeListRec.setBucket, if_true]
      rw [chainList_insertNew_head hwf hs]
      exact List.mem_cons_self _ _
    · obtain ⟨sr1, h1, hh, hhl, hm⟩ := mem_tableOf.1 hb
      rw [hs] at h1; cases h1
      refine mem_tableOf.2 ⟨_, hs2, hh, hhl, ?_⟩
      by_cases e : hh = hash n
      · subst e
        simp only [ScopeListRec.setBucket, if_true]
        rw [chainList_insertNew_head hwf hs]
        exact List.mem_cons_of_mem _ hm
      · simp only [ScopeListRec.setBucket, e, if_false]
        rw [hother hh e]; exact hm

/-- C2: the postcondition of `st_insert(S, n, t, k, loc)` on a well-formed table.  It
returns a symbol `l` and a new table.  If no symbol of `S`'s own table is named `n`, then
`l` is a new symbol with name `n`, type `t`, owning scope `S`, reference list `[k]` and
location `loc`, and the table of `S` is the old one plus `l`.  If a symbol `b` of `S`'s
own table is named `n`, then `l` is `b`, its record is the old one with `k` appended to
its reference list (type, owning scope and location kept, whatever `t` is), and no symbol
is added.  In both cases every other symbol is unchanged, every other scope and its table
are unchanged, and `S` keeps its name, parent and children. -/
theorem st_insert_post (st : SymTab) (hwf : WF st) (S : Nat) (hS : S < st.scopes.length)
    (n : String) (t : ExpType) (k loc : Int) :
    ∃ l st2, st_insert st (some S) n t k loc = some (some l, st2) ∧
      ((∀ b ∈ tableOf st S, symName st b ≠ some n) →
        l = st.buckets.length ∧ st2.buckets.length = st.buckets.length + 1 ∧
        (∃ r, st2.buckets[l]? = some r ∧ r.name = n ∧ r.type = t ∧ r.scope = some S ∧
          r.lines = [k] ∧ r.memloc = loc) ∧
        (∀ b, b ∈ tableOf st2 S ↔ b = l ∨ b ∈ tableOf st S)) ∧
      (∀ b ∈ tableOf st S, symName st b = some n →
        l = b ∧ st2.buckets.length = st.buckets.length ∧
        (∃ r, st.buckets[b]? = some r ∧
          st2.buckets[b]? = some { r with lines := r.lines ++ [k] }) ∧
        tableOf st2 S = tableOf st S) ∧
      (∀ b, b ≠ l → st2.buckets[b]? = st.buckets[b]?) ∧
      (∀ s, s ≠ S → st2.scopes[s]? = st.scopes[s]? ∧ tableOf st2 s = tableOf st s) ∧
      (∃ sr sr2, st.scopes[S]? = some sr ∧ st2.scopes[S]? = some sr2 ∧
        sr2.name = sr.name ∧ sr2.parent = sr.parent ∧
        sr2.leftMostChild = sr.leftMostChild ∧ sr2.rightSibling = sr.rightSibling) ∧
      st2.scopes.length = st.scopes.length ∧ st2.globalScope = st.globalScope := by
  obtain ⟨sr, hs⟩ : ∃ sr, st.scopes[S]? = some sr := ⟨_, List.getElem?_eq_getElem hS⟩
  rcases st_insert_cases hwf hs n t k loc with ⟨hnone, e⟩ | ⟨b, r, hb, hbn, hr, e⟩
  · have hext : BucketsExt st.buckets (insertNew st S sr n t k loc).buckets :=
      bucketsExt_append _ _
    refine ⟨st.buckets.length, insertNew st S sr n t k loc, e, ?_, ?_, ?_, ?_, ?_, ?_, rfl⟩
    · intro _
      refine ⟨rfl, by simp [insertNew],
        ⟨⟨n, t, [k], loc, FuncRec.fresh, sr.bucket (hash n), some S⟩, by simp [insertNew],
          rfl, rfl, rfl, rfl, rfl⟩, ?_⟩
      exact mem_tableOf_insertNew hwf hs n t k loc
    · intro b hb hbn
      exact absurd hbn (hnone b hb)
    · intro b hb
      rcases Nat.lt_or_gt_of_ne hb with h | h
      · simp [insertNew, List.getElem?_append_left h]
      · have h1 : (insertNew st S sr n t k loc).buckets[b]? = none :=
          List.getElem?_eq_none (by simp [insertNew]; omega)
        have h2 : st.buckets[b]? = none := List.getElem?_eq_none (by omega)
        rw [h1, h2]
    · intro s hne
      have h1 : (insertNew st S sr n t k loc).scopes[s]? = st.scopes[s]? := by
        simp only [insertNew]
        exact List.getElem?_set_ne (fun h => hne h.symm)
      exact ⟨h1, tableOf_frame hwf hext h1⟩
    · exact ⟨sr, sr.setBucket (hash n) (some st.buckets.length), hs,
        by simp [insertNew, List.getElem?_set_self hS], rfl, rfl, rfl, rfl⟩
    · simp [insertNew]
  · have hext : BucketsExt st.buckets (insertLine st b r k).buckets :=
      bucketsExt_set _ _ r _ hr rfl rfl rfl rfl
    have hbl : b < st.buckets.length := (List.getElem?_eq_some.1 hr).1
    refine ⟨b, insertLine st b r k, e, ?_, ?_, ?_, ?_, ?_, ?_, rfl⟩
    · intro hnone
      exact absurd hbn (hnone b hb)
    · intro b2 hb2 hbn2
      have : b2 = b := tableOf_unique hwf hb2 hb hbn2 hbn
      subst this
      refine ⟨rfl, by simp [insertLine], ⟨r, hr, by simp [insertLine, List.getElem?_set_self hbl]⟩, ?_⟩
      exact tableOf_frame hwf hext rfl
    · intro b2 hb2
      simp only [insertLine]
      exact List.getElem?_set_ne (fun h => hb2 h.symm)
    · intro s _
      exact ⟨rfl, tableOf_frame hwf hext rfl⟩
    · exact ⟨sr, sr, hs, hs, rfl, rfl, rfl, rfl⟩
    · rfl

/-! ## Scopes: `buildScope`, `addChildScope`, `findScope` -/

/-- The children of a scope of a well-formed table form a complete sibling chain. -/
theorem children_chain {st : SymTab} (hwf : WF st) {p : Nat} {pr : ScopeListRec}
    (hp : st.scopes[p]? = some pr) :
    Chain (siblingOf st.scopes) pr.leftMostChild (children st p) ∧
      (children st p).length ≤ st.scopes.length ∧
      (∀ c ∈ children st p, ∃ cr, st.scopes[c]? = some cr ∧ cr.parent = some p) ∧
      (children st p).Pairwise (fun a b => a < b) := by
  obtain ⟨xs, hc, hl, hpar, hs⟩ := hwf.kids p pr hp
  have : children st p = xs := by
    unfold children
    rw [hp]
    exact walk_of_chain hc _ hl
  rw [this]
  exact ⟨hc, hl, hpar, hs⟩

theorem findScopeLoop_of_chain {st : SymTab} {n : String} {l : ScopeList} {xs : List Nat}
    (hc : Chain (siblingOf st.scopes) l xs) : ∀ fuel, xs.length ≤ fuel →
    findScopeLoop st.scopes n fuel l =
      some (xs.find? (fun c => decide (scopeName st c = some n))) := by
  induction hc with
  | nil => intro fuel _; cases fuel <;> rfl
  | @cons a k xs0 hn _ ih =>
    intro fuel hf
    cases fuel with
    | zero => simp at hf
    | succ f =>
      unfold siblingOf at hn
      cases hr : st.scopes[a]? with
      | none => simp [hr] at hn
      | some r =>
        simp only [hr, Option.map_some', Option.some.injEq] at hn
        simp only [findScopeLoop, hr, List.find?_cons, scopeName, Option.map_some']
        by_cases e : r.name = n
        · simp [e]
        · simp only [e, if_false, Option.some.injEq, decide_False]
          rw [hn]
          exact ih f (by simpa using hf)

/-- `findScope` on a well-formed table: the first child with the given name. -/
theorem findScope_spec {st : SymTab} (hwf : WF st) {P : Nat} (hP : P < st.scopes.length)
    (n : String) :
    ∃ r, findScope st n (some P) = some r ∧
      (∀ c, r = some c → ∃ pre post, children st P = pre ++ c :: post ∧
        scopeName st c = some n ∧ (∀ c2 ∈ pre, scopeName st c2 ≠ some n) ∧
        parentOf st.scopes c = some (some P) ∧
        ∀ c2 ∈ children st P, scopeName st c2 = some n → c ≤ c2) ∧
      (r = none ↔ ∀ c ∈ children st P, scopeName st c ≠ some n) := by
  obtain ⟨pr, hp⟩ : ∃ pr, st.scopes[P]? = some pr := ⟨_, List.getElem?_eq_getElem hP⟩
  obtain ⟨hc, hl, hpar, hs⟩ := children_chain hwf hp
  refine ⟨_, by simp only [findScope, hp]; exact findScopeLoop_of_chain hc _ hl, ?_, ?_⟩
  · intro c hfind
    obtain ⟨hname, pre, post, e, hpre⟩ := List.find?_eq_some.1 hfind
    have hname : scopeName st c = some n := by simpa using hname
    refine ⟨pre, post, e, hname, ?_, ?_, ?_⟩
    · intro c2 hc2
      simpa using hpre c2 hc2
    · obtain ⟨cr, hcr, hcp⟩ := hpar c (by rw [e]; simp)
      simp [parentOf, hcr, hcp]
    · intro c2 hc2 hn2
      rw [e] at hc2 hs
      rcases List.mem_append.1 hc2 with h | h
      · exact absurd hn2 (by simpa using hpre c2 h)
      · rcases List.mem_cons.1 h with h | h
        · exact le_of_eq h.symm
        · have := (List.pairwise_cons.1 (List.pairwise_append.1 hs).2.1).1 c2 h
          exact le_of_lt this
  · constructor
    · intro h c hc2
      have := List.find?_eq_none.1 h c hc2
      simpa using this
    · intro h
      exact List.find?_eq_none.2 fun c hc2 => by simpa using h c hc2

theorem lastSibling_of_chain {ss : List ScopeListRec} {p : ScopeList} {xs : List Nat}
    (hc : Chain (siblingOf ss) p xs) :
    ∀ c0, p = some c0 → ∀ fuel, xs.length ≤ fuel → lastSibling ss fuel c0 = xs.getLast? := by
  induction hc with
  | nil => intro c0 h; cases h
  | @cons a k xs0 hn hc0 ih =>
    intro c0 h fuel hf
    cases h
    cases fuel with
    | zero => simp at hf
    | succ f =>
      unfold siblingOf at hn
      cases hr : ss[a]? with
      | none => simp [hr] at hn
      | some r =>
        simp only [hr, Option.map_some', Option.some.injEq] at hn
        cases k with
        | none =>
          cases hc0
          simp [lastSibling, hr, hn]
        | some k0 =>
          simp only [lastSibling, hr, hn]
          rw [ih k0 rfl f (by simpa using hf)]
          cases hc0 with
          | cons _ _ => simp [List.getLast?_cons_cons]


theorem createScope_cases {st : SymTab} (hwf : WF st) {P : Nat} {pr : ScopeListRec}
    (hp : st.scopes[P]? = some pr) (n : String) :
    (pr.leftMostChild = none ∧ children st P = [] ∧
      createScope st n (some P) = some (some st.scopes.length, linkFirst st n P pr)) ∨
    (∃ ys last lr, children st P = ys ++ [last] ∧ st.scopes[last]? = some lr ∧
      createScope st n (some P) = some (some st.scopes.length, linkLast st n P last lr)) := by
  have hP : P < st.scopes.length := (List.getElem?_eq_some.1 hp).1
  obtain ⟨hc, hl, hpar, _⟩ := children_chain hwf hp
  generalize hxs : children st P = xs at hc hl hpar
  have hp1 : (st.scopes ++ [newScopeRec n (some P)])[P]? = some pr := by
    rw [List.getElem?_append_left hP]; exact hp
  cases hlm : pr.leftMostChild with
  | none =>
    left
    rw [hlm] at hc
    cases hc
    refine ⟨rfl, rfl, ?_⟩
    simp only [createScope, buildScope, addChildScope, hp1, hlm, linkFirst]
  | some c0 =>
    right
    rw [hlm] at hc
    rcases List.eq_nil_or_concat xs with hnil | ⟨ys, last, hcat⟩
    · rw [hnil] at hc; cases hc
    · rw [List.concat_eq_append] at hcat
      obtain ⟨lr, hlr, _⟩ := hpar last (by rw [hcat]; simp)
      have hlast : last < st.scopes.length := (List.getElem?_eq_some.1 hlr).1
      refine ⟨ys, last, lr, hcat, hlr, ?_⟩
      have hc1 : Chain (siblingOf (st.scopes ++ [newScopeRec n (some P)])) (some c0) xs :=
        chain_ext_sibling (scopesExt_append _ _) hc
      have hls := lastSibling_of_chain hc1 c0 rfl (st.scopes ++ [newScopeRec n (some P)]).length
        (by simp; omega)
      rw [hcat] at hls
      simp only [List.getLast?_append, List.getLast?_singleton] at hls
      have hls : lastSibling (st.scopes ++ [newScopeRec n (some P)])
          (st.scopes ++ [newScopeRec n (some P)]).length c0 = some last := by
        rw [hls]; rfl
      have hlr1 : (st.scopes ++ [newScopeRec n (some P)])[last]? = some lr := by
        rw [List.getElem?_append_left hlast]; exact hlr
      simp only [createScope, buildScope, addChildScope, hp1, hlm, linkLast, hls, hlr1]


theorem TableOK_nil (st : SymTab) (s h : Nat) : TableOK st s h none :=
  ⟨[], Chain.nil, Nat.zero_le _, by simp, by simp⟩

theorem KidsOK_nil (ss : List ScopeListRec) (p : Nat) : KidsOK ss p none :=
  ⟨[], Chain.nil, Nat.zero_le _, by simp, by simp⟩

theorem TableOK_of_buckets_eq {st st2 : SymTab} (h : st2.buckets = st.buckets)
    {s hh : Nat} {l : BucketList} (hok : TableOK st s hh l) : TableOK st2 s hh l :=
  TableOK_mono (by rw [h]; exact bucketsExt_refl _) hok

theorem AncOK_of_parents {ss ss2 : List ScopeListRec} (hlen : ss.length ≤ ss2.length)
    (h : ∀ a, a < ss.length → parentOf ss2 a = parentOf ss a)
    {l : ScopeList} (hok : AncOK ss l) : AncOK ss2 l := by
  obtain ⟨xs, hc, hl⟩ := hok
  refine ⟨xs, chain_congr hc fun a ha => ?_, lt_of_lt_of_le hl hlen⟩
  obtain ⟨k, hk⟩ := chain_valid hc a ha
  apply h
  unfold parentOf at hk
  cases hr : ss[a]? with
  | none => simp [hr] at hk
  | some r => exact (List.getElem?_eq_some.1 hr).1

theorem AncOK_cons {ss : List ScopeListRec} {p : Nat} {pr : ScopeListRec}
    (hp : ss[p]? = some pr) (hok : AncOK ss pr.parent) :
    ∃ xs, Chain (parentOf ss) (some p) xs ∧ xs.length ≤ ss.length := by
  obtain ⟨xs, hc, hl⟩ := hok
  exact ⟨p :: xs, Chain.cons (by simp [parentOf, hp]) hc, by simpa using hl⟩

/-- The records of the scope store after one record of the store extended by a new
scope record was overwritten. -/
theorem getElem?_link {ss : List ScopeListRec} {rec r2 : ScopeListRec} {i : Nat}
    (hi : i < ss.length) (a : Nat) :
    ((ss ++ [rec]).set i r2)[a]? =
      if a = i then some r2 else if a = ss.length then some rec else ss[a]? := by
  by_cases e : a = i
  · subst e
    simp only [if_true]
    exact List.getElem?_set_self (by simp; omega)
  · simp only [e, if_false]
    rw [List.getElem?_set_ne (fun h => e h.symm)]
    by_cases e2 : a = ss.length
    · subst e2; simp
    · simp only [e2, if_false]
      rcases Nat.lt_or_gt_of_ne e2 with h | h
      · exact List.getElem?_append_left h
      · rw [List.getElem?_eq_none (by simp; omega), List.getElem?_eq_none (by omega)]

/-- `createScope` keeps the table well-formed when the new scope is linked as the first
child. -/
theorem WF_linkFirst {st : SymTab} (hwf : WF st) {P : Nat} {pr : ScopeListRec}
    (hp : st.scopes[P]? = some pr) (n : String) :
    WF (linkFirst st n P pr) ∧ children (linkFirst st n P pr) P = [st.scopes.length] := by
  have hP : P < st.scopes.length := (List.getElem?_eq_some.1 hp).1
  have hget : ∀ a, (linkFirst st n P pr).scopes[a]? =
      if a = P then some { pr with leftMostChild := some st.scopes.length }
      else if a = st.scopes.length then some (newScopeRec n (some P)) else st.scopes[a]? :=
    fun a => getElem?_link hP a
  have hlen : (linkFirst st n P pr).scopes.length = st.scopes.length + 1 := by
    simp [linkFirst]
  have hext : ScopesExt st.scopes (linkFirst st n P pr).scopes := by
    intro a r hr
    have ha : a < st.scopes.length := (List.getElem?_eq_some.1 hr).1
    rw [hget a]
    by_cases e : a = P
    · subst e
      rw [hp] at hr; cases hr
      exact ⟨{ pr with leftMostChild := some st.scopes.length }, by simp, rfl, rfl, rfl⟩
    · exact ⟨r, by simp [e, Nat.ne_of_lt ha, hr], rfl, rfl, rfl⟩
  have hnew : Chain (siblingOf (linkFirst st n P pr).scopes) (some st.scopes.length)
      [st.scopes.length] := by
    refine Chain.cons ?_ Chain.nil
    simp [siblingOf, hget, Nat.ne_of_gt hP, newScopeRec]
  have hkP : KidsOK (linkFirst st n P pr).scopes P (some st.scopes.length) := by
    refine ⟨_, hnew, by simp [hlen], ?_, by simp⟩
    intro c hc
    simp only [List.mem_singleton] at hc
    subst hc
    exact ⟨newScopeRec n (some P), by simp [hget, Nat.ne_of_gt hP], rfl⟩
  refine ⟨⟨?_, ?_, ?_⟩, ?_⟩
  · intro s sr2 h hs2
    rw [hget s] at hs2
    by_cases e : s = P
    · subst e
      simp only [if_true, Option.some.injEq] at hs2
      subst hs2
      exact TableOK_of_buckets_eq rfl (hwf.table s pr h hp)
    · simp only [e, if_false] at hs2
      by_cases e2 : s = st.scopes.length
      · simp only [e2, if_true, Option.some.injEq] at hs2
        subst hs2
        exact TableOK_nil _ _ _
      · simp only [e2, if_false] at hs2
        exact TableOK_of_buckets_eq rfl (hwf.table s sr2 h hs2)
  · intro s sr2 hs2
    rw [hget s] at hs2
    by_cases e : s = P
    · subst e
      simp only [if_true, Option.some.injEq] at hs2
      subst hs2
      exact hkP
    · simp only [e, if_false] at hs2
      by_cases e2 : s = st.scopes.length
      · simp only [e2, if_true, Option.some.injEq] at hs2
        subst hs2
        exact KidsOK_nil _ _
      · simp only [e2, if_false] at hs2
        exact KidsOK_mono hext (hwf.kids s sr2 hs2)
  · intro s sr2 hs2
    rw [hget s] at hs2
    by_cases e : s = P
    · subst e
      simp only [if_true, Option.some.injEq] at hs2
      subst hs2
      exact AncOK_mono hext (hwf.anc s pr hp)
    · simp only [e, if_false] at hs2
      by_cases e2 : s = st.scopes.length
      · simp only [e2, if_true, Option.some.injEq] at hs2
        subst hs2
        obtain ⟨xs, hc, hl⟩ := AncOK_cons hp (hwf.anc P pr hp)
        exact ⟨xs, chain_ext_parent hext hc, by rw [hlen]; omega⟩
      · simp only [e2, if_false] at hs2
        exact AncOK_mono hext (hwf.anc s sr2 hs2)
  · unfold children
    rw [hget P]
    simp only [if_true]
    exact walk_of_chain hnew _ (by simp [hlen])

/-- `createScope` keeps the table well-formed when the new scope is linked behind the
last child. -/
theorem WF_linkLast {st : SymTab} (hwf : WF st) {P : Nat} {pr : ScopeListRec}
    (hp : st.scopes[P]? = some pr) (n : String) {ys : List Nat} {last : Nat}
    {lr : ScopeListRec} (hch : children st P = ys ++ [last])
    (hlr : st.scopes[last]? = some lr) :
    WF (linkLast st n P last lr) ∧
      children (linkLast st n P last lr) P = ys ++ [last] ++ [st.scopes.length] := by
  have hP : P < st.scopes.length := (List.getElem?_eq_some.1 hp).1
  have hlast : last < st.scopes.length := (List.getElem?_eq_some.1 hlr).1
  obtain ⟨hc, hl, hpar, hsorted⟩ := children_chain hwf hp
  rw [hch] at hc hl hpar hsorted
  have hlrp : lr.parent = some P := by
    obtain ⟨cr, hcr, hcp⟩ := hpar last (by simp)
    rw [hlr] at hcr; cases hcr; exact hcp
  have hget : ∀ a, (linkLast st n P last lr).scopes[a]? =
      if a = last then some { lr with rightSibling := some st.scopes.length }
      else if a = st.scopes.length then some (newScopeRec n (some P)) else st.scopes[a]? :=
    fun a => getElem?_link hlast a
  have hlen : (linkLast st n P last lr).scopes.length = st.scopes.length + 1 := by
    simp [linkLast]
  have hfwd : ∀ (a : Nat) (r : ScopeListRec), st.scopes[a]? = some r →
      ∃ r2 : ScopeListRec, (linkLast st n P last lr).scopes[a]? = some r2 ∧ r2.name = r.name ∧
        r2.parent = r.parent ∧ r2.bucket = r.bucket ∧ r2.leftMostChild = r.leftMostChild := by
    intro a r hr
    have ha : a < st.scopes.length := (List.getElem?_eq_some.1 hr).1
    rw [hget a]
    by_cases e : a = last
    · subst e
      rw [hlr] at hr; cases hr
      exact ⟨{ lr with rightSibling := some st.scopes.length }, by simp, rfl, rfl, rfl, rfl⟩
    · exact ⟨r, by simp [e, Nat.ne_of_lt ha, hr], rfl, rfl, rfl, rfl⟩
  have hbwd : ∀ (a : Nat) (r2 : ScopeListRec), (linkLast st n P last lr).scopes[a]? = some r2 →
      a ≠ st.scopes.length →
      ∃ r : ScopeListRec, st.scopes[a]? = some r ∧ r2.name = r.name ∧
        r2.parent = r.parent ∧ r2.bucket = r.bucket ∧ r2.leftMostChild = r.leftMostChild := by
    intro a r2 hr2 hne
    rw [hget a] at hr2
    by_cases e : a = last
    · subst e
      simp only [if_true, Option.some.injEq] at hr2
      subst hr2
      exact ⟨lr, hlr, rfl, rfl, rfl, rfl⟩
    · simp only [e, hne, if_false] at hr2
      exact ⟨r2, hr2, rfl, rfl, rfl, rfl⟩
  have hsame : ∀ a, a ≠ last → a ≠ st.scopes.length →
      siblingOf (linkLast st n P last lr).scopes a = siblingOf st.scopes a := by
    intro a h1 h2
    simp [siblingOf, hget, h1, h2]
  have hparents : ∀ a, a < st.scopes.length →
      parentOf (linkLast st n P last lr).scopes a = parentOf st.scopes a := by
    intro a ha
    obtain ⟨r, hr⟩ : ∃ r, st.scopes[a]? = some r := ⟨_, List.getElem?_eq_getElem ha⟩
    obtain ⟨r2, hr2, _, e, _⟩ := hfwd a r hr
    simp [parentOf, hr, hr2, e]
  have hold : ∀ c ∈ ys ++ [last], c < st.scopes.length := by
    intro c hc2
    obtain ⟨cr, hcr, _⟩ := hpar c hc2
    exact (List.getElem?_eq_some.1 hcr).1
  have hnewc : Chain (siblingOf (linkLast st n P last lr).scopes) pr.leftMostChild
      (ys ++ [last] ++ [st.scopes.length]) := by
    refine chain_snoc hc (fun h => Nat.lt_irrefl _ (hold _ h)) ?_ ?_ hsame
    · simp [siblingOf, hget]
    · simp [siblingOf, hget, Nat.ne_of_gt hlast, newScopeRec]
  have hkP : KidsOK (linkLast st n P last lr).scopes P pr.leftMostChild := by
    refine ⟨_, hnewc, by simp [hlen]; simpa using hl, ?_, ?_⟩
    · intro c hc2
      rcases List.mem_append.1 hc2 with h | h
      · obtain ⟨cr, hcr, hcp⟩ := hpar c h
        obtain ⟨r2, hr2, _, e, _⟩ := hfwd c cr hcr
        exact ⟨r2, hr2, e.trans hcp⟩
      · simp only [List.mem_singleton] at h
        subst h
        exact ⟨newScopeRec n (some P), by simp [hget, Nat.ne_of_gt hlast], rfl⟩
    · refine List.pairwise_append.2 ⟨hsorted, by simp, ?_⟩
      intro a ha b hb
      simp only [List.mem_singleton] at hb
      subst hb
      exact hold a ha
  refine ⟨⟨?_, ?_, ?_⟩, ?_⟩
  · intro s sr2 h hs2
    by_cases e2 : s = st.scopes.length
    · rw [hget s] at hs2
      simp only [e2, Nat.ne_of_gt hlast, if_true, if_false, Option.some.injEq] at hs2
      subst hs2
      exact TableOK_nil _ _ _
    · obtain ⟨sr, hsr, _, _, eb, _⟩ := hbwd s sr2 hs2 e2
      rw [eb]
      exact TableOK_of_buckets_eq rfl (hwf.table s sr h hsr)
  · intro s sr2 hs2
    by_cases e2 : s = st.scopes.length
    · rw [hget s] at hs2
      simp only [e2, Nat.ne_of_gt hlast, if_true, if_false, Option.some.injEq] at hs2
      subst hs2
      exact KidsOK_nil _ _
    · obtain ⟨sr, hsr, _, _, _, el⟩ := hbwd s sr2 hs2 e2
      rw [el]
      by_cases e : s = P
      · subst e
        rw [hp] at hsr; cases hsr
        exact hkP
      · obtain ⟨xs, hc2, hl2, hpar2, hs3⟩ := hwf.kids s sr hsr
        have hne : ∀ a ∈ xs, a ≠ last ∧ a ≠ st.scopes.length := by
          intro a ha
          obtain ⟨cr, hcr, hcp⟩ := hpar2 a ha
          refine ⟨?_, Nat.ne_of_lt (List.getElem?_eq_some.1 hcr).1⟩
          intro h
          subst h
          rw [hlr] at hcr; cases hcr
          rw [hlrp] at hcp
          exact e (Option.some.inj hcp).symm
        refine ⟨xs, chain_congr hc2 fun a ha => hsame a (hne a ha).1 (hne a ha).2,
          by rw [hlen]; omega, ?_, hs3⟩
        intro c hc3
        obtain ⟨cr, hcr, hcp⟩ := hpar2 c hc3
        obtain ⟨r2, hr2, _, e3, _⟩ := hfwd c cr hcr
        exact ⟨r2, hr2, e3.trans hcp⟩
  · intro s sr2 hs2
    by_cases e2 : s = st.scopes.length
    · rw [hget s] at hs2
      simp only [e2, Nat.ne_of_gt hlast, if_true, if_false, Option.some.injEq] at hs2
      subst hs2
      obtain ⟨xs, hc2, hl2⟩ := AncOK_cons hp (hwf.anc P pr hp)
      refine ⟨xs, chain_congr hc2 fun a ha => ?_, by rw [hlen]; omega⟩
      obtain ⟨k, hk⟩ := chain_valid hc2 a ha
      apply hparents
      unfold parentOf at hk
      cases hr : st.scopes[a]? with
      | none => simp [hr] at hk
      | some r => exact (List.getElem?_eq_some.1 hr).1
    · obtain ⟨sr, hsr, _, ep, _, _⟩ := hbwd s sr2 hs2 e2
      rw [ep]
      exact AncOK_of_parents (by rw [hlen]; omega) hparents (hwf.anc s sr hsr)
  · obtain ⟨r2, hr2, _, _, _, el⟩ := hfwd P pr hp
    unfold children
    rw [hr2]
    simp only [el]
    exact walk_of_chain hnewc _ (by simp [hlen]; simpa using hl)


/-- `createScope` on a well-formed table: the new scope gets the next address, becomes
the last child of its parent, and the table stays well-formed. -/
theorem createScope_spec {st : SymTab} (hwf : WF st) {P : Nat} (hP : P < st.scopes.length)
    (n : String) :
    ∃ st2, createScope st n (some P) = some (some st.scopes.length, st2) ∧ WF st2 ∧
      children st2 P = children st P ++ [st.scopes.length] ∧
      st2.scopes.length = st.scopes.length + 1 ∧
      st2.buckets = st.buckets ∧ st2.globalScope = st.globalScope ∧
      (∃ cr, st2.scopes[st.scopes.length]? = some cr ∧ cr.name = n ∧ cr.parent = some P ∧
        cr.leftMostChild = none ∧ cr.bucket = fun _ => none) ∧
      (∀ (a : Nat) (r : ScopeListRec), st.scopes[a]? = some r →
        ∃ r2 : ScopeListRec, st2.scopes[a]? = some r2 ∧ r2.name = r.name ∧
          r2.parent = r.parent ∧ r2.bucket = r.bucket) := by
  obtain ⟨pr, hp⟩ : ∃ pr, st.scopes[P]? = some pr := ⟨_, List.getElem?_eq_getElem hP⟩
  rcases createScope_cases hwf hp n with ⟨_, hnil, e⟩ | ⟨ys, last, lr, hch, hlr, e⟩
  · obtain ⟨h1, h2⟩ := WF_linkFirst hwf hp n
    have hget : ∀ a, (linkFirst st n P pr).scopes[a]? =
        if a = P then some { pr with leftMostChild := some st.scopes.length }
        else if a = st.scopes.length then some (newScopeRec n (some P)) else st.scopes[a]? :=
      fun a => getElem?_link hP a
    refine ⟨_, e, h1, by rw [h2, hnil]; rfl, by simp [linkFirst], rfl, rfl, ?_, ?_⟩
    · exact ⟨newScopeRec n (some P), by simp [hget, Nat.ne_of_gt hP], rfl, rfl, rfl, rfl⟩
    · intro a r hr
      have ha : a < st.scopes.length := (List.getElem?_eq_some.1 hr).1
      rw [hget a]
      by_cases e : a = P
      · subst e
        rw [hp] at hr; cases hr
        exact ⟨{ pr with leftMostChild := some st.scopes.length }, by simp, rfl, rfl, rfl⟩
      · exact ⟨r, by simp [e, Nat.ne_of_lt ha, hr], rfl, rfl, rfl⟩
  · obtain ⟨h1, h2⟩ := WF_linkLast hwf hp n hch hlr
    have hlast : last < st.scopes.length := (List.getElem?_eq_some.1 hlr).1
    have hget : ∀ a, (linkLast st n P last lr).scopes[a]? =
        if a = last then some { lr with rightSibling := some st.scopes.length }
        else if a = st.scopes.length then some (newScopeRec n (some P)) else st.scopes[a]? :=
      fun a => getElem?_link hlast a
    refine ⟨_, e, h1, by rw [h2, hch], by simp [linkLast], rfl, rfl, ?_, ?_⟩
    · exact ⟨newScopeRec n (some P), by simp [hget, Nat.ne_of_gt hlast], rfl, rfl, rfl, rfl⟩
    · intro a r hr
      have ha : a < st.scopes.length := (List.getElem?_eq_some.1 hr).1
      rw [hget a]
      by_cases e : a = last
      · subst e
        rw [hlr] at hr; cases hr
        exact ⟨{ lr with rightSibling := some st.scopes.length }, by simp, rfl, rfl, rfl⟩
      · exact ⟨r, by simp [e, Nat.ne_of_lt ha, hr], rfl, rfl, rfl⟩

/-- `createScope` under a scope of the table keeps the table well-formed. -/
theorem WF_createScope {st st2 : SymTab} (hwf : WF st) {n : String} {parent c : ScopeList}
    (hpar : ∀ P, parent = some P → P < st.scopes.length)
    (h : createScope st n parent = some (c, st2)) :
    WF st2 ∧ ∃ a, c = some a ∧ a < st2.scopes.length := by
  cases parent with
  | none => simp [createScope, buildScope, addChildScope] at h
  | some P =>
    obtain ⟨st3, e, hwf3, _, hlen, _⟩ := createScope_spec hwf (hpar P rfl) n
    rw [e] at h
    simp only [Option.some.injEq, Prod.mk.injEq] at h
    rw [← h.2]
    exact ⟨hwf3, _, h.1.symm, by rw [hlen]; omega⟩

/-- C3: in a well-formed table, creating a scope under `P` (`buildScope`, then
`addChildScope`) gives a table in which the children of `P` are the former children, in
their order, followed by the new scope, which has the requested name and parent `P`; and
`findScope(n, P)` returns a result: a scope it returns is a child of `P` with parent
field `P`, is named `n`, no child before it in the child order is named `n`, and its
address is the least among the children named `n` (addresses grow with creation); it
returns `NULL` exactly when no child of `P` is named `n`. -/
theorem createScope_findScope (st : SymTab) (hwf : WF st) (P : Nat)
    (hP : P < st.scopes.length) (n : String) :
    (∃ st2, (buildScope st n (some P)).1 = some st.scopes.length ∧
      addChildScope (buildScope st n (some P)).2 (some P) (buildScope st n (some P)).1 =
        some st2 ∧
      children st2 P = children st P ++ [st.scopes.length] ∧
      scopeName st2 st.scopes.length = some n ∧
      parentOf st2.scopes st.scopes.length = some (some P)) ∧
    ∃ r, findScope st n (some P) = some r ∧
      (∀ c, r = some c → ∃ pre post, children st P = pre ++ c :: post ∧
        scopeName st c = some n ∧ (∀ c2 ∈ pre, scopeName st c2 ≠ some n) ∧
        parentOf st.scopes c = some (some P) ∧
        ∀ c2 ∈ children st P, scopeName st c2 = some n → c ≤ c2) ∧
      (r = none ↔ ∀ c ∈ children st P, scopeName st c ≠ some n) := by
  refine ⟨?_, findScope_spec hwf hP n⟩
  obtain ⟨st2, e, _, hch, _, _, _, ⟨cr, hcr, hn, hp, _⟩, _⟩ := createScope_spec hwf hP n
  refine ⟨st2, rfl, ?_, hch, by simp [scopeName, hcr, hn], by simp [parentOf, hcr, hp]⟩
  simp only [createScope] at e
  cases hadd : addChildScope (buildScope st n (some P)).2 (some P) (buildScope st n (some P)).1 with
  | none => simp [hadd] at e
  | some st3 =>
    simp only [hadd, Option.some.injEq, Prod.mk.injEq] at e
    rw [e.2]


theorem find?_congr_mem {α : Type} {p q : α → Bool} :
    ∀ {xs : List α}, (∀ a ∈ xs, p a = q a) → xs.find? p = xs.find? q
  | [], _ => rfl
  | x :: xs, h => by
    simp only [List.find?_cons, h x (List.mem_cons_self _ _)]
    rw [find?_congr_mem fun a ha => h a (List.mem_cons_of_mem _ ha)]

theorem findSome?_congr_mem {α β : Type} {f g : α → Option β} :
    ∀ {xs : List α}, (∀ a ∈ xs, f a = g a) → xs.findSome? f = xs.findSome? g
  | [], _ => rfl
  | x :: xs, h => by
    simp only [List.findSome?_cons, h x (List.mem_cons_self _ _)]
    rw [findSome?_congr_mem fun a ha => h a (List.mem_cons_of_mem _ ha)]

theorem bucketLoop_localFind {st : SymTab} (hwf : WF st) {s : Nat} {sr : ScopeListRec}
    (hs : st.scopes[s]? = some sr) (n : String) :
    bucketLoop st.buckets n st.buckets.length (sr.bucket (hash n)) =
      some (localFind st n s) := by
  obtain ⟨xs, hc, hl, _, _⟩ := hwf.table s sr (hash n) hs
  rw [bucketLoop_of_chain hc _ hl]
  simp only [localFind, hs, chainList_eq hc hl]

theorem st_lookupLoop_findSome {st : SymTab} (hwf : WF st) (n : String) {p : ScopeList}
    {ys : List Nat} (hc : Chain (parentOf st.scopes) p ys) :
    ∀ fuel, ys.length ≤ fuel →
    st_lookupLoop st n (hash n) fuel p = some (ys.findSome? (localFind st n)) := by
  induction hc with
  | nil => intro fuel _; cases fuel <;> rfl
  | @cons a k ys0 hn _ ih =>
    intro fuel hf
    cases fuel with
    | zero => simp at hf
    | succ f =>
      unfold parentOf at hn
      cases hr : st.scopes[a]? with
      | none => simp [hr] at hn
      | some sr =>
        simp only [hr, Option.map_some', Option.some.injEq] at hn
        simp only [st_lookupLoop, hr, bucketLoop_localFind hwf hr n, List.findSome?_cons]
        cases hlf : localFind st n a with
        | some b => rfl
        | none =>
          simp only [hn]
          exact ih f (by simpa using hf)

/-- `st_lookup` as a search along the scope chain. -/
theorem st_lookup_findSome {st : SymTab} (hwf : WF st) {S : Nat} (hS : S < st.scopes.length)
    (n : String) :
    st_lookup st (some S) n = some ((scopeChain st S).findSome? (localFind st n)) := by
  obtain ⟨hc, hl⟩ := scopeChain_chain hwf hS
  exact st_lookupLoop_findSome hwf n hc _ hl

/-- `localFind` finds a symbol of the table with the given name, if the table has one. -/
theorem localFind_spec {st : SymTab} (hwf : WF st) (n : String) (s : Nat) :
    (∀ b, localFind st n s = some b → b ∈ tableOf st s ∧ symName st b = some n) ∧
    (localFind st n s = none → ∀ b ∈ tableOf st s, symName st b ≠ some n) := by
  cases hs : st.scopes[s]? with
  | none => simp [localFind, tableOf, hs]
  | some sr =>
    obtain ⟨r, hloop, h1, h2⟩ := bucketLoop_table hwf hs n
    rw [bucketLoop_localFind hwf hs n] at hloop
    cases hloop
    exact ⟨h1, h2⟩

/-- If the stores keep their records and the scope keeps its chains, `localFind` in
the scope is unchanged. -/
theorem localFind_frame {st st2 : SymTab} (hwf : WF st)
    (h : BucketsExt st.buckets st2.buckets) (n : String) {s : Nat} {sr sr2 : ScopeListRec}
    (hs : st.scopes[s]? = some sr) (hs2 : st2.scopes[s]? = some sr2)
    (e : sr2.bucket = sr.bucket) : localFind st2 n s = localFind st n s := by
  obtain ⟨xs, hc, hl, _, _⟩ := hwf.table s sr (hash n) hs
  simp only [localFind, hs, hs2, e, chainList_eq hc hl,
    chainList_eq (chain_ext_buckets h hc) (le_trans hl (bucketsExt_length_le h))]
  exact find?_congr_mem fun a ha => by
    obtain ⟨k, hk⟩ := chain_valid hc a ha
    rw [symName_ext h hk]

/-! ## The invariant of the analyzer -/

theorem parent_valid {st : SymTab} (hwf : WF st) {c p : Nat} {cr : ScopeListRec}
    (hc : st.scopes[c]? = some cr) (hp : cr.parent = some p) : p < st.scopes.length := by
  obtain ⟨xs, hch, _⟩ := hwf.anc c cr hc
  rw [hp] at hch
  cases hch with
  | cons hn _ =>
    unfold parentOf at hn
    cases hr : st.scopes[p]? with
    | none => simp [hr] at hn
    | some r => exact (List.getElem?_eq_some.1 hr).1

theorem semanticError_eq {t : TreeNode} {m : Msg} {s s2 : State}
    (h : semanticError t m s = some s2) :
    ∃ ln, t.lineno? = some ln ∧
      s2 = { s with listing := s.listing ++ [⟨m, ln⟩], Error := true } := by
  unfold semanticError at h
  cases hl : t.lineno? with
  | none => simp [hl] at h
  | some ln =>
    simp only [hl, Option.some.injEq] at h
    exact ⟨ln, rfl, h.symm⟩

theorem semanticError_OK {t : TreeNode} {m : Msg} {s s2 : State} (hok : s.OK)
    (h : semanticError t m s = some s2) : s2.OK := by
  obtain ⟨ln, _, e⟩ := semanticError_eq h
  subst e
  exact hok

theorem leaveScope_OK {s s2 : State} (hok : s.OK) (h : leaveScope s = some s2) : s2.OK := by
  unfold leaveScope at h
  cases hc : s.currentScope with
  | none => simp [hc] at h
  | some c =>
    cases hr : s.tab.scopes[c]? with
    | none => simp [hc, hr] at h
    | some cr =>
      simp only [hc, hr, Option.some.injEq] at h
      subst h
      exact ⟨hok.1, fun p hp => parent_valid hok.1 hr hp⟩

theorem enterNewScope_OK {s s2 : State} {n : String} (hok : s.OK)
    (h : enterNewScope s n = some s2) : s2.OK := by
  unfold enterNewScope at h
  cases hc : createScope s.tab n s.currentScope with
  | none => simp [hc] at h
  | some res =>
    obtain ⟨c, tab⟩ := res
    simp only [hc, Option.some.injEq] at h
    subst h
    obtain ⟨hwf2, a, ha, hlt⟩ := WF_createScope hok.1 hok.2 hc
    exact ⟨hwf2, fun c2 hc2 => by
      simp only at hc2
      rw [ha] at hc2
      cases hc2
      exact hlt⟩

theorem st_insert_length {st st2 : SymTab} {sc : ScopeList} {n : String}
    {t : ExpType} {k loc : Int} {l : BucketList}
    (h : st_insert st sc n t k loc = some (l, st2)) :
    st2.scopes.length = st.scopes.length := by
  unfold st_insert at h
  cases sc with
  | none => simp at h
  | some s =>
    cases hs : st.scopes[s]? with
    | none => simp [hs] at h
    | some sr =>
      simp only [hs] at h
      split at h
      · simp at h
      · simp only [Option.some.injEq, Prod.mk.injEq] at h
        rw [← h.2]; simp
      · split at h
        · simp at h
        · simp only [Option.some.injEq, Prod.mk.injEq] at h
          rw [← h.2]

theorem setFunc_length {st st2 : SymTab} {l : BucketList} {f : FuncRec → FuncRec}
    (h : setFunc st l f = some st2) : st2.scopes = st.scopes := by
  unfold setFunc at h
  cases l with
  | none => simp at h
  | some a =>
    cases hr : st.buckets[a]? with
    | none => simp [hr] at h
    | some r =>
      simp only [hr, Option.some.injEq] at h
      subst h
      rfl

theorem recordSignature_WF {tab tab2 : SymTab} {l : BucketList} {param : TreeNode}
    (hwf : WF tab) (h : recordSignature tab l param = some tab2) :
    WF tab2 ∧ tab2.scopes = tab.scopes := by
  unfold recordSignature at h
  cases hp : param.type? with
  | none => simp [hp] at h
  | some pty =>
    simp only [hp] at h
    by_cases e : pty ≠ Void
    · rw [if_pos e] at h
      exact ⟨WF_setFunc hwf h, setFunc_length h⟩
    · rw [if_neg e] at h
      cases h
      exact ⟨hwf, rfl⟩

theorem insertNode_OK {t : TreeNode} {s s2 : State} (hok : s.OK)
    (h : insertNode t s = some s2) : s2.OK := by
  unfold insertNode at h
  split at h
  · simp at h
  · cases h; exact hok
  · -- ParamK
    split at h
    · simp at h
    · exact semanticError_OK hok h
    · split at h
      · simp at h
      · rename_i l tab hins
        cases h
        exact ⟨WF_st_insert hok.1 hins, fun c hc => by
          rw [st_insert_length hins]; exact hok.2 c hc⟩
  · -- VarDeclK
    split at h
    · simp at h
    · exact semanticError_OK hok h
    · split at h
      · simp at h
      · rename_i l tab hins
        cases h
        exact ⟨WF_st_insert hok.1 hins, fun c hc => by
          rw [st_insert_length hins]; exact hok.2 c hc⟩
  · -- FuncDeclK
    split at h
    · simp at h
    · exact semanticError_OK hok h
    · split at h
      · simp at h
      · rename_i l tab hins
        split at h
        · simp at h
        · rename_i tab2 hsf
          have hwf2 : WF tab2 := WF_setFunc (WF_st_insert hok.1 hins) hsf
          have hlen2 : tab2.scopes.length = s.tab.scopes.length := by
            rw [setFunc_length hsf, st_insert_length hins]
          split at h
          · simp at h
          · rename_i tab3 htab3
            have h3 := recordSignature_WF hwf2 htab3
            split at h
            · simp at h
            · rename_i s3 hent
              cases h
              have : (State.mk tab3 s.currentScope s.func_decl_flag s.Error s.listing s.indet).OK :=
                ⟨h3.1, fun c hc => by rw [h3.2, hlen2]; exact hok.2 c hc⟩
              have h4 := enterNewScope_OK this hent
              exact ⟨h4.1, h4.2⟩
  · -- CompoundK
    split at h
    · cases h; exact hok
    · split at h
      · simp at h
      · split at h
        · simp at h
        · exact enterNewScope_OK hok h
  · cases h; exact hok
  · -- VarAccessK
    split at h
    · simp at h
    · exact semanticError_OK hok h
    · split at h
      · simp at h
      · split at h
        · simp at h
        · rename_i l tab hins
          cases h
          exact ⟨WF_st_insert hok.1 hins, fun c hc => by
            rw [st_insert_length hins]; exact hok.2 c hc⟩
  · -- CallK
    split at h
    · simp at h
    · exact semanticError_OK hok h
    · split at h
      · simp at h
      · split at h
        · simp at h
        · rename_i l tab hins
          cases h
          exact ⟨WF_st_insert hok.1 hins, fun c hc => by
            rw [st_insert_length hins]; exact hok.2 c hc⟩
  · cases h; exact hok


theorem afterInsertProc_OK {t : TreeNode} {s s2 : State} {ty : ExpType} (hok : s.OK)
    (h : afterInsertProc t s = some (ty, s2)) : s2.OK := by
  unfold afterInsertProc at h
  split at h
  · rename_i ty0 s0 _ hs0
    cases h
    unfold afterInsertNode at hs0
    split at hs0
    · simp at hs0
    · exact leaveScope_OK hok hs0
    · cases hs0; exact hok
  · simp at h

/-- An invariant that `preProc` and `postProc` keep is kept by `traverse`. -/
theorem traverse_inv {preProc : TreeNode → State → Option State}
    {postProc : TreeNode → State → Option (ExpType × State)} (Inv : State → Prop)
    (hpre : ∀ t s s2, Inv s → preProc t s = some s2 → Inv s2)
    (hpost : ∀ t s ty s2, Inv s → postProc t s = some (ty, s2) → Inv s2) :
    ∀ (t : TreeNode) (s : State) (t2 : TreeNode) (s2 : State), Inv s →
      traverse preProc postProc t s = some (t2, s2) → Inv s2 := by
  intro t
  induction t with
  | null =>
    intro s t2 s2 hi h
    simp only [traverse, Option.some.injEq, Prod.mk.injEq] at h
    rw [← h.2]; exact hi
  | node k ln nm ty c0 c1 c2 sib ih0 ih1 ih2 ihs =>
    intro s t2 s2 hi h
    simp only [traverse] at h
    split at h
    · simp at h
    · rename_i s1 h1
      split at h
      · simp at h
      · rename_i c0b s3 h3
        split at h
        · simp at h
        · rename_i c1b s4 h4
          split at h
          · simp at h
          · rename_i c2b s5 h5
            split at h
            · simp at h
            · rename_i ty2 s6 h6
              split at h
              · simp at h
              · rename_i sib2 s7 h7
                simp only [Option.some.injEq, Prod.mk.injEq] at h
                rw [← h.2]
                have i1 := hpre _ _ _ hi h1
                have i3 := ih0 _ _ _ i1 h3
                have i4 := ih1 _ _ _ i3 h4
                have i5 := ih2 _ _ _ i4 h5
                have i6 := hpost _ _ _ _ i5 h6
                exact ihs _ _ _ i6 h7

theorem st_insert_globalScope {st st2 : SymTab} {sc : ScopeList} {n : String}
    {t : ExpType} {k loc : Int} {l : BucketList}
    (h : st_insert st sc n t k loc = some (l, st2)) :
    st2.globalScope = st.globalScope := by
  unfold st_insert at h
  cases sc with
  | none => simp at h
  | some s =>
    cases hs : st.scopes[s]? with
    | none => simp [hs] at h
    | some sr =>
      simp only [hs] at h
      split at h
      · simp at h
      · simp only [Option.some.injEq, Prod.mk.injEq] at h
        rw [← h.2]
      · split at h
        · simp at h
        · simp only [Option.some.injEq, Prod.mk.injEq] at h
          rw [← h.2]

theorem setFunc_globalScope {st st2 : SymTab} {l : BucketList} {f : FuncRec → FuncRec}
    (h : setFunc st l f = some st2) : st2.globalScope = st.globalScope := by
  unfold setFunc at h
  cases l with
  | none => simp at h
  | some a =>
    cases hr : st.buckets[a]? with
    | none => simp [hr] at h
    | some r =>
      simp only [hr, Option.some.injEq] at h
      subst h
      rfl

theorem WF_single (n : String) (g : ScopeList) : WF ⟨[newScopeRec n none], [], g⟩ := by
  constructor
  · intro s sr h hs
    cases s with
    | zero =>
      simp only [List.getElem?_cons_zero, Option.some.injEq] at hs
      subst hs
      exact TableOK_nil _ _ _
    | succ s => simp at hs
  · intro s sr hs
    cases s with
    | zero =>
      simp only [List.getElem?_cons_zero, Option.some.injEq] at hs
      subst hs
      exact KidsOK_nil _ _
    | succ s => simp at hs
  · intro s sr hs
    cases s with
    | zero =>
      simp only [List.getElem?_cons_zero, Option.some.injEq] at hs
      subst hs
      exact ⟨[], Chain.nil, by simp⟩
    | succ s => simp at hs

/-- The table `init_symtab` builds is well-formed and its global scope is the scope at
address 0. -/
theorem init_symtab_OK {st : SymTab} (h : init_symtab = some st) :
    WF st ∧ st.globalScope = some 0 ∧ 0 < st.scopes.length := by
  unfold init_symtab at h
  simp only [buildScope, List.nil_append, List.length_nil] at h
  have hwf0 := WF_single "global" (some 0)
  split at h
  · simp at h
  · rename_i l1 st1 h1
    have w1 := WF_st_insert hwf0 h1
    have e1 := st_insert_length h1
    have g1 := st_insert_globalScope h1
    split at h
    · simp at h
    · rename_i st2 h2
      split at h
      · simp at h
      · rename_i st3 h3
        split at h
        · simp at h
        · rename_i st4 h4
          have w4 := WF_setFunc (WF_setFunc (WF_setFunc w1 h2) h3) h4
          have e4 : st4.scopes.length = 1 := by
            rw [setFunc_length h4, setFunc_length h3, setFunc_length h2, e1]; rfl
          have g4 : st4.globalScope = some 0 := by
            rw [setFunc_globalScope h4, setFunc_globalScope h3, setFunc_globalScope h2, g1]
          split at h
          · simp at h
          · rename_i l5 st5 h5
            have w5 := WF_st_insert w4 h5
            have e5 := st_insert_length h5
            have g5 := st_insert_globalScope h5
            split at h
            · simp at h
            · rename_i st6 h6
              refine ⟨WF_setFunc (WF_setFunc w5 h6) h, ?_, ?_⟩
              · rw [setFunc_globalScope h, setFunc_globalScope h6, g5, g4]
              · rw [setFunc_length h, setFunc_length h6, e5, e4]; decide

theorem init_symtab_some : ∃ st, init_symtab = some st := by
  have : init_symtab.isSome = true := by decide
  exact Option.isSome_iff_exists.1 this

/-- `buildSymtab` ends in a state that satisfies the invariant. -/
theorem buildSymtab_OK {t t2 : TreeNode} {s s2 : State}
    (h : buildSymtab t s = some (t2, s2)) : s2.OK := by
  unfold buildSymtab at h
  split at h
  · simp at h
  · rename_i tab htab
    obtain ⟨hwf, hg, hlen⟩ := init_symtab_OK htab
    refine traverse_inv State.OK (fun _ _ _ hi hp => insertNode_OK hi hp)
      (fun _ _ _ _ hi hp => afterInsertProc_OK hi hp) _ _ _ _ ?_ h
    exact ⟨hwf, fun c hc => by
      simp only at hc
      rw [hg] at hc
      cases hc
      exact hlen⟩

/-! ## Declarations in the first pass -/

theorem scopeChain_cons {st : SymTab} (hwf : WF st) {S : Nat} {sr : ScopeListRec}
    (hs : st.scopes[S]? = some sr) :
    scopeChain st S = S :: (match sr.parent with
      | none => []
      | some P => scopeChain st P) := by
  have hS : S < st.scopes.length := (List.getElem?_eq_some.1 hs).1
  obtain ⟨hc, _⟩ := scopeChain_chain hwf hS
  generalize scopeChain st S = xs at hc
  cases hc with
  | @cons _ k xs0 hn hc0 =>
    simp only [parentOf, hs, Option.map_some', Option.some.injEq] at hn
    subst hn
    cases hp : sr.parent with
    | none =>
      rw [hp] at hc0
      cases hc0
      rfl
    | some P =>
      rw [hp] at hc0
      obtain ⟨hcP, _⟩ := scopeChain_chain hwf (parent_valid hwf hs hp)
      rw [chain_unique hc0 hcP]

theorem scopeChain_ext {st st2 : SymTab} (hwf : WF st) (h : ScopesExt st.scopes st2.scopes)
    {S : Nat} (hS : S < st.scopes.length) : scopeChain st2 S = scopeChain st S := by
  obtain ⟨hc, hl⟩ := scopeChain_chain hwf hS
  exact walk_of_chain (chain_ext_parent h hc) _ (le_trans hl (scopesExt_length_le h))

/-- A scope is not on the scope chain of its parent. -/
theorem not_mem_scopeChain_parent {st : SymTab} (hwf : WF st) {S P : Nat} {sr : ScopeListRec}
    (hs : st.scopes[S]? = some sr) (hp : sr.parent = some P) : S ∉ scopeChain st P := by
  have hS : S < st.scopes.length := (List.getElem?_eq_some.1 hs).1
  obtain ⟨hc, _⟩ := scopeChain_chain hwf hS
  have hnd := chain_nodup hc
  rw [scopeChain_cons hwf hs] at hnd
  simp only [hp] at hnd
  exact (List.nodup_cons.1 hnd).1

/-- What the redeclaration test of `insertNode` computes. -/
theorem declaredHere_spec {s : State} (hwf : WF s.tab) {S : Nat}
    (hcur : s.currentScope = some S) (hS : S < s.tab.scopes.length) (nm : String) :
    ((∃ b ∈ tableOf s.tab S, symName s.tab b = some nm) → declaredHere s nm = some true) ∧
    ((∀ b ∈ tableOf s.tab S, symName s.tab b ≠ some nm) → declaredHere s nm = some false) := by
  obtain ⟨sr, hs⟩ : ∃ sr, s.tab.scopes[S]? = some sr := ⟨_, List.getElem?_eq_getElem hS⟩
  have hlk := st_lookup_findSome hwf hS nm
  rw [scopeChain_cons hwf hs, List.findSome?_cons] at hlk
  obtain ⟨hf1, hf2⟩ := localFind_spec hwf nm S
  constructor
  · rintro ⟨b, hb, hbn⟩
    cases hlf : localFind s.tab nm S with
    | none => exact absurd hbn (hf2 hlf b hb)
    | some b0 =>
      rw [hlf] at hlk
      obtain ⟨hb0, _⟩ := hf1 b0 hlf
      obtain ⟨_, r, _, hr, hsc, _⟩ := tableOf_props hwf hb0
      simp [declaredHere, hcur, hlk, hr, hsc]
  · intro hnone
    cases hlf : localFind s.tab nm S with
    | some b0 =>
      obtain ⟨hb0, hn0⟩ := hf1 b0 hlf
      exact absurd hn0 (hnone b0 hb0)
    | none =>
      rw [hlf] at hlk
      simp only at hlk
      cases hrest : (match sr.parent with
          | none => []
          | some P => scopeChain s.tab P).findSome? (localFind s.tab nm) with
      | none =>
        rw [hrest] at hlk
        simp [declaredHere, hcur, hlk]
      | some b1 =>
        rw [hrest] at hlk
        obtain ⟨s1, _, hs1⟩ := List.exists_of_findSome?_eq_some hrest
        obtain ⟨hb1, hn1⟩ := (localFind_spec hwf nm s1).1 b1 hs1
        obtain ⟨_, r, _, hr, hsc, _⟩ := tableOf_props hwf hb1
        have hne : s1 ≠ S := by
          intro e
          subst e
          exact hnone b1 hb1 hn1
        have : ¬ (some s1 = some S) := fun e => hne (Option.some.inj e)
        simp [declaredHere, hcur, hlk, hr, hsc, this]


/-- After `st_insert` allocated a symbol named `n` in scope `S`, lookups of `n` from `S`
find it, and lookups from the parent of `S` find what they found before. -/
theorem lookup_insertNew {st : SymTab} (hwf : WF st) {S : Nat} {sr : ScopeListRec}
    (hs : st.scopes[S]? = some sr) (n : String) (t : ExpType) (k loc : Int)
    (hnone : ∀ b ∈ tableOf st S, symName st b ≠ some n) :
    st_lookup (insertNew st S sr n t k loc) (some S) n = some (some st.buckets.length) ∧
    ∀ P, sr.parent = some P →
      st_lookup (insertNew st S sr n t k loc) (some P) n = st_lookup st (some P) n := by
  have hS : S < st.scopes.length := (List.getElem?_eq_some.1 hs).1
  have hwf2 := WF_insertNew hwf hs n t k loc hnone
  have hlen : (insertNew st S sr n t k loc).scopes.length = st.scopes.length := by
    simp [insertNew]
  have hext : BucketsExt st.buckets (insertNew st S sr n t k loc).buckets :=
    bucketsExt_append _ _
  have hsext : ScopesExt st.scopes (insertNew st S sr n t k loc).scopes :=
    scopesExt_set _ _ sr _ hs rfl rfl rfl
  have hs2 : (insertNew st S sr n t k loc).scopes[S]? =
      some (sr.setBucket (hash n) (some st.buckets.length)) := by
    simp [insertNew, List.getElem?_set_self hS]
  constructor
  · rw [st_lookup_findSome hwf2 (by rw [hlen]; exact hS), scopeChain_cons hwf2 hs2,
      List.findSome?_cons]
    have hmem : st.buckets.length ∈ tableOf (insertNew st S sr n t k loc) S :=
      (mem_tableOf_insertNew hwf hs n t k loc _).2 (Or.inl rfl)
    have hname : symName (insertNew st S sr n t k loc) st.buckets.length = some n := by
      simp [symName, insertNew]
    obtain ⟨hf1, hf2⟩ := localFind_spec hwf2 n S
    cases hlf : localFind (insertNew st S sr n t k loc) n S with
    | none => exact absurd hname (hf2 hlf _ hmem)
    | some b =>
      obtain ⟨hb, hbn⟩ := hf1 b hlf
      rw [tableOf_unique hwf2 hb hmem hbn hname]
  · intro P hp
    have hP : P < st.scopes.length := parent_valid hwf hs hp
    rw [st_lookup_findSome hwf2 (by rw [hlen]; exact hP), st_lookup_findSome hwf hP,
      scopeChain_ext hwf hsext hP]
    congr 1
    apply findSome?_congr_mem
    intro a ha
    have hne : a ≠ S := fun e => not_mem_scopeChain_parent hwf hs hp (e ▸ ha)
    have hsame : (insertNew st S sr n t k loc).scopes[a]? = st.scopes[a]? := by
      simp only [insertNew]
      exact List.getElem?_set_ne (fun e => hne e.symm)
    cases hr : st.scopes[a]? with
    | none => simp [localFind, hsame, hr]
    | some ar => exact localFind_frame hwf hext n hr (hsame.trans hr) rfl

/-- C4: the declaration pass at a variable or parameter declaration node named `nm`,
with the cursor at scope `S` of a well-formed table.  `insertNode` returns; the cursor
stays.  If `S`'s own table holds a symbol named `nm`, exactly one diagnostic, the
redeclaration error for the node's line, is appended, the failure flag is set and the
symbol table is unchanged.  If it holds none (whether or not an ancestor does), no
diagnostic is written and the flag is kept, a new symbol with name `nm`, the declared
type and owning scope `S` is added to the table of `S`, lookups of `nm` from `S` find
the new symbol, and lookups of `nm` from the parent of `S` find what they found before.
The redeclaration error is written exactly when `S`'s own table holds `nm`. -/
theorem insertNode_declaration (s : State) (hwf : WF s.tab) (S : Nat)
    (hcur : s.currentScope = some S) (hS : S < s.tab.scopes.length)
    (k : StmtKind) (hk : k = .ParamK ∨ k = .VarDeclK)
    (ln : Int) (nm : String) (ty : ExpType) (c0 c1 c2 sib : TreeNode) :
    ∃ s2, insertNode (.node (.StmtK k) ln nm ty c0 c1 c2 sib) s = some s2 ∧
      s2.currentScope = s.currentScope ∧
      ((∃ b ∈ tableOf s.tab S, symName s.tab b = some nm) →
        s2.listing = s.listing ++ [⟨.redefinedVariable nm, ln⟩] ∧ s2.Error = true ∧
        s2.tab = s.tab) ∧
      ((∀ b ∈ tableOf s.tab S, symName s.tab b ≠ some nm) →
        s2.listing = s.listing ∧ s2.Error = s.Error ∧
        (∃ r, s2.tab.buckets[s.tab.buckets.length]? = some r ∧ r.name = nm ∧ r.type = ty ∧
          r.scope = some S) ∧
        (∀ b, b ∈ tableOf s2.tab S ↔ b = s.tab.buckets.length ∨ b ∈ tableOf s.tab S) ∧
        st_lookup s2.tab (some S) nm = some (some s.tab.buckets.length) ∧
        ∀ P, parentOf s.tab.scopes S = some (some P) →
          st_lookup s2.tab (some P) nm = st_lookup s.tab (some P) nm) ∧
      (s2.listing = s.listing ++ [⟨.redefinedVariable nm, ln⟩] ↔
        ∃ b ∈ tableOf s.tab S, symName s.tab b = some nm) := by
  obtain ⟨sr, hs⟩ : ∃ sr, s.tab.scopes[S]? = some sr := ⟨_, List.getElem?_eq_getElem hS⟩
  obtain ⟨hd1, hd2⟩ := declaredHere_spec hwf hcur hS nm
  by_cases hex : ∃ b ∈ tableOf s.tab S, symName s.tab b = some nm
  · have hd := hd1 hex
    refine ⟨{ s with listing := s.listing ++ [⟨.redefinedVariable nm, ln⟩], Error := true },
      ?_, rfl, fun _ => ⟨rfl, rfl, rfl⟩, ?_, ?_⟩
    · rcases hk with rfl | rfl <;> simp [insertNode, hd, semanticError, TreeNode.lineno?]
    · intro hnone
      obtain ⟨b, hb, hbn⟩ := hex
      exact absurd hbn (hnone b hb)
    · exact ⟨fun _ => hex, fun _ => rfl⟩
  · have hnone : ∀ b ∈ tableOf s.tab S, symName s.tab b ≠ some nm :=
      fun b hb hbn => hex ⟨b, hb, hbn⟩
    have hd := hd2 hnone
    have hins : st_insert s.tab (some S) nm ty ln ln =
        some (some s.tab.buckets.length, insertNew s.tab S sr nm ty ln ln) := by
      rcases st_insert_cases hwf hs nm ty ln ln with ⟨_, e⟩ | ⟨b, _, hb, hbn, _, _⟩
      · exact e
      · exact absurd hbn (hnone b hb)
    obtain ⟨hl1, hl2⟩ := lookup_insertNew hwf hs nm ty ln ln hnone
    refine ⟨{ s with tab := insertNew s.tab S sr nm ty ln ln }, ?_, rfl,
      fun h => absurd h hex, fun _ => ⟨rfl, rfl, ?_, ?_, hl1, ?_⟩, ?_⟩
    · rcases hk with rfl | rfl <;> simp [insertNode, hd, hcur, hins]
    · exact ⟨⟨nm, ty, [ln], ln, FuncRec.fresh, sr.bucket (hash nm), some S⟩,
        by simp [insertNew], rfl, rfl, rfl⟩
    · exact mem_tableOf_insertNew hwf hs nm ty ln ln
    · intro P hP
      apply hl2
      simpa [parentOf, hs] using hP
    · constructor
      · intro h
        have := congrArg List.length h
        simp at this
      · intro h
        exact absurd h hex

/-! ## The claims about the symbol table at a sample table -/


theorem WF_empty : WF ⟨[], [], none⟩ :=
  ⟨fun s sr h hs => by simp at hs, fun s sr hs => by simp at hs, fun s sr hs => by simp at hs⟩

theorem stateAfter_OK (t : TreeNode) : (stateAfter t).OK := by
  unfold stateAfter
  split
  · rename_i t2 s h
    exact buildSymtab_OK h
  · exact ⟨WF_empty, fun c hc => by simp [initState] at hc⟩

/-- C1 at the table of `progShadow`: the lookup of `x` from the scope `main`. -/
theorem st_lookup_nearest_witness :
    WF shadowTab ∧ 1 < shadowTab.scopes.length ∧
    ∃ r, st_lookup shadowTab (some 1) "x" = some r ∧
      (r = none ↔ ∀ s ∈ scopeChain shadowTab 1, ∀ b ∈ tableOf shadowTab s,
        symName shadowTab b ≠ some "x") :=
  ⟨(stateAfter_OK progShadow).1, by decide,
    (st_lookup_nearest shadowTab (stateAfter_OK progShadow).1 1 (by decide) "x").2.imp
      fun _ h => ⟨h.1, h.2.2⟩⟩

/-- C2 at the table of `progShadow`: `st_insert` of `x` into the scope `main`. -/
theorem st_insert_post_witness :
    WF shadowTab ∧ 1 < shadowTab.scopes.length ∧
    ∃ l st2, st_insert shadowTab (some 1) "x" Integer 5 5 = some (some l, st2) ∧
      st2.scopes.length = shadowTab.scopes.length :=
  ⟨(stateAfter_OK progShadow).1, by decide,
    (st_insert_post shadowTab (stateAfter_OK progShadow).1 1 (by decide) "x" Integer 5 5).imp
      fun _ h => h.imp fun _ h2 => ⟨h2.1, h2.2.2.2.2.2.2.1⟩⟩

/-- C3 at the table of `progShadow`: `findScope` of `main` under the global scope. -/
theorem createScope_findScope_witness :
    WF shadowTab ∧ 0 < shadowTab.scopes.length ∧
    ∃ r, findScope shadowTab "main" (some 0) = some r ∧
      (r = none ↔ ∀ c ∈ children shadowTab 0, scopeName shadowTab c ≠ some "main") :=
  ⟨(stateAfter_OK progShadow).1, by decide,
    (createScope_findScope shadowTab (stateAfter_OK progShadow).1 0 (by decide) "main").2.imp
      fun _ h => ⟨h.1, h.2.2⟩⟩

/-- C4 at the table of `progShadow`: the declaration of `x` with the cursor in `main`. -/
theorem insertNode_declaration_witness :
    WF shadowTab ∧ 1 < shadowTab.scopes.length ∧
    ∃ s2, insertNode (leaf (.StmtK .VarDeclK) 5 "x" Integer)
        { stateAfter progShadow with currentScope := some 1 } = some s2 ∧
      s2.currentScope = some 1 :=
  ⟨(stateAfter_OK progShadow).1, by decide,
    (insertNode_declaration { stateAfter progShadow with currentScope := some 1 }
      (stateAfter_OK progShadow).1 1 rfl (by decide) .VarDeclK (Or.inr rfl) 5 "x" Integer
      .null .null .null .null).imp fun _ h => ⟨h.1, h.2.1⟩⟩

/-! ## The two passes on the same tree -/


/-- `traverseLog` runs `traverse`. -/
theorem traverseLog_traverse (preProc : TreeNode → State → Option State)
    (postProc : TreeNode → State → Option (ExpType × State)) :
    ∀ (t : TreeNode) (s : State),
      (traverseLog preProc postProc t s).map (fun r => r.2) = traverse preProc postProc t s := by
  intro t
  induction t with
  | null => intro s; rfl
  | node k ln nm ty c0 c1 c2 sib ih0 ih1 ih2 ihs =>
    intro s
    simp only [traverseLog, traverse]
    cases h1 : preProc (.node k ln nm ty c0 c1 c2 sib) s with
    | none => rfl
    | some s1 =>
      simp only []
      rw [← ih0 s1]
      cases h2 : traverseLog preProc postProc c0 s1 with
      | none => rfl
      | some r0 =>
        obtain ⟨l0, c0b, s2⟩ := r0
        simp only [Option.map_some']
        rw [← ih1 s2]
        cases h3 : traverseLog preProc postProc c1 s2 with
        | none => rfl
        | some r1 =>
          obtain ⟨l1, c1b, s3⟩ := r1
          simp only [Option.map_some']
          rw [← ih2 s3]
          cases h4 : traverseLog preProc postProc c2 s3 with
          | none => rfl
          | some r2 =>
            obtain ⟨l2, c2b, s4⟩ := r2
            simp only [Option.map_some']
            cases h5 : postProc (.node k ln nm ty c0b c1b c2b sib) s4 with
            | none => rfl
            | some r5 =>
              obtain ⟨ty5, s5⟩ := r5
              simp only []
              rw [← ihs s5]
              cases h6 : traverseLog preProc postProc sib s5 with
              | none => rfl
              | some r6 =>
                obtain ⟨l6, sb, s6⟩ := r6
                rfl

/-- C5, at the tree `progRedeclared` (a redeclared function name): the cursor log of
the declaration pass and the cursor log of the type-checking pass differ.  At the body
of the second `f` the declaration pass is in the new scope `global-2` (address 2), the
type-checking pass in the scope `f` (address 1) of the first declaration. -/
theorem redeclared_function_logs_differ :
    (buildSymtabLog progRedeclared initState).map (fun r => r.1) =
      some [some 1, some 1, some 1, some 1, some 0, some 0,
            some 0, some 0, some 0, some 2, some 0, some 0] ∧
    (typeCheckLog progRedeclared).map (fun r => r.1) =
      some [some 1, some 1, some 1, some 1, some 0, some 0,
            some 1, some 1, some 1, some 1, some 0, some 0] ∧
    (typeCheckLog progRedeclared).map (fun r => r.2.2.tab.scopes.map (fun sr => sr.name)) =
      some ["global", "f", "global-2"] ∧
    (buildSymtabLog progRedeclared initState).map (fun r => r.1) ≠
      (typeCheckLog progRedeclared).map (fun r => r.1) := by
  decide

/-- When the redeclared name is a variable, `int f; void f(void) { }`, the type-checking
pass has no result: `findScope` finds no scope `f`, the cursor becomes `NULL`, and the
exit from the body of `f` dereferences it.  The declaration pass has a result. -/
theorem redeclared_variable_no_result :
    (buildSymtab progVarFunction initState).isSome = true ∧
    (analyze progVarFunction).isNone = true := by
  decide

/-! ## Calls in the second pass -/

/-- C6, at the tree `progUndeclaredArg`, whose only violation is the use of the
undeclared identifier as the argument of `output`: the two passes write two
diagnostics, the undefined-identifier error of the declaration pass and an
argument-type-mismatch error of the type-checking pass for the enclosing call. -/
theorem undeclared_argument_two_diagnostics :
    (analyze progUndeclaredArg).map (fun r => r.2.listing) =
      some [⟨.undefinedIdentifier "undeclared", 2⟩,
            ⟨.argTypeMismatch "value" "undeclared", 2⟩] := by
  decide

theorem countArgs_eq (t : TreeNode) : countArgs t = (argList t).length := by
  induction t with
  | null => rfl
  | node k ln nm ty c0 c1 c2 sib _ _ _ ihs => simp [countArgs, argList, ihs]

/-- The loop that compares arguments and parameters: it ends, without a mismatch exactly
when every argument has the type of the parameter at its position, and otherwise with
the mismatch at the first position where the types differ. -/
theorem checkArgs_spec (f : FuncRec) (junk : Nat → ParamRec) (ps : Nat → ParamRec) :
    ∀ (args : TreeNode) (p : Nat),
      (∀ i, i < countArgs args → f.paramAt junk (p + i) = ps (p + i)) →
      ∃ res, checkArgs f junk (countArgs args) p args = some res ∧
        (res = none ↔ ∀ i a, (argList args)[i]? = some a → a.2 = (ps (p + i)).type) ∧
        (∀ i a, (argList args)[i]? = some a → a.2 ≠ (ps (p + i)).type →
          (∀ j b, j < i → (argList args)[j]? = some b → b.2 = (ps (p + j)).type) →
          res = some (.argTypeMismatch (ps (p + i)).name a.1)) := by
  intro args
  induction args with
  | null =>
    intro p _
    exact ⟨none, rfl, by simp [argList], by simp [argList]⟩
  | node k ln nm ty c0 c1 c2 sib _ _ _ ihs =>
    intro p hp
    have h0 : f.paramAt junk p = ps p := by simpa using hp 0 (by simp [countArgs])
    by_cases e : ty = (ps p).type
    · obtain ⟨res, hres, hnone, hsome⟩ := ihs (p + 1) (fun i hi => by
        have := hp (i + 1) (by simp [countArgs]; exact hi)
        rw [show p + 1 + i = p + (i + 1) by omega]; exact this)
      refine ⟨res, ?_, ?_, ?_⟩
      · simp only [countArgs, checkArgs, h0]
        rw [if_neg (by simpa using e)]
        exact hres
      · rw [hnone]
        constructor
        · intro h i a hia
          cases i with
          | zero =>
            simp only [argList, List.getElem?_cons_zero, Option.some.injEq] at hia
            subst hia
            exact e
          | succ i =>
            simp only [argList, List.getElem?_cons_succ] at hia
            rw [show p + (i + 1) = p + 1 + i by omega]
            exact h i a hia
        · intro h i a hia
          rw [show p + 1 + i = p + (i + 1) by omega]
          exact h (i + 1) a (by simpa [argList] using hia)
      · intro i a hia hne hprev
        cases i with
        | zero =>
          simp only [argList, List.getElem?_cons_zero, Option.some.injEq] at hia
          subst hia
          exact absurd e hne
        | succ i =>
          simp only [argList, List.getElem?_cons_succ] at hia
          rw [show p + (i + 1) = p + 1 + i by omega] at hne ⊢
          refine hsome i a hia hne ?_
          intro j b hj hjb
          rw [show p + 1 + j = p + (j + 1) by omega]
          exact hprev (j + 1) b (by omega) (by simpa [argList] using hjb)
    · refine ⟨some (.argTypeMismatch (ps p).name nm), ?_, ?_, ?_⟩
      · simp only [countArgs, checkArgs, h0]
        rw [if_pos (by simpa using e)]
      · constructor
        · intro h; cases h
        · intro h
          exact absurd (h 0 (nm, ty) (by simp [argList])) e
      · intro i a hia hne hprev
        cases i with
        | zero =>
          simp only [argList, List.getElem?_cons_zero, Option.some.injEq] at hia
          subst hia
          rfl
        | succ i =>
          exact absurd (hprev 0 (nm, ty) (by omega) (by simp [argList])) e


/-- A mismatch the comparison loop reports is the one at the first position where the
types differ. -/
theorem first_mismatch {args : List (String × ExpType)} {ps : Nat → ParamRec}
    {res : Option Msg}
    (hnone : res = none ↔ ∀ i a, args[i]? = some a → a.2 = (ps i).type)
    (hsome : ∀ i a, args[i]? = some a → a.2 ≠ (ps i).type →
      (∀ j b, j < i → args[j]? = some b → b.2 = (ps j).type) →
      res = some (.argTypeMismatch (ps i).name a.1))
    {m : Msg} (hm : res = some m) :
    ∃ i a, args[i]? = some a ∧ a.2 ≠ (ps i).type ∧
      (∀ j b, j < i → args[j]? = some b → b.2 = (ps j).type) ∧
      m = .argTypeMismatch (ps i).name a.1 := by
  classical
  have hex : ∃ i, ∃ a, args[i]? = some a ∧ a.2 ≠ (ps i).type := by
    by_contra hcon
    have : res = none := hnone.2 fun i a hia => by
      by_contra hne
      exact hcon ⟨i, a, hia, hne⟩
    rw [this] at hm
    cases hm
  obtain ⟨a, hia, hne⟩ := Nat.find_spec hex
  have hprev : ∀ j b, j < Nat.find hex → args[j]? = some b → b.2 = (ps j).type := by
    intro j b hj hjb
    by_contra hne2
    exact Nat.find_min hex hj ⟨b, hjb, hne2⟩
  refine ⟨Nat.find hex, a, hia, hne, hprev, ?_⟩
  have := hsome _ a hia hne hprev
  rw [hm] at this
  exact Option.some.inj this

/-- The three ways `checkNode` leaves a call node whose name resolves to a symbol with a
recorded signature. -/
theorem checkNode_call_cases (s : State) (ln : Int) (nm : String) (ty : ExpType)
    (c0 c1 c2 sib : TreeNode) (l : Nat) (r : BucketListRec) (n : Nat) (R : ExpType)
    (ps : Nat → ParamRec)
    (hl : st_lookup s.tab s.currentScope nm = some (some l))
    (hr : s.tab.buckets[l]? = some r)
    (hn : r.func.params = some n) (hR : r.func.type = some R)
    (hps : ∀ p, p < n → r.func.param p = some (ps p)) :
    (countArgs c0 < n ∧
      checkNode (.node (.ExpK .CallK) ln nm ty c0 c1 c2 sib) s =
        some (ty, s.report (.tooFewArguments nm) ln)) ∨
    (n < countArgs c0 ∧
      checkNode (.node (.ExpK .CallK) ln nm ty c0 c1 c2 sib) s =
        some (ty, s.report (.tooManyArguments nm) ln)) ∨
    (countArgs c0 = n ∧ ∃ res,
      (res = none ↔ ∀ i a, (argList c0)[i]? = some a → a.2 = (ps i).type) ∧
      (∀ i a, (argList c0)[i]? = some a → a.2 ≠ (ps i).type →
        (∀ j b, j < i → (argList c0)[j]? = some b → b.2 = (ps j).type) →
        res = some (.argTypeMismatch (ps i).name a.1)) ∧
      checkNode (.node (.ExpK .CallK) ln nm ty c0 c1 c2 sib) s =
        some (R, match res with
          | none => s
          | some m => s.report m ln)) := by
  have hpr : r.func.paramsRead (s.indet.params l) = (n : Int) := by
    simp [FuncRec.paramsRead, hn]
  have htr : ∀ j, r.func.typeRead j = R := fun j => by simp [FuncRec.typeRead, hR]
  rcases Nat.lt_trichotomy (countArgs c0) n with h | h | h
  · left
    refine ⟨h, ?_⟩
    have h1 : ((countArgs c0 : Nat) : Int) < (n : Int) := Int.ofNat_lt.2 h
    simp only [checkNode, hl, hr, hpr]
    rw [if_pos h1]
    simp [semanticError, TreeNode.lineno?, State.report]
  · right; right
    refine ⟨h, ?_⟩
    obtain ⟨res, hres, hnone, hsome⟩ := checkArgs_spec r.func (s.indet.param l) ps c0 0
      (fun i hi => by
        have := hps i (by omega)
        simp [FuncRec.paramAt, this])
    simp only [Nat.zero_add] at hnone hsome
    refine ⟨res, hnone, hsome, ?_⟩
    simp only [checkNode, hl, hr, hpr, h, lt_irrefl, if_false, gt_iff_lt]
    rw [h] at hres
    simp only [hres]
    cases res with
    | none => simp [htr]
    | some m => simp [semanticError, TreeNode.lineno?, State.report, htr]
  · right; left
    refine ⟨h, ?_⟩
    have h1 : ¬ ((countArgs c0 : Nat) : Int) < (n : Int) := by omega
    have h2 : ((countArgs c0 : Nat) : Int) > (n : Int) := by omega
    simp only [checkNode, hl, hr, hpr]
    rw [if_neg h1, if_pos h2]
    simp [semanticError, TreeNode.lineno?, State.report]

/-- C7: `checkNode` at a call node whose name resolves to a symbol with `n` recorded
parameters `ps 0, ..., ps (n-1)` and return type `R`, with `m = countArgs c0` typed
arguments.  It returns and appends a list `ds` of at most one diagnostic: `ds` is the
too-few-arguments error exactly when `m < n`, the too-many-arguments error exactly when
`m > n`; when `m = n`, `ds` is empty exactly when every argument has the type of the
parameter at its position, and some argument's type differs from the type of the
parameter at its position exactly when `ds` is the one argument-type-mismatch error
for the first such position. -/
theorem checkNode_call_diagnostics (s : State) (ln : Int) (nm : String) (ty : ExpType)
    (c0 c1 c2 sib : TreeNode) (l : Nat) (r : BucketListRec) (n : Nat) (R : ExpType)
    (ps : Nat → ParamRec)
    (hl : st_lookup s.tab s.currentScope nm = some (some l))
    (hr : s.tab.buckets[l]? = some r)
    (hn : r.func.params = some n) (hR : r.func.type = some R)
    (hps : ∀ p, p < n → r.func.param p = some (ps p)) :
    ∃ ty2 s2 ds, checkNode (.node (.ExpK .CallK) ln nm ty c0 c1 c2 sib) s = some (ty2, s2) ∧
      s2.listing = s.listing ++ ds ∧ ds.length ≤ 1 ∧
      (ds = [⟨.tooFewArguments nm, ln⟩] ↔ countArgs c0 < n) ∧
      (ds = [⟨.tooManyArguments nm, ln⟩] ↔ n < countArgs c0) ∧
      (countArgs c0 = n →
        (ds = [] ↔ ∀ i a, (argList c0)[i]? = some a → a.2 = (ps i).type) ∧
        ((∃ i a, (argList c0)[i]? = some a ∧ a.2 ≠ (ps i).type) ↔
          ∃ i a, (argList c0)[i]? = some a ∧ a.2 ≠ (ps i).type ∧
            (∀ j b, j < i → (argList c0)[j]? = some b → b.2 = (ps j).type) ∧
            ds = [⟨.argTypeMismatch (ps i).name a.1, ln⟩])) := by
  rcases checkNode_call_cases s ln nm ty c0 c1 c2 sib l r n R ps hl hr hn hR hps with
    ⟨h, e⟩ | ⟨h, e⟩ | ⟨h, res, hnone, hsome, e⟩
  · refine ⟨_, _, [⟨.tooFewArguments nm, ln⟩], e, rfl, by simp, ?_, ?_, ?_⟩
    · simp [h]
    · simp; omega
    · intro h2; omega
  · refine ⟨_, _, [⟨.tooManyArguments nm, ln⟩], e, rfl, by simp, ?_, ?_, ?_⟩
    · simp; omega
    · simp [h]
    · intro h2; omega
  · cases res with
    | none =>
      refine ⟨_, _, [], e, by simp, by simp, ?_, ?_, ?_⟩
      · simp; omega
      · simp; omega
      · intro _
        refine ⟨by simpa using hnone, ?_⟩
        constructor
        · rintro ⟨i, a, hia, hne⟩
          exact absurd (hnone.1 rfl i a hia) hne
        · rintro ⟨i, a, hia, hne, _, _⟩
          exact ⟨i, a, hia, hne⟩
    | some m =>
      refine ⟨_, _, [⟨m, ln⟩], e, rfl, by simp, ?_, ?_, ?_⟩
      · constructor
        · intro hd
          obtain ⟨i, a, _, _, _, hm⟩ := first_mismatch hnone hsome rfl
          rw [hm] at hd
          simp at hd
        · intro hlt; omega
      · constructor
        · intro hd
          obtain ⟨i, a, _, _, _, hm⟩ := first_mismatch hnone hsome rfl
          rw [hm] at hd
          simp at hd
        · intro hlt; omega
      · intro _
        refine ⟨?_, ?_⟩
        · constructor
          · intro hd; cases hd
          · intro hall
            have := hnone.2 hall
            cases this
        · constructor
          · intro _
            obtain ⟨i, a, hia, hne, hprev, hm⟩ := first_mismatch hnone hsome rfl
            exact ⟨i, a, hia, hne, hprev, by rw [hm]⟩
          · rintro ⟨i, a, hia, hne, _, _⟩
            exact ⟨i, a, hia, hne⟩

/-- The type `checkNode` leaves in a call node whose name resolves to a symbol with `n`
recorded parameters and return type `R`: `checkNode` sets the node's type to `R` when
the number of arguments is `n`, whether or not an argument-type error is reported, and
leaves the node's type as it was when the number of arguments differs from `n`. -/
theorem checkNode_call_type (s : State) (ln : Int) (nm : String) (ty : ExpType)
    (c0 c1 c2 sib : TreeNode) (l : Nat) (r : BucketListRec) (n : Nat) (R : ExpType)
    (ps : Nat → ParamRec)
    (hl : st_lookup s.tab s.currentScope nm = some (some l))
    (hr : s.tab.buckets[l]? = some r)
    (hn : r.func.params = some n) (hR : r.func.type = some R)
    (hps : ∀ p, p < n → r.func.param p = some (ps p)) :
    ∃ ty2 s2, checkNode (.node (.ExpK .CallK) ln nm ty c0 c1 c2 sib) s = some (ty2, s2) ∧
      (countArgs c0 = n → ty2 = R) ∧ (countArgs c0 ≠ n → ty2 = ty ∧
        s2.listing.length = s.listing.length + 1) := by
  rcases checkNode_call_cases s ln nm ty c0 c1 c2 sib l r n R ps hl hr hn hR hps with
    ⟨h, e⟩ | ⟨h, e⟩ | ⟨h, res, _, _, e⟩
  · exact ⟨_, _, e, fun h2 => by omega, fun _ => ⟨rfl, by simp [State.report]⟩⟩
  · exact ⟨_, _, e, fun h2 => by omega, fun _ => ⟨rfl, by simp [State.report]⟩⟩
  · exact ⟨_, _, e, fun _ => rfl, fun h2 => absurd h h2⟩

/-- C8, at the call `input(1)` and at the tree `progStaleCall`: `input` resolves to a
function symbol with return type `Integer` and no parameter; the call `input(1)` gets
the too-many-arguments error, and the type of the call node after `checkNode` is still
`Void`, not `Integer`; in `x = input(1)` with `x` an `int` the assignment then gets
the assignment-type-mismatch error, a second diagnostic for the one violation. -/
theorem count_error_stale_type :
    st_lookup (stateAfter progShadow).tab (stateAfter progShadow).currentScope "input" =
      some (some 1) ∧
    (stateAfter progShadow).tab.buckets[1]?.map (fun r => (r.type, r.func.type, r.func.params)) =
      some (Function, some Integer, some 0) ∧
    (checkNode callInputOne (stateAfter progShadow)).map (fun r => (r.1, r.2.listing)) =
      some (Void, [⟨.tooManyArguments "input", 5⟩]) ∧
    (analyze progStaleCall).map (fun r => r.2.listing) =
      some [⟨.tooManyArguments "input", 3⟩, ⟨.assignTypeMismatch, 3⟩] := by
  decide

/-! ## Returns and variable accesses in the second pass -/


theorem functionScope_of_chain {tab : SymTab} {G F : Nat} {rest : List Nat}
    (hg : tab.globalScope = some G) :
    ∀ (pre : List Nat) (p : ScopeList), Chain (parentOf tab.scopes) p (pre ++ F :: G :: rest) →
    ∀ fuel, (pre ++ F :: G :: rest).length ≤ fuel → functionScope tab fuel p = some F := by
  intro pre
  induction pre with
  | nil =>
    intro p hc fuel hf
    cases hc with
    | @cons _ k _ hn hc0 =>
      cases hc0 with
      | cons hn2 _ =>
        cases fuel with
        | zero => simp at hf
        | succ f =>
          unfold parentOf at hn
          cases hr : tab.scopes[F]? with
          | none => simp [hr] at hn
          | some r =>
            simp only [hr, Option.map_some', Option.some.injEq] at hn
            simp [functionScope, hr, hn, hg]
  | cons x pre ih =>
    intro p hc fuel hf
    have hnd := chain_nodup hc
    cases hc with
    | @cons _ k _ hn hc0 =>
      cases fuel with
      | zero => simp at hf
      | succ f =>
        unfold parentOf at hn
        cases hr : tab.scopes[x]? with
        | none => simp [hr] at hn
        | some r =>
          simp only [hr, Option.map_some', Option.some.injEq] at hn
          have hk : k ≠ some G := by
            intro e
            subst e
            have hnd2 := (List.nodup_cons.1 hnd).2
            cases pre with
            | nil =>
              cases hc0 with
              | cons _ _ =>
                simp at hnd2
            | cons y pre2 =>
              cases hc0 with
              | cons _ _ =>
                simp at hnd2
          have hne : r.parent ≠ tab.globalScope := by rw [hn, hg]; exact hk
          simp only [functionScope, hr]
          rw [if_pos hne, hn]
          exact ih k hc0 f (by simpa using hf)

/-- What `checkNode` does at a return node while the cursor `S` lies at any depth (the scopes
`pre`) inside the scope `F` whose parent is the global scope `G`, `F` being named `f`
and `f` resolving in the global scope to a symbol with recorded return type `R`.  It
returns and appends a list `ds` of diagnostics.  With a returned value (of type `cty`,
at line `cln`): `ds` is the one return-with-value-in-void-function error exactly when
`R` is `Void`, the one return-type-mismatch error exactly when `R` is not `Void` and
`cty` differs from `R`, and empty otherwise.  Without a value: `ds` is the one
return-with-no-value error exactly when `R` is not `Void`, and empty otherwise. -/
theorem checkNode_return (s : State) (hwf : WF s.tab) (S G F : Nat) (pre rest : List Nat)
    (f : String) (l : Nat) (r : BucketListRec) (R : ExpType)
    (hcur : s.currentScope = some S) (hS : S < s.tab.scopes.length)
    (hg : s.tab.globalScope = some G)
    (hch : scopeChain s.tab S = pre ++ F :: G :: rest)
    (hF : scopeName s.tab F = some f)
    (hl : st_lookup s.tab (some G) f = some (some l))
    (hr : s.tab.buckets[l]? = some r) (hR : r.func.type = some R)
    (ln : Int) (nm : String) (ty : ExpType) (c0 c1 c2 sib : TreeNode) :
    ∃ s2 ds, checkNode (.node (.StmtK .ReturnK) ln nm ty c0 c1 c2 sib) s = some (ty, s2) ∧
      s2.listing = s.listing ++ ds ∧ s2.tab = s.tab ∧ s2.currentScope = s.currentScope ∧
      (∀ cln cty, c0.lineno? = some cln → c0.type? = some cty →
        (ds = [⟨.returnValueInVoid, cln⟩] ↔ R = Void) ∧
        (ds = [⟨.returnTypeMismatch (typestr r.type), cln⟩] ↔ R ≠ Void ∧ cty ≠ R) ∧
        (ds = [] ↔ R ≠ Void ∧ cty = R)) ∧
      (c0 = .null →
        (ds = [⟨.returnNoValue, ln⟩] ↔ R ≠ Void) ∧ (ds = [] ↔ R = Void)) := by
  have htr : r.func.typeRead (s.indet.type l) = R := by simp [FuncRec.typeRead, hR]
  obtain ⟨hc, hlen⟩ := scopeChain_chain hwf hS
  rw [hch] at hc hlen
  have hfs := functionScope_of_chain hg pre (some S) hc _ hlen
  obtain ⟨Fr, hFr, hFn⟩ : ∃ Fr, s.tab.scopes[F]? = some Fr ∧ Fr.name = f := by
    unfold scopeName at hF
    cases h : s.tab.scopes[F]? with
    | none => simp [h] at hF
    | some Fr => exact ⟨Fr, rfl, by simpa [h] using hF⟩
  cases c0 with
  | null =>
    by_cases hv : R = Void
    · refine ⟨s, [], ?_, by simp, rfl, rfl, ?_, ?_⟩
      · simp [checkNode, hcur, hfs, hFr, hFn, hg, hl, hr, htr, TreeNode.type?, hv]
      · intro cln cty h1; simp [TreeNode.lineno?] at h1
      · intro _; simp [hv]
    · refine ⟨s.report .returnNoValue ln, [⟨.returnNoValue, ln⟩], ?_, rfl, rfl, rfl, ?_, ?_⟩
      · simp [checkNode, hcur, hfs, hFr, hFn, hg, hl, hr, htr, TreeNode.type?, hv,
          semanticError, TreeNode.lineno?, State.report]
      · intro cln cty h1; simp [TreeNode.lineno?] at h1
      · intro _; simp [hv]
  | node k cln0 cnm cty0 a b c d =>
    by_cases hv : R = Void
    · refine ⟨s.report .returnValueInVoid cln0, [⟨.returnValueInVoid, cln0⟩], ?_, rfl, rfl,
        rfl, ?_, ?_⟩
      · simp [checkNode, hcur, hfs, hFr, hFn, hg, hl, hr, htr, TreeNode.type?, hv,
          semanticError, TreeNode.lineno?, State.report]
      · intro cln cty h1 h2
        simp only [TreeNode.lineno?, Option.some.injEq] at h1
        subst h1
        simp [hv]
      · intro h; cases h
    · by_cases hm : cty0 = R
      · refine ⟨s, [], ?_, by simp, rfl, rfl, ?_, ?_⟩
        · simp [checkNode, hcur, hfs, hFr, hFn, hg, hl, hr, htr, TreeNode.type?, hv, hm]
        · intro cln cty h1 h2
          simp only [TreeNode.type?, Option.some.injEq] at h2
          subst h2
          simp [hv, hm]
        · intro h; cases h
      · refine ⟨s.report (.returnTypeMismatch (typestr r.type)) cln0,
          [⟨.returnTypeMismatch (typestr r.type), cln0⟩], ?_, rfl, rfl, rfl, ?_, ?_⟩
        · simp [checkNode, hcur, hfs, hFr, hFn, hg, hl, hr, htr, TreeNode.type?, hv, hm,
            semanticError, TreeNode.lineno?, State.report]
        · intro cln cty h1 h2
          simp only [TreeNode.lineno?, Option.some.injEq] at h1
          simp only [TreeNode.type?, Option.some.injEq] at h2
          subst h1 h2
          simp [hv, hm]
        · intro h; cases h

/-- C10: `checkNode` at a variable-access node whose name resolves to a symbol of
declared type `T = r.type`.  Without an index the node's type becomes `T` and nothing is
written.  With an index of type `I` other than the error sentinel: if `T` is an array
type and `I` is `Integer`, nothing is written and the node's type becomes `T - 2`, which
is `Integer` for `IntegerArr` and `Void` for `VoidArr`; if `T` is an array type and `I`
is not `Integer`, the one array-index-type error is written; if `T` is not an array
type, the one index-on-non-array error is written. -/
theorem checkNode_varAccess (s : State) (ln : Int) (nm : String) (ty : ExpType)
    (c0 c1 c2 sib : TreeNode) (l : Nat) (r : BucketListRec)
    (hl : st_lookup s.tab s.currentScope nm = some (some l))
    (hr : s.tab.buckets[l]? = some r) :
    (c0 = .null →
      checkNode (.node (.ExpK .VarAccessK) ln nm ty c0 c1 c2 sib) s = some (r.type, s)) ∧
    (∀ I, c0.type? = some I → I ≠ ErrorExp →
      ((r.type = IntegerArr ∨ r.type = VoidArr) → I = Integer →
        checkNode (.node (.ExpK .VarAccessK) ln nm ty c0 c1 c2 sib) s =
          some (r.type - 2, s) ∧
        (r.type = IntegerArr → r.type - 2 = Integer) ∧
        (r.type = VoidArr → r.type - 2 = Void)) ∧
      ((r.type = IntegerArr ∨ r.type = VoidArr) → I ≠ Integer →
        checkNode (.node (.ExpK .VarAccessK) ln nm ty c0 c1 c2 sib) s =
          some (r.type, s.report .arrayIndexNotInteger ln)) ∧
      (¬ (r.type = IntegerArr ∨ r.type = VoidArr) →
        checkNode (.node (.ExpK .VarAccessK) ln nm ty c0 c1 c2 sib) s =
          some (r.type, s.report .indexOnNonArray ln))) := by
  constructor
  · intro h0
    subst h0
    simp [checkNode, hl, hr, TreeNode.type?]
  · intro I hI hne
    refine ⟨?_, ?_, ?_⟩
    · intro hT hInt
      refine ⟨?_, ?_, ?_⟩
      · simp [checkNode, hl, hr, hI, hne, hT, hInt]
      · intro e; rw [e]; rfl
      · intro e; rw [e]; rfl
    · intro hT hInt
      simp [checkNode, hl, hr, hI, hne, hT, hInt, semanticError, TreeNode.lineno?, State.report]
    · intro hT
      simp [checkNode, hl, hr, hI, hne, hT, semanticError, TreeNode.lineno?, State.report]

/-! ## The claims about the second pass at sample states -/

theorem shadow_buckets_length : 0 < (stateAfter progShadow).tab.buckets.length := by decide

theorem return_buckets_length : 2 < (stateAfter progReturn).tab.buckets.length := by decide

theorem array_buckets_length : 2 < (stateAfter progArray).tab.buckets.length := by decide

/-- C7 at the call `output(1)` in the global scope of `progShadow`: no diagnostic. -/
theorem checkNode_call_diagnostics_witness :
    st_lookup (stateAfter progShadow).tab (stateAfter progShadow).currentScope "output" =
      some (some 0) ∧
    ∃ ty2 s2 ds, checkNode callOutputOne (stateAfter progShadow) = some (ty2, s2) ∧
      s2.listing = (stateAfter progShadow).listing ++ ds ∧ ds = [] := by
  refine ⟨by decide, ?_⟩
  obtain ⟨ty2, s2, ds, e, h1, _, _, _, h3⟩ :=
    checkNode_call_diagnostics (stateAfter progShadow) 5 "output" Void
      (leaf (.ExpK .ConstK) 5 "" Integer) .null .null .null 0
      ((stateAfter progShadow).tab.buckets.get ⟨0, shadow_buckets_length⟩) 1 Void (fun _ => ⟨"value", Integer⟩)
      (by decide) (List.getElem?_eq_getElem _) (by decide) (by decide)
      (fun p hp => by
        have : p = 0 := by omega
        subst this
        decide)
  refine ⟨ty2, s2, ds, e, h1, (h3 (by decide)).1.2 ?_⟩
  intro i a hia
  have : i = 0 := by
    cases i with
    | zero => rfl
    | succ i => simp [argList, leaf] at hia
  subst this
  simp [argList, leaf] at hia
  rw [← hia]

/-- At the call `output(1)` in the global scope of `progShadow` the node is
typed `Void`, the return type of `output`. -/
theorem checkNode_call_type_witness :
    st_lookup (stateAfter progShadow).tab (stateAfter progShadow).currentScope "output" =
      some (some 0) ∧
    ∃ ty2 s2, checkNode callOutputOne (stateAfter progShadow) = some (ty2, s2) ∧
      ty2 = Void := by
  refine ⟨by decide, ?_⟩
  obtain ⟨ty2, s2, e, h1, _⟩ :=
    checkNode_call_type (stateAfter progShadow) 5 "output" Void
      (leaf (.ExpK .ConstK) 5 "" Integer) .null .null .null 0
      ((stateAfter progShadow).tab.buckets.get ⟨0, shadow_buckets_length⟩) 1 Void (fun _ => ⟨"value", Integer⟩)
      (by decide) (List.getElem?_eq_getElem _) (by decide) (by decide)
      (fun p hp => by
        have : p = 0 := by omega
        subst this
        decide)
  exact ⟨ty2, s2, e, h1 (by decide)⟩

/-- At the return node of `progReturn`, in the state in which the type-checking pass
reaches it (the table of the declaration pass, the cursor at the block `h-2` inside `h`):
no diagnostic. -/
theorem checkNode_return_witness :
    scopeChain (stateAfter progReturn).tab 2 = [2] ++ 1 :: 0 :: [] ∧
    scopeName (stateAfter progReturn).tab 1 = some "h" ∧
    st_lookup (stateAfter progReturn).tab (some 0) "h" = some (some 2) ∧
    ∃ s2, checkNode
        (.node (.StmtK .ReturnK) 2 "" Void (leaf (.ExpK .ConstK) 2 "" Integer) .null .null .null)
        { stateAfter progReturn with currentScope := some 2 } = some (Void, s2) ∧
      s2.listing = (stateAfter progReturn).listing := by
  refine ⟨by decide, by decide, by decide, ?_⟩
  obtain ⟨s2, ds, e, h1, _, _, h2, _⟩ :=
    checkNode_return { stateAfter progReturn with currentScope := some 2 }
      (stateAfter_OK progReturn).1 2 0 1 [2] [] "h" 2
      ((stateAfter progReturn).tab.buckets.get ⟨2, return_buckets_length⟩) Integer rfl (by decide) (by decide) (by decide)
      (by decide) (by decide) (List.getElem?_eq_getElem _) (by decide)
      2 "" Void (leaf (.ExpK .ConstK) 2 "" Integer) .null .null .null
  refine ⟨s2, e, ?_⟩
  have hds : ds = [] := (h2 2 Integer rfl rfl).2.2.2 ⟨by decide, rfl⟩
  rw [h1, hds]
  simp

/-- C10 at the access `a[0]` of `progArray`, with the cursor in `main`: the node is typed
`Integer`, the element type of `IntegerArr`, and the state is unchanged. -/
theorem checkNode_varAccess_witness :
    st_lookup (stateAfter progArray).tab (some 1) "a" = some (some 2) ∧
    checkNode
      (.node (.ExpK .VarAccessK) 3 "a" Void (leaf (.ExpK .ConstK) 3 "" Integer) .null .null .null)
      { stateAfter progArray with currentScope := some 1 } =
      some (Integer, { stateAfter progArray with currentScope := some 1 }) := by
  refine ⟨by decide, ?_⟩
  have h := (checkNode_varAccess { stateAfter progArray with currentScope := some 1 } 3 "a" Void
    (leaf (.ExpK .ConstK) 3 "" Integer) .null .null .null 2
    ((stateAfter progArray).tab.buckets.get ⟨2, array_buckets_length⟩) (by decide) (List.getElem?_eq_getElem _)).2
    Integer rfl (by decide)
  have hT : ((stateAfter progArray).tab.buckets.get ⟨2, array_buckets_length⟩).type = IntegerArr := by decide
  obtain ⟨e, h2, _⟩ := h.1 (Or.inl hT) rfl
  rw [e, h2 hT]

/-! ## Assignments, operators, conditions and declarations in the second pass -/

/-- C11: `checkNode` at an assignment node whose left operand `L` is an expression node
of kind `k0` and type `t0` and whose right operand `R` is a node of type `t1`.  If `t0`
or `t1` is the error sentinel, the node is typed with the sentinel and the state (so
the diagnostics) is unchanged.  Otherwise: if `L` is not a variable access or `t0` is
`Function`, `IntegerArr` or `VoidArr`, exactly the lvalue-required error is written;
if not, then exactly the assignment-type-mismatch error is written when `t0` differs
from `t1`, and when `t0 = t1` nothing is written and the node's type becomes `t0`. -/
theorem checkNode_assign (s : State) (ln : Int) (nm : String) (ty : ExpType)
    (k0 : ExpKind) (ln0 : Int) (nm0 : String) (t0 : ExpType) (a0 b0 c0 d0 : TreeNode)
    (k1 : NodeKind) (ln1 : Int) (nm1 : String) (t1 : ExpType) (a1 b1 c1 d1 : TreeNode)
    (c2 sib : TreeNode) :
    ((t0 = ErrorExp ∨ t1 = ErrorExp) →
      checkNode (.node (.ExpK .AssignK) ln nm ty (.node (.ExpK k0) ln0 nm0 t0 a0 b0 c0 d0)
        (.node k1 ln1 nm1 t1 a1 b1 c1 d1) c2 sib) s = some (ErrorExp, s)) ∧
    (t0 ≠ ErrorExp → t1 ≠ ErrorExp →
      ((k0 ≠ .VarAccessK ∨ t0 = Function ∨ t0 = IntegerArr ∨ t0 = VoidArr) →
        checkNode (.node (.ExpK .AssignK) ln nm ty (.node (.ExpK k0) ln0 nm0 t0 a0 b0 c0 d0)
          (.node k1 ln1 nm1 t1 a1 b1 c1 d1) c2 sib) s =
          some (ty, s.report .lvalueRequired ln)) ∧
      (¬ (k0 ≠ .VarAccessK ∨ t0 = Function ∨ t0 = IntegerArr ∨ t0 = VoidArr) → t0 ≠ t1 →
        checkNode (.node (.ExpK .AssignK) ln nm ty (.node (.ExpK k0) ln0 nm0 t0 a0 b0 c0 d0)
          (.node k1 ln1 nm1 t1 a1 b1 c1 d1) c2 sib) s =
          some (ty, s.report .assignTypeMismatch ln)) ∧
      (¬ (k0 ≠ .VarAccessK ∨ t0 = Function ∨ t0 = IntegerArr ∨ t0 = VoidArr) → t0 = t1 →
        checkNode (.node (.ExpK .AssignK) ln nm ty (.node (.ExpK k0) ln0 nm0 t0 a0 b0 c0 d0)
          (.node k1 ln1 nm1 t1 a1 b1 c1 d1) c2 sib) s = some (t0, s))) := by
  refine ⟨?_, ?_⟩
  · intro h
    by_cases e0 : t0 = ErrorExp
    · simp [checkNode, TreeNode.kind?, TreeNode.type?, e0]
    · have e1 : t1 = ErrorExp := h.resolve_left e0
      simp [checkNode, TreeNode.kind?, TreeNode.type?, e0, e1]
  · intro e0 e1
    refine ⟨?_, ?_, ?_⟩
    · intro hl
      simp only [checkNode, TreeNode.kind?, TreeNode.type?]
      rw [if_neg e0, if_neg e1, if_pos hl]
      simp [semanticError, TreeNode.lineno?, State.report]
    · intro hl hne
      simp only [checkNode, TreeNode.kind?, TreeNode.type?]
      rw [if_neg e0, if_neg e1, if_neg hl, if_pos hne]
      simp [semanticError, TreeNode.lineno?, State.report]
    · intro hl heq
      simp only [checkNode, TreeNode.kind?, TreeNode.type?]
      rw [if_neg e0, if_neg e1, if_neg hl, if_neg (not_not.2 heq)]

/-- What `checkNode` does at a binary-operator node whose operands
are nodes of types `t0` and `t1`.  If `t0` or `t1` is the error sentinel, the node is
typed with the sentinel and the state is unchanged.  Otherwise, if `t0` or `t1` is not
`Integer`, exactly the operand-type error is written and the node's type is left as it
was; if both are `Integer`, nothing is written and the node's type becomes `Integer`. -/
theorem checkNode_op (s : State) (ln : Int) (nm : String) (ty : ExpType)
    (k0 : NodeKind) (ln0 : Int) (nm0 : String) (t0 : ExpType) (a0 b0 c0 d0 : TreeNode)
    (k1 : NodeKind) (ln1 : Int) (nm1 : String) (t1 : ExpType) (a1 b1 c1 d1 : TreeNode)
    (c2 sib : TreeNode) :
    ((t0 = ErrorExp ∨ t1 = ErrorExp) →
      checkNode (.node (.ExpK .OpK) ln nm ty (.node k0 ln0 nm0 t0 a0 b0 c0 d0)
        (.node k1 ln1 nm1 t1 a1 b1 c1 d1) c2 sib) s = some (ErrorExp, s)) ∧
    (t0 ≠ ErrorExp → t1 ≠ ErrorExp →
      ((t0 ≠ Integer ∨ t1 ≠ Integer) →
        checkNode (.node (.ExpK .OpK) ln nm ty (.node k0 ln0 nm0 t0 a0 b0 c0 d0)
          (.node k1 ln1 nm1 t1 a1 b1 c1 d1) c2 sib) s =
          some (ty, s.report (.opNotAllowed (typestr t0) (typestr t1)) ln)) ∧
      (t0 = Integer → t1 = Integer →
        checkNode (.node (.ExpK .OpK) ln nm ty (.node k0 ln0 nm0 t0 a0 b0 c0 d0)
          (.node k1 ln1 nm1 t1 a1 b1 c1 d1) c2 sib) s = some (Integer, s))) := by
  refine ⟨?_, ?_⟩
  · intro h
    by_cases e0 : t0 = ErrorExp
    · simp [checkNode, TreeNode.type?, e0]
    · have e1 : t1 = ErrorExp := h.resolve_left e0
      simp [checkNode, TreeNode.type?, e0, e1]
  · intro e0 e1
    refine ⟨?_, ?_⟩
    · intro hm
      simp only [checkNode, TreeNode.type?]
      rw [if_neg e0, if_neg e1, if_pos hm]
      simp [semanticError, TreeNode.lineno?, State.report]
    · intro h0 h1
      simp only [checkNode, TreeNode.type?]
      rw [if_neg e0, if_neg e1, if_neg (by simp [h0, h1])]

/-- C13: `checkNode` at an if, if-else or while node whose first child has type `cty`
and line `cln`: exactly the invalid-condition error (for the line of the tested
expression) is written when `cty` is not `Integer`, and the state is unchanged when it
is; the other children do not enter. -/
theorem checkNode_condition (s : State) (k : StmtKind)
    (hk : k = .IfK ∨ k = .IfElseK ∨ k = .WhileK) (ln : Int) (nm : String) (ty : ExpType)
    (k0 : NodeKind) (cln : Int) (nm0 : String) (cty : ExpType) (a0 b0 c0 d0 : TreeNode)
    (c1 c2 sib : TreeNode) :
    (cty ≠ Integer →
      checkNode (.node (.StmtK k) ln nm ty (.node k0 cln nm0 cty a0 b0 c0 d0) c1 c2 sib) s =
        some (ty, s.report (.invalidCondition (typestr cty)) cln)) ∧
    (cty = Integer →
      checkNode (.node (.StmtK k) ln nm ty (.node k0 cln nm0 cty a0 b0 c0 d0) c1 c2 sib) s =
        some (ty, s)) := by
  rcases hk with rfl | rfl | rfl
  all_goals
    refine ⟨?_, ?_⟩
    · intro h
      simp only [checkNode, TreeNode.type?]
      rw [if_pos h]
      simp [semanticError, TreeNode.lineno?, State.report]
    · intro h
      simp only [checkNode, TreeNode.type?]
      rw [if_neg (not_not.2 h)]

/-- C14: `checkNode` at a parameter or variable declaration node of declared type `ty`:
exactly the invalid-type error is written when `ty` is `Void` or `VoidArr`, and the
state is unchanged otherwise, in particular for `Integer` and `IntegerArr`. -/
theorem checkNode_declaration (s : State) (ln : Int) (nm : String) (ty : ExpType)
    (c0 c1 c2 sib : TreeNode) :
    ((ty = Void ∨ ty = VoidArr) →
      checkNode (.node (.StmtK .ParamK) ln nm ty c0 c1 c2 sib) s =
        some (ty, s.report (.invalidParamType (typestr ty) nm) ln) ∧
      checkNode (.node (.StmtK .VarDeclK) ln nm ty c0 c1 c2 sib) s =
        some (ty, s.report (.invalidVarType (typestr ty) nm) ln)) ∧
    (¬ (ty = Void ∨ ty = VoidArr) →
      checkNode (.node (.StmtK .ParamK) ln nm ty c0 c1 c2 sib) s = some (ty, s) ∧
      checkNode (.node (.StmtK .VarDeclK) ln nm ty c0 c1 c2 sib) s = some (ty, s)) ∧
    ¬ (Integer = Void ∨ Integer = VoidArr) ∧ ¬ (IntegerArr = Void ∨ IntegerArr = VoidArr) := by
  refine ⟨?_, ?_, by decide, by decide⟩
  · intro h
    constructor <;>
    · simp only [checkNode]
      rw [if_pos h]
      simp [semanticError, TreeNode.lineno?, State.report]
  · intro h
    constructor <;>
    · simp only [checkNode]
      rw [if_neg h]

/-! ## Diagnostics and the failure flag -/

theorem Grows_refl (s : State) : Grows s s := ⟨[], by simp, fun _ => rfl, fun h => absurd rfl h⟩

theorem Grows_step {s0 s s2 : State} (h1 : Grows s0 s) (h2 : Step s s2) : Grows s0 s2 := by
  obtain ⟨ds, hl, he, hn⟩ := h1
  rcases h2 with ⟨e1, e2⟩ | ⟨d, e1, e2⟩
  · exact ⟨ds, by rw [e1, hl], fun h => by rw [e2, he h], fun h => by rw [e2, hn h]⟩
  · exact ⟨ds ++ [d], by rw [e1, hl, List.append_assoc], fun h => by simp at h,
      fun _ => e2⟩

theorem Step_semanticError {t : TreeNode} {m : Msg} {s s2 : State}
    (h : semanticError t m s = some s2) : Step s s2 := by
  obtain ⟨ln, _, e⟩ := semanticError_eq h
  subst e
  exact Or.inr ⟨_, rfl, rfl⟩

theorem Step_map_semanticError {t : TreeNode} {m : Msg} {s s2 : State} {ty ty2 : ExpType}
    (h : (semanticError t m s).map (fun s => (ty, s)) = some (ty2, s2)) : Step s s2 := by
  cases hs : semanticError t m s with
  | none => simp [hs] at h
  | some s3 =>
    simp only [hs, Option.map_some', Option.some.injEq, Prod.mk.injEq] at h
    rw [← h.2]
    exact Step_semanticError hs

theorem Step_same {s s2 : State} (h1 : s2.listing = s.listing) (h2 : s2.Error = s.Error) :
    Step s s2 := Or.inl ⟨h1, h2⟩

theorem enterNewScope_same {s s2 : State} {n : String} (h : enterNewScope s n = some s2) :
    s2.listing = s.listing ∧ s2.Error = s.Error ∧ s2.func_decl_flag = s.func_decl_flag := by
  unfold enterNewScope at h
  split at h
  · simp at h
  · cases h; exact ⟨rfl, rfl, rfl⟩

theorem leaveScope_same {s s2 : State} (h : leaveScope s = some s2) :
    s2.listing = s.listing ∧ s2.Error = s.Error ∧ s2.func_decl_flag = s.func_decl_flag ∧
      s2.tab = s.tab := by
  unfold leaveScope at h
  split at h
  · simp at h
  · split at h
    · simp at h
    · cases h; exact ⟨rfl, rfl, rfl, rfl⟩

theorem Step_insertNode {t : TreeNode} {s s2 : State} (h : insertNode t s = some s2) :
    Step s s2 := by
  unfold insertNode at h
  split at h
  · simp at h
  · cases h; exact Step_same rfl rfl
  · split at h
    · simp at h
    · exact Step_semanticError h
    · split at h
      · simp at h
      · cases h; exact Step_same rfl rfl
  · split at h
    · simp at h
    · exact Step_semanticError h
    · split at h
      · simp at h
      · cases h; exact Step_same rfl rfl
  · split at h
    · simp at h
    · exact Step_semanticError h
    · split at h
      · simp at h
      · split at h
        · simp at h
        · split at h
          · simp at h
          · split at h
            · simp at h
            · rename_i s3 hent
              cases h
              obtain ⟨e1, e2, _⟩ := enterNewScope_same hent
              exact Step_same e1 e2
  · split at h
    · cases h; exact Step_same rfl rfl
    · split at h
      · simp at h
      · split at h
        · simp at h
        · obtain ⟨e1, e2, _⟩ := enterNewScope_same h
          exact Step_same e1 e2
  · cases h; exact Step_same rfl rfl
  · split at h
    · simp at h
    · exact Step_semanticError h
    · split at h
      · simp at h
      · split at h
        · simp at h
        · cases h; exact Step_same rfl rfl
  · split at h
    · simp at h
    · exact Step_semanticError h
    · split at h
      · simp at h
      · split at h
        · simp at h
        · cases h; exact Step_same rfl rfl
  · cases h; exact Step_same rfl rfl

theorem Step_afterInsertProc {t : TreeNode} {s s2 : State} {ty : ExpType}
    (h : afterInsertProc t s = some (ty, s2)) : Step s s2 := by
  unfold afterInsertProc at h
  split at h
  · rename_i ty0 s0 _ hs0
    cases h
    unfold afterInsertNode at hs0
    split at hs0
    · simp at hs0
    · obtain ⟨e1, e2, _⟩ := leaveScope_same hs0
      exact Step_same e1 e2
    · cases hs0; exact Step_same rfl rfl
  · simp at h

theorem Step_beforeCheckNode {t : TreeNode} {s s2 : State}
    (h : beforeCheckNode t s = some s2) : Step s s2 := by
  unfold beforeCheckNode at h
  split at h
  · simp at h
  · split at h
    · simp at h
    · cases h; exact Step_same rfl rfl
  · split at h
    · cases h; exact Step_same rfl rfl
    · split at h
      · simp at h
      · split at h
        · simp at h
        · split at h
          · simp at h
          · cases h; exact Step_same rfl rfl
  · cases h; exact Step_same rfl rfl

theorem Step_map_leaveScope {s s2 : State} {ty ty2 : ExpType}
    (h : (leaveScope s).map (fun s => (ty, s)) = some (ty2, s2)) : Step s s2 := by
  cases hs : leaveScope s with
  | none => simp [hs] at h
  | some s3 =>
    simp only [hs, Option.map_some', Option.some.injEq, Prod.mk.injEq] at h
    rw [← h.2]
    obtain ⟨e1, e2, _⟩ := leaveScope_same hs
    exact Step_same e1 e2

theorem Step_checkNode {t : TreeNode} {s s2 : State} {ty : ExpType}
    (h : checkNode t s = some (ty, s2)) : Step s s2 := by
  unfold checkNode at h
  repeat' split at h
  all_goals
    first
    | (simp at h; done)
    | exact Step_map_semanticError h
    | exact Step_map_leaveScope h
    | (simp only [Option.some.injEq, Prod.mk.injEq] at h; rw [← h.2]; exact Step_same rfl rfl)
    | skip
  all_goals
    dsimp only at h
    repeat' split at h
  all_goals
    first
    | (simp at h; done)
    | exact Step_map_semanticError h
    | (simp only [Option.some.injEq, Prod.mk.injEq] at h; rw [← h.2]; exact Step_same rfl rfl)
    | skip
  rename_i mismatch _ _ s3 hs3
  simp only [Option.some.injEq, Prod.mk.injEq] at h
  rw [← h.2]
  cases mismatch with
  | none =>
    simp only [Option.some.injEq] at hs3
    rw [← hs3]
    exact Step_same rfl rfl
  | some m => exact Step_semanticError hs3


/-- C12, at the node `opIntVoid` and at the tree `progOpCascade`: the operator node
`1 + v` with `v` typed `Void` gets the operand-type error and keeps the type `Void` it
had, it is not typed `Integer`; and in `(1 + output(1)) + 1` the enclosing operator
writes a second operand-type error, for the operand left at `Void`. -/
theorem operand_error_stale_type :
    (checkNode opIntVoid initState).map (fun r => (r.1, r.2.listing)) =
      some (Void, [⟨.opNotAllowed "int" "void", 2⟩]) ∧
    (analyze progOpCascade).map (fun r => r.2.listing) =
      some [⟨.opNotAllowed "int" "void", 2⟩, ⟨.opNotAllowed "void" "int", 2⟩] := by
  decide

/-- C13 at an if node whose condition is typed `Void`: the one invalid-condition error,
at the line of the condition. -/
theorem checkNode_condition_witness :
    checkNode (.node (.StmtK .IfK) 3 "" Void (leaf (.ExpK .CallK) 4 "output" Void)
      .null .null .null) initState =
      some (Void, initState.report (.invalidCondition "void") 4) :=
  (checkNode_condition initState .IfK (Or.inl rfl) 3 "" Void (.ExpK .CallK) 4 "output" Void
    .null .null .null .null .null .null .null).1 (by decide)

theorem Grows_trans {s0 s1 s2 : State} (h1 : Grows s0 s1) (h2 : Grows s1 s2) :
    Grows s0 s2 := by
  obtain ⟨ds, hl, he, hn⟩ := h1
  obtain ⟨ds2, hl2, he2, hn2⟩ := h2
  refine ⟨ds ++ ds2, by rw [hl2, hl, List.append_assoc], ?_, ?_⟩
  · intro h
    obtain ⟨e1, e2⟩ := List.append_eq_nil.1 h
    rw [he2 e2, he e1]
  · intro h
    by_cases e2 : ds2 = []
    · rw [he2 e2]
      apply hn
      intro e1
      exact h (by rw [e1, e2]; rfl)
    · exact hn2 e2

theorem Grows_flag {s s2 : State} (h : Grows s s2) (he : s.Error = true) :
    s2.Error = true := by
  obtain ⟨ds, _, h1, h2⟩ := h
  by_cases e : ds = []
  · rw [h1 e, he]
  · exact h2 e

theorem Grows_buildSymtab {t t1 : TreeNode} {s s1 : State}
    (h : buildSymtab t s = some (t1, s1)) : Grows s s1 := by
  unfold buildSymtab at h
  split at h
  · simp at h
  · rename_i tab _
    refine traverse_inv (Grows s) (fun _ _ _ hi hp => Grows_step hi (Step_insertNode hp))
      (fun _ _ _ _ hi hp => Grows_step hi (Step_afterInsertProc hp)) _ _ _ _ ?_ h
    exact ⟨[], by simp, fun _ => rfl, fun h => absurd rfl h⟩

theorem Grows_typeCheck {t t1 : TreeNode} {s s1 : State}
    (h : typeCheck t s = some (t1, s1)) : Grows s s1 :=
  traverse_inv (Grows s) (fun _ _ _ hi hp => Grows_step hi (Step_beforeCheckNode hp))
    (fun _ _ _ _ hi hp => Grows_step hi (Step_checkNode hp)) _ _ _ _ (Grows_refl s) h

/-- The two passes, started with the flag false and the sink empty: the flag is true
afterwards exactly when the sink is not empty. -/
theorem flag_of_run {s : State} {t t2 : TreeNode} {s2 : State} (hE : s.Error = false)
    (hL : s.listing = []) (h : analyzeFrom s t = some (t2, s2)) :
    s2.Error = true ↔ s2.listing ≠ [] := by
  unfold analyzeFrom at h
  split at h
  · simp at h
  · rename_i t1 s1 h1
    obtain ⟨ds, hl, he, hn⟩ := Grows_trans (Grows_buildSymtab h1) (Grows_typeCheck h)
    have hl : s2.listing = ds := by simpa [hL] using hl
    rw [hl]
    constructor
    · intro hE2 hds
      have := he hds
      rw [hE2, hE] at this
      simp at this
    · exact hn

/-- C15: each pass appends a list `ds` of diagnostics to the sink, sets the failure flag
when `ds` is not empty and keeps it when `ds` is empty, so neither pass resets a flag
that is set; and after the two passes, started with the flag false and the sink empty,
the flag is true exactly when the sink is not empty: for the run from `initState`, and
for the run from any state with the flag false and the sink empty, whatever the
unwritten words of the symbol records hold. -/
theorem flag_iff_diagnostics (t : TreeNode) :
    (∀ s t1 s1, buildSymtab t s = some (t1, s1) →
      (∃ ds, s1.listing = s.listing ++ ds ∧ (ds = [] → s1.Error = s.Error) ∧
        (ds ≠ [] → s1.Error = true)) ∧ (s.Error = true → s1.Error = true)) ∧
    (∀ s t1 s1, typeCheck t s = some (t1, s1) →
      (∃ ds, s1.listing = s.listing ++ ds ∧ (ds = [] → s1.Error = s.Error) ∧
        (ds ≠ [] → s1.Error = true)) ∧ (s.Error = true → s1.Error = true)) ∧
    (∀ t2 s2, analyze t = some (t2, s2) → (s2.Error = true ↔ s2.listing ≠ [])) ∧
    (∀ s t2 s2, s.Error = false → s.listing = [] → analyzeFrom s t = some (t2, s2) →
      (s2.Error = true ↔ s2.listing ≠ [])) :=
  ⟨fun _ _ _ h => ⟨Grows_buildSymtab h, Grows_flag (Grows_buildSymtab h)⟩,
    fun _ _ _ h => ⟨Grows_typeCheck h, Grows_flag (Grows_typeCheck h)⟩,
    fun t2 s2 h => @flag_of_run initState t t2 s2 rfl rfl h,
    fun _ _ _ hE hL h => flag_of_run hE hL h⟩

/-- C15 at `progUndeclaredArg`, run from `initState`, and at `progVoidCall`, run from
a state in which the unwritten parameter counts read as 1: each run has a result, with
two diagnostics and with one, and the flag is true. -/
theorem flag_iff_diagnostics_witness :
    (∃ t2 s2, analyze progUndeclaredArg = some (t2, s2) ∧ s2.listing.length = 2 ∧
      s2.Error = true) ∧
    (∃ t2 s2, analyzeFrom (countState 1) progVoidCall = some (t2, s2) ∧
      s2.listing.length = 1 ∧ s2.Error = true) := by
  constructor
  · have hs : (analyze progUndeclaredArg).isSome = true := by decide
    obtain ⟨⟨t2, s2⟩, h⟩ := Option.isSome_iff_exists.1 hs
    have hlen : (analyze progUndeclaredArg).map (fun r => r.2.listing.length) = some 2 := by
      decide
    rw [h] at hlen
    simp only [Option.map_some', Option.some.injEq] at hlen
    refine ⟨t2, s2, h, hlen, ((flag_iff_diagnostics progUndeclaredArg).2.2.1 t2 s2 h).2 ?_⟩
    intro e
    rw [e] at hlen
    simp at hlen
  · have hs : (analyzeFrom (countState 1) progVoidCall).isSome = true := by decide
    obtain ⟨⟨t2, s2⟩, h⟩ := Option.isSome_iff_exists.1 hs
    have hlen : (analyzeFrom (countState 1) progVoidCall).map
        (fun r => r.2.listing.length) = some 1 := by
      decide
    rw [h] at hlen
    simp only [Option.map_some', Option.some.injEq] at hlen
    refine ⟨t2, s2, h, hlen,
      ((flag_iff_diagnostics progVoidCall).2.2.2 (countState 1) t2 s2 rfl rfl h).2 ?_⟩
    intro e
    rw [e] at hlen
    simp at hlen

/-! ## Uses of names in the first pass -/

/-- What `insertNode` does at a use of a name that `st_lookup` resolves: the symbol found
is in the table of its owning scope, and `st_insert` into that scope appends the line. -/
theorem insert_found {st : SymTab} (hwf : WF st) {S : Nat} (hS : S < st.scopes.length)
    {nm : String} {l : Nat} (hl : st_lookup st (some S) nm = some (some l)) :
    ∃ r sc, st.buckets[l]? = some r ∧ r.scope = some sc ∧ r.name = nm ∧ l ∈ tableOf st sc ∧
      ∀ (ty : ExpType) (k loc : Int),
        st_insert st r.scope nm ty k loc = some (some l, insertLine st l r k) := by
  rw [st_lookup_findSome hwf hS nm] at hl
  simp only [Option.some.injEq] at hl
  obtain ⟨sc, _, hsc⟩ := List.exists_of_findSome?_eq_some hl
  obtain ⟨hmem, hname⟩ := (localFind_spec hwf nm sc).1 l hsc
  obtain ⟨sr, r, hsr, hr, hscope, _⟩ := tableOf_props hwf hmem
  have hrn : r.name = nm := by simpa [symName, hr] using hname
  refine ⟨r, sc, hr, hscope, hrn, hmem, ?_⟩
  intro ty k loc
  rw [hscope]
  rcases st_insert_cases hwf hsr nm ty k loc with ⟨hnone, _⟩ | ⟨b, r2, hb, hbn, hr2, e⟩
  · exact absurd hname (hnone l hmem)
  · have : b = l := tableOf_unique hwf hb hmem hbn hname
    subst this
    rw [hr] at hr2
    cases hr2
    exact e

/-- C18: the declaration pass at a variable-access or call node named `nm` at line `ln`,
with the cursor at scope `S` of a well-formed table.  `st_lookup` returns.  If it finds
the symbol `l`, `insertNode` writes no diagnostic, keeps the flag and the cursor,
appends `ln` at the end of the reference list of `l` and changes nothing else: the
record of `l` keeps every other field, every other symbol record, the number of
symbols, the table of every scope and the scope store are unchanged.  If it finds
nothing, `insertNode` writes exactly the undefined-identifier error and leaves the
symbol table unchanged. -/
theorem insertNode_use (s : State) (hwf : WF s.tab) (S : Nat)
    (hcur : s.currentScope = some S) (hS : S < s.tab.scopes.length)
    (k : ExpKind) (hk : k = .VarAccessK ∨ k = .CallK)
    (ln : Int) (nm : String) (ty : ExpType) (c0 c1 c2 sib : TreeNode) :
    (∃ res, st_lookup s.tab (some S) nm = some res) ∧
    (∀ l, st_lookup s.tab (some S) nm = some (some l) →
      ∃ s2 r, insertNode (.node (.ExpK k) ln nm ty c0 c1 c2 sib) s = some s2 ∧
        s2.listing = s.listing ∧ s2.Error = s.Error ∧ s2.currentScope = s.currentScope ∧
        s.tab.buckets[l]? = some r ∧
        s2.tab.buckets[l]? = some { r with lines := r.lines ++ [ln] } ∧
        (∀ b, b ≠ l → s2.tab.buckets[b]? = s.tab.buckets[b]?) ∧
        s2.tab.buckets.length = s.tab.buckets.length ∧
        (∀ sc, tableOf s2.tab sc = tableOf s.tab sc) ∧
        s2.tab.scopes = s.tab.scopes ∧ s2.tab.globalScope = s.tab.globalScope) ∧
    (st_lookup s.tab (some S) nm = some none →
      insertNode (.node (.ExpK k) ln nm ty c0 c1 c2 sib) s =
        some (s.report (.undefinedIdentifier nm) ln) ∧
      (s.report (.undefinedIdentifier nm) ln).tab = s.tab) := by
  refine ⟨⟨_, st_lookup_findSome hwf hS nm⟩, ?_, ?_⟩
  · intro l hl
    obtain ⟨r, sc, hr, hscope, _, _, hins⟩ := insert_found hwf hS hl
    have hlt : l < s.tab.buckets.length := (List.getElem?_eq_some.1 hr).1
    have hext : BucketsExt s.tab.buckets (insertLine s.tab l r ln).buckets :=
      bucketsExt_set _ _ r _ hr rfl rfl rfl rfl
    refine ⟨{ s with tab := insertLine s.tab l r ln }, r, ?_, rfl, rfl, rfl, hr, ?_, ?_, ?_, ?_,
      rfl, rfl⟩
    · rcases hk with rfl | rfl <;> simp [insertNode, hcur, hl, hr, hins]
    · simp [insertLine, List.getElem?_set_self hlt]
    · intro b hb
      simp only [insertLine]
      exact List.getElem?_set_ne (fun h => hb h.symm)
    · simp [insertLine]
    · intro sc2
      exact tableOf_frame hwf hext rfl
  · intro hnone
    refine ⟨?_, rfl⟩
    rcases hk with rfl | rfl <;>
      simp [insertNode, hcur, hnone, semanticError, TreeNode.lineno?, State.report]

/-! ## The shape of the scope tree -/

theorem SameTree_refl (st : SymTab) : SameTree st st := rfl

theorem SameTree_trans {a b c : SymTab} (h1 : SameTree a b) (h2 : SameTree b c) :
    SameTree a c := by
  unfold SameTree at *
  rw [h2, h1]

theorem SameTree_length {st st2 : SymTab} (h : SameTree st st2) :
    st2.scopes.length = st.scopes.length := by
  have := congrArg List.length h
  simpa using this

theorem SameTree_get {st st2 : SymTab} (h : SameTree st st2) (a : Nat) :
    (st2.scopes[a]?).map scopeLinks = (st.scopes[a]?).map scopeLinks := by
  have := congrArg (fun l => l[a]?) h
  simpa [List.getElem?_map] using this

theorem SameTree_of_scopes_eq {st st2 : SymTab} (h : st2.scopes = st.scopes) :
    SameTree st st2 := by
  unfold SameTree
  rw [h]

theorem walk_congr_fun {nxt nxt2 : Nat → Option (Option Nat)} (h : ∀ a, nxt2 a = nxt a) :
    ∀ fuel p, walk nxt2 fuel p = walk nxt fuel p := by
  intro fuel
  induction fuel with
  | zero => intro p; rfl
  | succ f ih =>
    intro p
    cases p with
    | none => rfl
    | some a =>
      simp only [walk, h a]
      cases nxt a with
      | none => rfl
      | some k => simp only [ih k]

/-- Tables with the same scope tree have the same children, scope names, parents and
scope chains. -/
theorem SameTree_props {st st2 : SymTab} (h : SameTree st st2) :
    (∀ p, children st2 p = children st p) ∧ (∀ a, scopeName st2 a = scopeName st a) ∧
    (∀ a, parentOf st2.scopes a = parentOf st.scopes a) ∧
    (∀ a, scopeChain st2 a = scopeChain st a) := by
  have hget := SameTree_get h
  have hlen := SameTree_length h
  have hfield : ∀ a : Nat, scopeName st2 a = scopeName st a ∧
      parentOf st2.scopes a = parentOf st.scopes a ∧
      (st2.scopes[a]?).map (fun r : ScopeListRec => r.leftMostChild) =
        (st.scopes[a]?).map (fun r : ScopeListRec => r.leftMostChild) ∧
      siblingOf st2.scopes a = siblingOf st.scopes a := by
    intro a
    have := hget a
    unfold scopeName parentOf siblingOf
    cases h2 : st2.scopes[a]? with
    | none =>
      cases h1 : st.scopes[a]? with
      | none => simp
      | some r1 => simp [h2, h1] at this
    | some r2 =>
      cases h1 : st.scopes[a]? with
      | none => simp [h2, h1] at this
      | some r1 =>
        simp only [h2, h1, Option.map_some', Option.some.injEq, scopeLinks, Prod.mk.injEq] at this
        simp [this]
  have hsib : ∀ a, siblingOf st2.scopes a = siblingOf st.scopes a := fun a => (hfield a).2.2.2
  have hpar : ∀ a, parentOf st2.scopes a = parentOf st.scopes a := fun a => (hfield a).2.1
  refine ⟨?_, fun a => (hfield a).1, hpar, ?_⟩
  · intro p
    unfold children
    have hl := (hfield p).2.2.1
    cases h2 : st2.scopes[p]? with
    | none =>
      cases h1 : st.scopes[p]? with
      | none => rfl
      | some r1 => simp [h2, h1] at hl
    | some r2 =>
      cases h1 : st.scopes[p]? with
      | none => simp [h2, h1] at hl
      | some r1 =>
        simp only [h2, h1, Option.map_some', Option.some.injEq] at hl
        simp only [hl, hlen]
        exact walk_congr_fun hsib _ _
  · intro a
    unfold scopeChain
    rw [hlen]
    exact walk_congr_fun hpar _ _

theorem SameTree_st_insert {st st2 : SymTab} {sc : ScopeList} {n : String}
    {t : ExpType} {k loc : Int} {l : BucketList}
    (h : st_insert st sc n t k loc = some (l, st2)) : SameTree st st2 := by
  unfold st_insert at h
  cases sc with
  | none => simp at h
  | some s =>
    cases hs : st.scopes[s]? with
    | none => simp [hs] at h
    | some sr =>
      simp only [hs] at h
      split at h
      · simp at h
      · simp only [Option.some.injEq, Prod.mk.injEq] at h
        rw [← h.2]
        unfold SameTree
        simp only
        apply List.ext_getElem?
        intro a
        simp only [List.getElem?_map]
        by_cases e : s = a
        · subst e
          rw [List.getElem?_set_self (List.getElem?_eq_some.1 hs).1, hs]
          rfl
        · rw [List.getElem?_set_ne e]
      · split at h
        · simp at h
        · simp only [Option.some.injEq, Prod.mk.injEq] at h
          rw [← h.2]
          exact SameTree_refl _

theorem SameTree_setFunc {st st2 : SymTab} {l : BucketList} {f : FuncRec → FuncRec}
    (h : setFunc st l f = some st2) : SameTree st st2 :=
  SameTree_of_scopes_eq (setFunc_length h)

theorem SameTree_recordSignature {tab tab2 : SymTab} {l : BucketList} {param : TreeNode}
    (h : recordSignature tab l param = some tab2) : SameTree tab tab2 := by
  unfold recordSignature at h
  cases hp : param.type? with
  | none => simp [hp] at h
  | some pty =>
    simp only [hp] at h
    by_cases e : pty ≠ Void
    · rw [if_pos e] at h
      exact SameTree_setFunc h
    · rw [if_neg e] at h
      cases h
      exact SameTree_refl _

/-! ## Function records and new scopes -/

theorem setFunc_spec {st : SymTab} {a : Nat} {r : BucketListRec} (hr : st.buckets[a]? = some r)
    (f : FuncRec → FuncRec) :
    setFunc st (some a) f =
      some { st with buckets := st.buckets.set a { r with func := f r.func } } := by
  simp [setFunc, hr]

/-- The loop that records the parameters: for a chain of at most `remaining` parameter
nodes it ends with the count advanced by the length of the chain and with the name and
type of each node at its position; the return type and the earlier entries are kept. -/
theorem recordParams_spec :
    ∀ (param : TreeNode) (remaining i : Nat) (f : FuncRec),
      (argList param).length ≤ remaining →
      (recordParams remaining i param f).params = some (i + (argList param).length) ∧
      (recordParams remaining i param f).type = f.type ∧
      (∀ j a, (argList param)[j]? = some a →
        (recordParams remaining i param f).param (i + j) = some ⟨a.1, a.2⟩) ∧
      (∀ j, j < i → (recordParams remaining i param f).param j = f.param j) := by
  intro param
  induction param with
  | null =>
    intro remaining i f _
    cases remaining <;> simp [recordParams, argList]
  | node k ln nm ty c0 c1 c2 sib _ _ _ ihs =>
    intro remaining i f hlen
    cases remaining with
    | zero => simp [argList] at hlen
    | succ rem =>
      have hlen2 : (argList sib).length ≤ rem := by simpa [argList] using hlen
      obtain ⟨h1, h2, h3, h4⟩ := ihs rem (i + 1)
        { f with params := some i, param := fun j => if j = i then some ⟨nm, ty⟩ else f.param j }
        hlen2
      simp only [recordParams]
      refine ⟨?_, h2, ?_, ?_⟩
      · rw [h1]; simp [argList]; omega
      · intro j a hja
        cases j with
        | zero =>
          simp only [argList, List.getElem?_cons_zero, Option.some.injEq] at hja
          subst hja
          refine (h4 i (by omega)).trans ?_
          simp
        | succ j =>
          simp only [argList, List.getElem?_cons_succ] at hja
          rw [show i + (j + 1) = i + 1 + j by omega]
          exact h3 j a hja
      · intro j hj
        refine (h4 j (by omega)).trans ?_
        simp [Nat.ne_of_lt hj]

/-- `enterNewScope` with the cursor at a scope `S` of a well-formed table: exactly one
scope is created, at the next address, with the given name and parent `S`, as the last
child of `S`, and the cursor moves into it; nothing else of the state changes. -/
theorem enterNewScope_spec {s : State} (hwf : WF s.tab) {S : Nat}
    (hcur : s.currentScope = some S) (hS : S < s.tab.scopes.length) (n : String) :
    ∃ s2, enterNewScope s n = some s2 ∧ WF s2.tab ∧
      s2.currentScope = some s.tab.scopes.length ∧
      s2.tab.scopes.length = s.tab.scopes.length + 1 ∧
      children s2.tab S = children s.tab S ++ [s.tab.scopes.length] ∧
      scopeName s2.tab s.tab.scopes.length = some n ∧
      parentOf s2.tab.scopes s.tab.scopes.length = some (some S) ∧
      tableOf s2.tab s.tab.scopes.length = [] ∧
      s2.tab.buckets = s.tab.buckets ∧ s2.tab.globalScope = s.tab.globalScope ∧
      s2.listing = s.listing ∧ s2.Error = s.Error ∧ s2.func_decl_flag = s.func_decl_flag ∧
      (∀ (a : Nat) (r : ScopeListRec), s.tab.scopes[a]? = some r →
        ∃ r2 : ScopeListRec, s2.tab.scopes[a]? = some r2 ∧ r2.name = r.name ∧
          r2.parent = r.parent ∧ r2.bucket = r.bucket) := by
  obtain ⟨st2, e, hwf2, hch, hlen, hb, hg, ⟨cr, hcr, hn, hp, _, hbk⟩, hold⟩ :=
    createScope_spec hwf hS n
  refine ⟨{ s with tab := st2, currentScope := some s.tab.scopes.length }, ?_, hwf2, rfl, hlen,
    hch, by simp [scopeName, hcr, hn], by simp [parentOf, hcr, hp], ?_, hb, hg, rfl, rfl, rfl,
    hold⟩
  · simp [enterNewScope, hcur, e]
  · simp only [tableOf, hcr, hbk]
    simp [chainList, walk]
    intro a _
    cases st2.buckets.length <;> rfl

theorem scopes_kept {s : State} {s2 : State} {tab3 : SymTab}
    (hst : SameTree s.tab tab3)
    (hold : ∀ (a : Nat) (r : ScopeListRec), tab3.scopes[a]? = some r →
        ∃ r2 : ScopeListRec, s2.tab.scopes[a]? = some r2 ∧ r2.name = r.name ∧
          r2.parent = r.parent ∧ r2.bucket = r.bucket)
    (a : Nat) (ha : a < s.tab.scopes.length) :
    scopeName s2.tab a = scopeName s.tab a ∧
      parentOf s2.tab.scopes a = parentOf s.tab.scopes a := by
  obtain ⟨_, hn, hp, _⟩ := SameTree_props hst
  have ha3 : a < tab3.scopes.length := by rw [SameTree_length hst]; exact ha
  obtain ⟨r2, h2, hn2, hp2, _⟩ := hold a _ (List.getElem?_eq_getElem ha3)
  rw [← hn a, ← hp a]
  simp [scopeName, parentOf, h2, List.getElem?_eq_getElem ha3, hn2, hp2]


theorem bucketsExt_setFunc {st st2 : SymTab} {l : BucketList} {f : FuncRec → FuncRec}
    (h : setFunc st l f = some st2) :
    BucketsExt st.buckets st2.buckets ∧ st2.buckets.length = st.buckets.length := by
  unfold setFunc at h
  cases l with
  | none => simp at h
  | some a =>
    cases hr : st.buckets[a]? with
    | none => simp [hr] at h
    | some r =>
      simp only [hr, Option.some.injEq] at h
      subst h
      exact ⟨bucketsExt_set _ _ r _ hr rfl rfl rfl rfl, by simp⟩

theorem setFunc_run {st : SymTab} {a : Nat} {r : BucketListRec} (hr : st.buckets[a]? = some r)
    (f : FuncRec → FuncRec) :
    ∃ st2, setFunc st (some a) f = some st2 ∧
      st2.buckets[a]? = some { r with func := f r.func } := by
  refine ⟨_, setFunc_spec hr f, ?_⟩
  simp [List.getElem?_set_self (List.getElem?_eq_some.1 hr).1]

theorem recordParams_type :
    ∀ (param : TreeNode) (remaining i : Nat) (f : FuncRec),
      (recordParams remaining i param f).type = f.type := by
  intro param
  induction param with
  | null => intro remaining i f; cases remaining <;> rfl
  | node k ln nm ty c0 c1 c2 sib _ _ _ ihs =>
    intro remaining i f
    cases remaining with
    | zero => rfl
    | succ rem =>
      simp only [recordParams]
      rw [ihs]

/-- The function record that `insertNode` writes into the symbol at `L`: the return type,
and, unless the first parameter node has type `Void`, the parameters. -/
theorem funcRecord_spec {tab1 : SymTab} {L : Nat} {r1 : BucketListRec} (hwf1 : WF tab1)
    (hr1 : tab1.buckets[L]? = some r1) (ty : ExpType) (param : TreeNode) {pty : ExpType}
    (hp : param.type? = some pty) :
    ∃ tab2 tab3 r3, setFunc tab1 (some L) (fun f => { f with type := some ty }) = some tab2 ∧
      recordSignature tab2 (some L) param = some tab3 ∧ WF tab3 ∧
      tab3.scopes = tab1.scopes ∧ BucketsExt tab1.buckets tab3.buckets ∧
      tab3.buckets.length = tab1.buckets.length ∧
      tab3.buckets[L]? = some r3 ∧ r3.name = r1.name ∧ r3.type = r1.type ∧
      r3.scope = r1.scope ∧ r3.lines = r1.lines ∧ r3.func.type = some ty ∧
      (pty ≠ Void → (argList param).length ≤ MAX_FUNC_PARAMS →
        r3.func.params = some (argList param).length ∧
        ∀ (j : Nat) (a : String × ExpType), (argList param)[j]? = some a →
          r3.func.param j = some ⟨a.1, a.2⟩) ∧
      (pty = Void → r3.func.params = r1.func.params) := by
  have hL : L < tab1.buckets.length := (List.getElem?_eq_some.1 hr1).1
  obtain ⟨tab2, h1, hr2⟩ := setFunc_run hr1 (fun f => { f with type := some ty })
  have hwf2 := WF_setFunc hwf1 h1
  have he2 := bucketsExt_setFunc h1
  have hsc2 : tab2.scopes = tab1.scopes := setFunc_length h1
  by_cases e : pty ≠ Void
  · obtain ⟨tab3, h2, hr3⟩ := setFunc_run hr2 (recordParams MAX_FUNC_PARAMS 0 param)
    have hrs : recordSignature tab2 (some L) param = some tab3 := by
      unfold recordSignature
      simp only [hp]
      rw [if_pos e]
      exact h2
    have hwf3 := WF_setFunc hwf2 h2
    have he3 := bucketsExt_setFunc h2
    refine ⟨tab2, tab3, _, h1, hrs, hwf3, (setFunc_length h2).trans hsc2,
      bucketsExt_trans he2.1 he3.1, he3.2.trans he2.2, hr3, rfl, rfl, rfl, rfl, ?_, ?_,
      fun h => absurd h e⟩
    · exact recordParams_type param MAX_FUNC_PARAMS 0 _
    · intro _ hlen
      obtain ⟨q1, _, q3, _⟩ := recordParams_spec param MAX_FUNC_PARAMS 0
        { r1.func with type := some ty } hlen
      refine ⟨by simpa using q1, ?_⟩
      intro j a hja
      simpa using q3 j a hja
  · have e2 : pty = Void := not_not.1 e
    have hrs : recordSignature tab2 (some L) param = some tab2 := by
      unfold recordSignature
      simp only [hp]
      rw [if_neg e]
    exact ⟨tab2, tab2, _, h1, hrs, hwf2, hsc2, he2.1, he2.2, hr2, rfl, rfl, rfl, rfl, rfl,
      fun h => absurd e2 h, fun _ => rfl⟩

/-- What `insertNode` does at a function declaration whose name the current scope does
not hold yet. -/
theorem insertNode_funcDecl {s : State} (hwf : WF s.tab) {S : Nat}
    (hcur : s.currentScope = some S) (hS : S < s.tab.scopes.length)
    (ln : Int) (nm : String) (ty : ExpType) (param c1 c2 sib : TreeNode) {pty : ExpType}
    (hp : param.type? = some pty)
    (hnone : ∀ b ∈ tableOf s.tab S, symName s.tab b ≠ some nm) :
    ∃ s2 r, insertNode (.node (.StmtK .FuncDeclK) ln nm ty param c1 c2 sib) s = some s2 ∧
      WF s2.tab ∧ s2.currentScope = some s.tab.scopes.length ∧ s2.func_decl_flag = 1 ∧
      s2.listing = s.listing ∧ s2.Error = s.Error ∧
      s2.tab.scopes.length = s.tab.scopes.length + 1 ∧
      children s2.tab S = children s.tab S ++ [s.tab.scopes.length] ∧
      scopeName s2.tab s.tab.scopes.length = some nm ∧
      parentOf s2.tab.scopes s.tab.scopes.length = some (some S) ∧
      tableOf s2.tab s.tab.scopes.length = [] ∧
      (∀ a, a < s.tab.scopes.length → scopeName s2.tab a = scopeName s.tab a ∧
        parentOf s2.tab.scopes a = parentOf s.tab.scopes a) ∧
      (∀ b, b ∈ tableOf s2.tab S ↔ b = s.tab.buckets.length ∨ b ∈ tableOf s.tab S) ∧
      (∀ a, a < s.tab.scopes.length → a ≠ S → tableOf s2.tab a = tableOf s.tab a) ∧
      BucketsExt s.tab.buckets s2.tab.buckets ∧
      s2.tab.buckets.length = s.tab.buckets.length + 1 ∧
      s2.tab.buckets[s.tab.buckets.length]? = some r ∧
      r.name = nm ∧ r.type = Function ∧ r.scope = some S ∧ r.lines = [ln] ∧
      r.func.type = some ty ∧
      (pty ≠ Void → (argList param).length ≤ MAX_FUNC_PARAMS →
        r.func.params = some (argList param).length ∧
        ∀ (j : Nat) (a : String × ExpType), (argList param)[j]? = some a →
          r.func.param j = some ⟨a.1, a.2⟩) ∧
      (pty = Void → r.func.params = none) := by
  obtain ⟨sr, hs⟩ : ∃ sr, s.tab.scopes[S]? = some sr := ⟨_, List.getElem?_eq_getElem hS⟩
  have hd := (declaredHere_spec hwf hcur hS nm).2 hnone
  have hins : st_insert s.tab (some S) nm Function ln ln =
      some (some s.tab.buckets.length, insertNew s.tab S sr nm Function ln ln) := by
    rcases st_insert_cases hwf hs nm Function ln ln with ⟨_, e⟩ | ⟨b, _, hb, hbn, _, _⟩
    · exact e
    · exact absurd hbn (hnone b hb)
  have hwf1 := WF_insertNew hwf hs nm Function ln ln hnone
  have hr1 : (insertNew s.tab S sr nm Function ln ln).buckets[s.tab.buckets.length]? =
      some ⟨nm, Function, [ln], ln, FuncRec.fresh, sr.bucket (hash nm), some S⟩ := by
    simp [insertNew]
  obtain ⟨tab2, tab3, r3, h1, h2, hwf3, hsc3, he3, hl3, hr3, hn3, ht3, hs3, hln3, hft3, hpos,
    hvoid⟩ := funcRecord_spec hwf1 hr1 ty param hp
  have hst : SameTree s.tab tab3 :=
    SameTree_trans (SameTree_st_insert hins)
      (SameTree_trans (SameTree_setFunc h1) (SameTree_recordSignature h2))
  have hlen3 : tab3.scopes.length = s.tab.scopes.length := SameTree_length hst
  have hS3 : S < tab3.scopes.length := by rw [hlen3]; exact hS
  obtain ⟨s4, h4, hwf4, hc4, hlen4, hch4, hnm4, hpar4, htb4, hb4, _, hlist4, herr4, _, hold4⟩ :=
    enterNewScope_spec (s := { s with tab := tab3 }) hwf3 hcur hS3 nm
  simp only at hc4 hlen4 hch4 hnm4 hpar4 htb4 hb4 hlist4 herr4 hold4
  rw [hlen3] at hc4 hlen4 hch4 hnm4 hpar4 htb4
  have hext1 : BucketsExt s.tab.buckets (insertNew s.tab S sr nm Function ln ln).buckets :=
    bucketsExt_append _ _
  have htab : ∀ a, tableOf s4.tab a = tableOf (insertNew s.tab S sr nm Function ln ln) a ∨
      ¬ a < s.tab.scopes.length := by
    intro a
    by_cases ha : a < s.tab.scopes.length
    · left
      have ha3 : a < tab3.scopes.length := by rw [hlen3]; exact ha
      obtain ⟨r2, hr2, _, _, hbk⟩ := hold4 a _ (List.getElem?_eq_getElem ha3)
      have e1 : tableOf s4.tab a = tableOf tab3 a :=
        tableOf_mono hwf3 (by rw [hb4]; exact bucketsExt_refl _)
          (List.getElem?_eq_getElem ha3) hr2 hbk
      rw [e1]
      exact tableOf_frame hwf1 he3 (by rw [hsc3])
    · exact Or.inr ha
  refine ⟨{ s4 with func_decl_flag := 1 }, r3, ?_, hwf4, hc4, rfl, hlist4, herr4, hlen4, ?_,
    hnm4, hpar4, htb4, fun a ha => scopes_kept hst hold4 a ha, ?_, ?_, ?_, ?_, ?_, hn3, ht3, hs3,
    hln3, hft3, hpos, ?_⟩
  · simp only [hcur] at h4
    simp [insertNode, hd, hcur, hins, h1, h2, h4]
  · rw [hch4, (SameTree_props hst).1 S]
  · intro b
    rcases htab S with e | e
    · simp only []
      rw [e]
      exact mem_tableOf_insertNew hwf hs nm Function ln ln b
    · exact absurd hS e
  · intro a ha hne
    rcases htab a with e | e
    · simp only []
      rw [e]
      apply tableOf_frame hwf hext1
      simp only [insertNew]
      exact List.getElem?_set_ne (fun h => hne h.symm)
    · exact absurd ha e
  · simp only []
    rw [hb4]
    exact bucketsExt_trans hext1 he3
  · simp only []
    rw [hb4, hl3]
    simp [insertNew]
  · simp only []
    rw [hb4]
    exact hr3
  · intro e
    rw [hvoid e]
    rfl

/-! ## Scopes in the first pass -/

/-- What `insertNode` does at a parameter or variable declaration, in terms of the names
the current scope holds. -/
theorem insertNode_decl_step {s : State} (hwf : WF s.tab) {S : Nat}
    (hcur : s.currentScope = some S) (hS : S < s.tab.scopes.length)
    {k : StmtKind} (hk : k = .ParamK ∨ k = .VarDeclK)
    (ln : Int) (nm : String) (ty : ExpType) (c0 c1 c2 sib : TreeNode) :
    ∃ s2, insertNode (.node (.StmtK k) ln nm ty c0 c1 c2 sib) s = some s2 ∧
      WF s2.tab ∧ s2.currentScope = s.currentScope ∧
      s2.func_decl_flag = s.func_decl_flag ∧ SameTree s.tab s2.tab ∧
      (∀ n, Declares s.tab S n → Declares s2.tab S n) ∧ Declares s2.tab S nm ∧
      (Declares s.tab S nm → s2 = s.report (.redefinedVariable nm) ln) ∧
      (¬ Declares s.tab S nm → s2.listing = s.listing ∧ s2.Error = s.Error ∧
        ∀ b, b ∈ tableOf s2.tab S ↔ b = s.tab.buckets.length ∨ b ∈ tableOf s.tab S) := by
  obtain ⟨sr, hs⟩ : ∃ sr, s.tab.scopes[S]? = some sr := ⟨_, List.getElem?_eq_getElem hS⟩
  obtain ⟨hd1, hd2⟩ := declaredHere_spec hwf hcur hS nm
  by_cases hex : Declares s.tab S nm
  · have hd := hd1 hex
    refine ⟨s.report (.redefinedVariable nm) ln, ?_, hwf, rfl, rfl, SameTree_refl _,
      fun n h => h, hex, fun _ => rfl, fun h => absurd hex h⟩
    rcases hk with rfl | rfl <;>
      simp [insertNode, hd, semanticError, TreeNode.lineno?, State.report]
  · have hnone : ∀ b ∈ tableOf s.tab S, symName s.tab b ≠ some nm :=
      fun b hb hbn => hex ⟨b, hb, hbn⟩
    have hd := hd2 hnone
    have hins : st_insert s.tab (some S) nm ty ln ln =
        some (some s.tab.buckets.length, insertNew s.tab S sr nm ty ln ln) := by
      rcases st_insert_cases hwf hs nm ty ln ln with ⟨_, e⟩ | ⟨b, _, hb, hbn, _, _⟩
      · exact e
      · exact absurd hbn (hnone b hb)
    have hmem := mem_tableOf_insertNew hwf hs nm ty ln ln
    have hext : BucketsExt s.tab.buckets (insertNew s.tab S sr nm ty ln ln).buckets :=
      bucketsExt_append _ _
    refine ⟨{ s with tab := insertNew s.tab S sr nm ty ln ln }, ?_,
      WF_insertNew hwf hs nm ty ln ln hnone, rfl, rfl, SameTree_st_insert hins, ?_, ?_,
      fun h => absurd h hex, fun _ => ⟨rfl, rfl, hmem⟩⟩
    · rcases hk with rfl | rfl <;> simp [insertNode, hd, hcur, hins]
    · rintro n ⟨b, hb, hbn⟩
      refine ⟨b, (hmem b).2 (Or.inr hb), ?_⟩
      obtain ⟨_, r, _, hr, _⟩ := tableOf_props hwf hb
      obtain ⟨r2, hr2, e1, _⟩ := hext b r hr
      simp only [symName, hr, Option.map_some', Option.some.injEq] at hbn
      simp [symName, hr2, e1, hbn]
    · exact ⟨s.tab.buckets.length, (hmem _).2 (Or.inl rfl), by simp [symName, insertNew]⟩

/-- The declaration pass over a chain of parameter nodes: the cursor, the flag and the
scope tree stay, and the current scope holds the name of every `ParamK` node of the
chain afterwards. -/
theorem traverse_paramChain :
    ∀ (params : TreeNode), paramChain params = true →
      ∀ (s : State), WF s.tab → ∀ (S : Nat), s.currentScope = some S →
        S < s.tab.scopes.length →
        ∃ ps s2, traverse insertNode afterInsertProc params s = some (ps, s2) ∧
          WF s2.tab ∧ s2.currentScope = s.currentScope ∧
          s2.func_decl_flag = s.func_decl_flag ∧ SameTree s.tab s2.tab ∧
          (∀ n, Declares s.tab S n → Declares s2.tab S n) ∧
          (∀ p ∈ paramNames params, Declares s2.tab S p) := by
  intro params
  induction params with
  | null =>
    intro _ s hwf S _ _
    exact ⟨.null, s, rfl, hwf, rfl, rfl, SameTree_refl _, fun n h => h,
      fun p hp => by simp [paramNames] at hp⟩
  | node k ln nm ty c0 c1 c2 sib _ _ _ ihs =>
    intro hpc s hwf S hcur hS
    unfold paramChain at hpc
    split at hpc
    · rename_i heq
      cases heq
    · rename_i ln2 nm2 ty2 sib2 heq
      cases heq
      obtain ⟨s1, h1, hwf1, hc1, hf1, hst1, hmono1, hdecl1, _, _⟩ :=
        insertNode_decl_step hwf hcur hS (Or.inl rfl) ln nm ty .null .null .null sib
      have hS1 : S < s1.tab.scopes.length := by rw [SameTree_length hst1]; exact hS
      obtain ⟨ps, s2, h2, hwf2, hc2, hf2, hst2, hmono2, hdecl2⟩ :=
        ihs hpc s1 hwf1 S (hc1.trans hcur) hS1
      refine ⟨.node (.StmtK .ParamK) ln nm ty .null .null .null ps, s2, ?_, hwf2,
        hc2.trans hc1, hf2.trans hf1, SameTree_trans hst1 hst2,
        fun n h => hmono2 n (hmono1 n h), ?_⟩
      · simp [traverse, h1, afterInsertProc, afterInsertNode, TreeNode.type?, h2]
      · intro p hp
        simp only [paramNames, List.mem_cons] at hp
        rcases hp with rfl | hp
        · exact hmono2 _ hdecl1
        · exact hdecl2 p hp
    · rename_i ln2 nm2 ty2 sib2 heq
      cases heq
      obtain ⟨ps, s2, h2, hwf2, hc2, hf2, hst2, hmono2, hdecl2⟩ := ihs hpc s hwf S hcur hS
      refine ⟨.node (.StmtK .VoidParamK) ln nm ty .null .null .null ps, s2, ?_, hwf2,
        hc2, hf2, hst2, hmono2, ?_⟩
      · simp [traverse, insertNode, afterInsertProc, afterInsertNode, TreeNode.type?, h2]
      · intro p hp
        simp only [paramNames] at hp
        exact hdecl2 p hp
    · simp at hpc

/-- C17: scopes in the declaration pass, with the cursor at scope `S` of a well-formed
table.  (1) At a function declaration `f` whose name `S` does not hold yet, followed by
its chain of parameter nodes and by the compound node that is its body: `insertNode`
creates exactly one scope, named `f`, as the last child of `S` (the scope store grows by
one record, the older scopes keep their names and parents) and moves the cursor into
it; the parameters and the body's compound node create no scope (the scope tree after
them is the one after the declaration), the body's compound node consumes the marker
`func_decl_flag` and leaves the cursor in the scope `f`; that scope holds the name of
every parameter, and a variable declaration at the top level of the body is processed
with the cursor in the scope `f`, puts its name into that scope, and is reported as a
redeclaration when it is named like a parameter.  (2) A compound node met while the
marker is not set creates exactly one scope, the last child of `S`, named
`<name of S>-<line of the node>`, and moves the cursor into it. -/
theorem insertNode_scopes (s : State) (hwf : WF s.tab) (S : Nat)
    (hcur : s.currentScope = some S) (hS : S < s.tab.scopes.length) :
    (∀ (ln : Int) (f : String) (ty : ExpType) (params c2 sib : TreeNode) (pty : ExpType)
        (bln : Int) (bnm : String) (bty : ExpType) (b0 b1 b2 bsib : TreeNode),
      ¬ Declares s.tab S f → params.type? = some pty → paramChain params = true →
      ∃ s1 ps s2 s3,
        insertNode (.node (.StmtK .FuncDeclK) ln f ty params
          (.node (.StmtK .CompoundK) bln bnm bty b0 b1 b2 bsib) c2 sib) s = some s1 ∧
        traverse insertNode afterInsertProc params s1 = some (ps, s2) ∧
        insertNode (.node (.StmtK .CompoundK) bln bnm bty b0 b1 b2 bsib) s2 = some s3 ∧
        s1.tab.scopes.length = s.tab.scopes.length + 1 ∧
        children s1.tab S = children s.tab S ++ [s.tab.scopes.length] ∧
        scopeName s1.tab s.tab.scopes.length = some f ∧
        parentOf s1.tab.scopes s.tab.scopes.length = some (some S) ∧
        (∀ a, a < s.tab.scopes.length → scopeName s1.tab a = scopeName s.tab a ∧
          parentOf s1.tab.scopes a = parentOf s.tab.scopes a) ∧
        s1.currentScope = some s.tab.scopes.length ∧ s1.func_decl_flag = 1 ∧
        SameTree s1.tab s3.tab ∧
        s3.currentScope = some s.tab.scopes.length ∧ s3.func_decl_flag = 0 ∧
        (∀ p ∈ paramNames params, Declares s3.tab s.tab.scopes.length p) ∧
        (∀ (vln : Int) (v : String) (vty : ExpType) (d0 d1 d2 dsib : TreeNode),
          ∃ s4, insertNode (.node (.StmtK .VarDeclK) vln v vty d0 d1 d2 dsib) s3 = some s4 ∧
            s4.currentScope = some s.tab.scopes.length ∧ SameTree s3.tab s4.tab ∧
            Declares s4.tab s.tab.scopes.length v ∧
            (v ∈ paramNames params → s4 = s3.report (.redefinedVariable v) vln))) ∧
    (s.func_decl_flag ≠ 1 →
      ∀ (ln : Int) (nm : String) (ty : ExpType) (c0 c1 c2 sib : TreeNode),
      ∃ s2 cn, scopeName s.tab S = some cn ∧
        insertNode (.node (.StmtK .CompoundK) ln nm ty c0 c1 c2 sib) s = some s2 ∧
        s2.tab.scopes.length = s.tab.scopes.length + 1 ∧
        children s2.tab S = children s.tab S ++ [s.tab.scopes.length] ∧
        scopeName s2.tab s.tab.scopes.length = some (cn ++ "-" ++ toString ln) ∧
        parentOf s2.tab.scopes s.tab.scopes.length = some (some S) ∧
        (∀ a, a < s.tab.scopes.length → scopeName s2.tab a = scopeName s.tab a ∧
          parentOf s2.tab.scopes a = parentOf s.tab.scopes a) ∧
        s2.currentScope = some s.tab.scopes.length ∧ s2.tab.buckets = s.tab.buckets) := by
  constructor
  · intro ln f ty params c2 sib pty bln bnm bty b0 b1 b2 bsib hnd hp hpc
    have hnone : ∀ b ∈ tableOf s.tab S, symName s.tab b ≠ some f :=
      fun b hb hbn => hnd ⟨b, hb, hbn⟩
    obtain ⟨s1, _, h1, hwf1, hc1, hf1, _, _, hlen1, hch1, hnm1, hpar1, _, hold1, _⟩ :=
      insertNode_funcDecl hwf hcur hS ln f ty params
        (.node (.StmtK .CompoundK) bln bnm bty b0 b1 b2 bsib) c2 sib hp hnone
    have hN1 : s.tab.scopes.length < s1.tab.scopes.length := by rw [hlen1]; exact Nat.lt_succ_self _
    obtain ⟨ps, s2, h2, hwf2, hc2, hf2, hst2, _, hdecl2⟩ :=
      traverse_paramChain params hpc s1 hwf1 _ hc1 hN1
    have hc2b : s2.currentScope = some s.tab.scopes.length := hc2.trans hc1
    have hf2b : s2.func_decl_flag = 1 := hf2.trans hf1
    have hN2 : s.tab.scopes.length < s2.tab.scopes.length := by
      rw [SameTree_length hst2]; exact hN1
    refine ⟨s1, ps, s2, { s2 with func_decl_flag := 0 }, h1, h2, ?_, hlen1, hch1, hnm1, hpar1,
      hold1, hc1, hf1, hst2, hc2b, rfl, hdecl2, ?_⟩
    · simp [insertNode, hf2b]
    · intro vln v vty d0 d1 d2 dsib
      obtain ⟨s4, h4, _, hc4, _, hst4, _, hd4, hre4, _⟩ :=
        insertNode_decl_step (s := { s2 with func_decl_flag := 0 }) hwf2 hc2b hN2
          (Or.inr rfl) vln v vty d0 d1 d2 dsib
      exact ⟨s4, h4, hc4.trans hc2b, hst4, hd4, fun hv => hre4 (hdecl2 v hv)⟩
  · intro hflag ln nm ty c0 c1 c2 sib
    obtain ⟨sr, hs⟩ : ∃ sr, s.tab.scopes[S]? = some sr := ⟨_, List.getElem?_eq_getElem hS⟩
    obtain ⟨s2, h2, _, hc2, hlen2, hch2, hnm2, hpar2, _, hb2, _, _, _, _, hold2⟩ :=
      enterNewScope_spec hwf hcur hS (blockScopeName sr.name ln)
    refine ⟨s2, sr.name, by simp [scopeName, hs], ?_, hlen2, hch2, hnm2, hpar2,
      fun a ha => scopes_kept (SameTree_refl _) hold2 a ha, hc2, hb2⟩
    simp [insertNode, hflag, hcur, hs, h2]

theorem shadow_cursor : (stateAfter progShadow).currentScope = some 0 := by decide

theorem shadow_scopes_length : 0 < (stateAfter progShadow).tab.scopes.length := by decide

theorem shadow_no_f : ¬ Declares (stateAfter progShadow).tab 0 "f" := by
  unfold Declares
  decide

/-- C17 at the state after the declaration pass over `progShadow`, with the cursor at
the global scope: the declaration `void f(int a) { ... }` of `progParamShadow`. -/
theorem insertNode_scopes_witness :
    WF (stateAfter progShadow).tab ∧ (stateAfter progShadow).currentScope = some 0 ∧
    0 < (stateAfter progShadow).tab.scopes.length ∧
    ¬ Declares (stateAfter progShadow).tab 0 "f" ∧
    ∃ s1 ps s2 s3, insertNode progParamShadow (stateAfter progShadow) = some s1 ∧
      traverse insertNode afterInsertProc (leaf (.StmtK .ParamK) 1 "a" Integer) s1 =
        some (ps, s2) ∧
      insertNode (.node (.StmtK .CompoundK) 1 "" Void
        (leaf (.StmtK .VarDeclK) 2 "a" Integer) .null .null .null) s2 = some s3 ∧
      s3.currentScope = some (stateAfter progShadow).tab.scopes.length ∧
      s3.func_decl_flag = 0 ∧
      Declares s3.tab (stateAfter progShadow).tab.scopes.length "a" :=
  ⟨(stateAfter_OK progShadow).1, shadow_cursor, shadow_scopes_length, shadow_no_f,
    ((insertNode_scopes (stateAfter progShadow) (stateAfter_OK progShadow).1 0 shadow_cursor
      shadow_scopes_length).1 1 "f" Void (leaf (.StmtK .ParamK) 1 "a" Integer) .null .null
      Integer 1 "" Void (leaf (.StmtK .VarDeclK) 2 "a" Integer) .null .null .null
      shadow_no_f rfl rfl).imp fun _ h => h.imp fun _ h => h.imp fun _ h => h.imp fun _ h =>
        ⟨h.1, h.2.1, h.2.2.1, h.2.2.2.2.2.2.2.2.2.2.2.1, h.2.2.2.2.2.2.2.2.2.2.2.2.1,
          h.2.2.2.2.2.2.2.2.2.2.2.2.2.1 "a" (by simp [paramNames, leaf])⟩⟩

/-- The whole analysis of `void f(int a) { int a; }`: the only diagnostic is the
redeclaration of `a` by the variable at the top level of the body. -/
theorem param_shadow_redeclared :
    (analyze progParamShadow).map (fun r => r.2.listing) =
      some [⟨.redefinedVariable "a", 2⟩] := by
  decide

/-! ## The later claims at sample trees -/

/-- C11 at the assignment `x = f` at line 4, `x` a variable access typed `Integer` and
`f` a variable access typed `Function`: the one assignment-type-mismatch error. -/
theorem checkNode_assign_witness :
    checkNode (.node (.ExpK .AssignK) 4 "" Void (leaf (.ExpK .VarAccessK) 4 "x" Integer)
      (leaf (.ExpK .VarAccessK) 4 "f" Function) .null .null) initState =
      some (Void, initState.report .assignTypeMismatch 4) :=
  ((checkNode_assign initState 4 "" Void .VarAccessK 4 "x" Integer .null .null .null .null
    (.ExpK .VarAccessK) 4 "f" Function .null .null .null .null .null .null).2
      (by decide) (by decide)).2.1 (by decide) (by decide)

/-- At the operator node `1 + 2` at line 2, both operands typed `Integer`:
no diagnostic, and the node is typed `Integer`. -/
theorem checkNode_op_witness :
    checkNode (.node (.ExpK .OpK) 2 "" Void (leaf (.ExpK .ConstK) 2 "" Integer)
      (leaf (.ExpK .ConstK) 2 "" Integer) .null .null) initState =
      some (Integer, initState) :=
  ((checkNode_op initState 2 "" Void (.ExpK .ConstK) 2 "" Integer .null .null .null .null
    (.ExpK .ConstK) 2 "" Integer .null .null .null .null .null .null).2
      (by decide) (by decide)).2 rfl rfl

/-- C14 at the declaration `void v;` at line 3: the one invalid-type error. -/
theorem checkNode_declaration_witness :
    checkNode (leaf (.StmtK .VarDeclK) 3 "v" Void) initState =
      some (Void, initState.report (.invalidVarType "void" "v") 3) :=
  ((checkNode_declaration initState 3 "v" Void .null .null .null .null).1 (Or.inl rfl)).2

/-- C18 at the use of `x` at line 5 with the cursor in the scope `main` of `progShadow`:
`insertNode` returns and writes no diagnostic. -/
theorem insertNode_use_witness :
    WF (stateAfter progShadow).tab ∧ 1 < (stateAfter progShadow).tab.scopes.length ∧
    st_lookup (stateAfter progShadow).tab (some 1) "x" = some (some 4) ∧
    ∃ s2, insertNode (leaf (.ExpK .VarAccessK) 5 "x" Void)
        { stateAfter progShadow with currentScope := some 1 } = some s2 ∧
      s2.listing = (stateAfter progShadow).listing ∧
      s2.tab.scopes = (stateAfter progShadow).tab.scopes :=
  ⟨(stateAfter_OK progShadow).1, by decide, by decide,
    ((insertNode_use { stateAfter progShadow with currentScope := some 1 }
      (stateAfter_OK progShadow).1 1 rfl (by decide) .VarAccessK (Or.inl rfl) 5 "x" Void
      .null .null .null .null).2.1 4 (by decide)).elim
      fun s2 h => h.elim fun _ h2 =>
        ⟨s2, h2.1, h2.2.1, h2.2.2.2.2.2.2.2.2.2.1⟩⟩

/-- C16, at the tree `progVoidCall`: after the declaration pass the symbols `g` and
`main`, declared with the void marker as their sole parameter, have the return type
recorded but no parameter count (the field `func.params` was never written), unlike
the built-in `input`, for which `init_symtab` writes the count 0.  The call `g()` of
the type-checking pass reads the unwritten count: where the unwritten word reads as 1
the call with zero arguments gets the too-few-arguments error, where it reads as -1
the too-many-arguments error, and only where it reads as 0 no diagnostic. -/
theorem void_marker_count_unset :
    (buildSymtab progVoidCall initState).map (fun r => r.2.listing) = some [] ∧
    (buildSymtab progVoidCall initState).map
        (fun r => r.2.tab.buckets.map (fun b => (b.name, b.func.type, b.func.params))) =
      some [("output", some Void, some 1), ("input", some Integer, some 0),
            ("g", some Void, none), ("main", some Void, none)] ∧
    (analyzeFrom (countState 1) progVoidCall).map (fun r => r.2.listing) =
      some [⟨.tooFewArguments "g", 3⟩] ∧
    (analyzeFrom (countState (-1)) progVoidCall).map (fun r => r.2.listing) =
      some [⟨.tooManyArguments "g", 3⟩] ∧
    (analyzeFrom (countState 0) progVoidCall).map (fun r => r.2.listing) = some [] := by
  decide

/-- C9, at the tree `progReturnBlocks` (`int h(void){ { } { { return 1; } } }` on one
line), which the declaration pass accepts without a diagnostic: the two sibling blocks
of the body of `h` are both named `h-1` (addresses 2 and 3), the block that holds the
return is the child `h-1-1` (address 4) of the second; in the type-checking pass
`findScope` returns the first `h-1` for the second block, finds no `h-1-1` under it
and makes the cursor `NULL`; `checkNode` at the return node has no result with that
cursor, and so the analysis has none, where the return of 1 from the `int` function
`h` calls for no diagnostic, as it gets in `progReturn`, the same nesting on two
lines. -/
theorem return_reached_without_cursor :
    (buildSymtab progReturnBlocks initState).map (fun r => r.2.listing) = some [] ∧
    children (stateAfter progReturnBlocks).tab 1 = [2, 3] ∧
    scopeName (stateAfter progReturnBlocks).tab 2 = some "h-1" ∧
    scopeName (stateAfter progReturnBlocks).tab 3 = some "h-1" ∧
    children (stateAfter progReturnBlocks).tab 2 = [] ∧
    children (stateAfter progReturnBlocks).tab 3 = [4] ∧
    scopeName (stateAfter progReturnBlocks).tab 4 = some "h-1-1" ∧
    findScope (stateAfter progReturnBlocks).tab "h-1" (some 1) = some (some 2) ∧
    findScope (stateAfter progReturnBlocks).tab "h-1-1" (some 2) = some none ∧
    (checkNode
      (.node (.StmtK .ReturnK) 1 "" Void (leaf (.ExpK .ConstK) 1 "" Integer) .null .null .null)
      { stateAfter progReturnBlocks with currentScope := none }).isNone = true ∧
    (analyze progReturnBlocks).isNone = true ∧
    (analyze progReturn).map (fun r => r.2.listing) = some [] := by
  decide

/-- C19, at the tree `progVarFunction` (`int f; void f(void) { }`, each function body a
compound node): the declaration pass keeps the cursor at a scope and ends at the global
scope (address 0); in the type-checking pass `findScope` finds no scope `f` under the
global scope, `beforeCheckNode` at the declaration of the function `f` makes the cursor
`NULL`, and the pass has no result. -/
theorem cursor_absent_in_second_pass :
    (buildSymtabLog progVarFunction initState).map (fun r => (r.1, r.2.2.currentScope)) =
      some ([some 0, some 0, some 0, some 0, some 0, some 1, some 0, some 0], some 0) ∧
    findScope (stateAfter progVarFunction).tab "f" (some 0) = some none ∧
    (beforeCheckNode progVarFunction.sibling (stateAfter progVarFunction)).map
      (fun s => s.currentScope) = some none ∧
    (typeCheckLog progVarFunction).isNone = true := by
  decide

/-- C20, at the tree `progSameLine` (two sibling blocks opened on line 1 of `main`):
after the declaration pass the scope `main` (address 1) has the two children 2 and 3,
both named `main-1`; `findScope` returns the first of them; the declaration pass
visits the second block with the cursor at scope 3, the type-checking pass with the
cursor at scope 2, where `a` is the integer of the first block, and so the
type-checking pass reports the indexing of a non-array for `a[0]`, a diagnostic the
declaration pass did not give reason for. -/
theorem same_line_blocks_share_name :
    children (stateAfter progSameLine).tab 1 = [2, 3] ∧
    scopeName (stateAfter progSameLine).tab 2 = some "main-1" ∧
    scopeName (stateAfter progSameLine).tab 3 = some "main-1" ∧
    findScope (stateAfter progSameLine).tab "main-1" (some 1) = some (some 2) ∧
    (buildSymtabLog progSameLine initState).map (fun r => (r.1, r.2.2.listing)) =
      some ([some 1, some 1, some 1, some 1, some 2, some 2, some 2, some 1, some 3, some 3,
        some 3, some 3, some 3, some 3, some 3, some 3, some 3, some 1, some 0, some 0], []) ∧
    (typeCheckLog progSameLine).map (fun r => r.1) =
      some [some 1, some 1, some 1, some 1, some 2, some 2, some 2, some 1, some 2, some 2,
        some 2, some 2, some 2, some 2, some 2, some 2, some 2, some 1, some 0, some 0] ∧
    (analyze progSameLine).map (fun r => r.2.listing) = some [⟨.indexOnNonArray, 1⟩] := by
  decide

/-! ## What the declaration pass keeps -/

theorem Keeps_refl (st : SymTab) : Keeps st st :=
  ⟨bucketsExt_refl _, Nat.le_refl _, fun _ _ => ⟨rfl, rfl⟩, fun _ _ h => h⟩

theorem Keeps_trans {a b c : SymTab} (h1 : Keeps a b) (h2 : Keeps b c) : Keeps a c := by
  obtain ⟨e1, l1, s1, t1⟩ := h1
  obtain ⟨e2, l2, s2, t2⟩ := h2
  refine ⟨bucketsExt_trans e1 e2, Nat.le_trans l1 l2, ?_, fun x y h => t2 x y (t1 x y h)⟩
  intro x hx
  have hx2 : x < b.scopes.length := Nat.lt_of_lt_of_le hx l1
  exact ⟨(s2 x hx2).1.trans (s1 x hx).1, (s2 x hx2).2.trans (s1 x hx).2⟩

/-- A table that keeps another declares in every scope the names the other declares. -/
theorem Keeps_Declares {st st2 : SymTab} (h : Keeps st st2) {a : Nat} {n : String}
    (hd : Declares st a n) : Declares st2 a n := by
  obtain ⟨b, hb, hbn⟩ := hd
  refine ⟨b, h.2.2.2 a b hb, ?_⟩
  unfold symName at hbn ⊢
  cases hr : st.buckets[b]? with
  | none => simp [hr] at hbn
  | some r =>
    obtain ⟨r2, hr2, e1, _⟩ := h.1 b r hr
    simp only [hr, Option.map_some', Option.some.injEq] at hbn
    simp [hr2, e1, hbn]

theorem Keeps_of_frame {st st2 : SymTab} (hwf : WF st)
    (he : BucketsExt st.buckets st2.buckets) (hs : st2.scopes = st.scopes) : Keeps st st2 := by
  refine ⟨he, by rw [hs], fun a _ => by simp [scopeName, parentOf, hs], ?_⟩
  intro a b hb
  rw [tableOf_frame hwf he (by rw [hs])]
  exact hb

theorem Keeps_st_insert {st st2 : SymTab} (hwf : WF st) {sc : ScopeList} {n : String}
    {t : ExpType} {k loc : Int} {l : BucketList}
    (h : st_insert st sc n t k loc = some (l, st2)) : Keeps st st2 := by
  cases sc with
  | none => simp [st_insert] at h
  | some s =>
    cases hs : st.scopes[s]? with
    | none => simp [st_insert, hs] at h
    | some sr =>
      rcases st_insert_cases hwf hs n t k loc with ⟨hnone, e⟩ | ⟨b, r, _, _, hr, e⟩
      · rw [e] at h
        simp only [Option.some.injEq, Prod.mk.injEq] at h
        rw [← h.2]
        have hext : BucketsExt st.buckets (insertNew st s sr n t k loc).buckets :=
          bucketsExt_append _ _
        have hS : s < st.scopes.length := (List.getElem?_eq_some.1 hs).1
        refine ⟨hext, by simp [insertNew], ?_, ?_⟩
        · intro a _
          have hst := SameTree_props (SameTree_st_insert e)
          exact ⟨hst.2.1 a, hst.2.2.1 a⟩
        · intro a b hb
          by_cases e2 : a = s
          · subst e2
            exact (mem_tableOf_insertNew hwf hs n t k loc b).2 (Or.inr hb)
          · have : tableOf (insertNew st s sr n t k loc) a = tableOf st a := by
              apply tableOf_frame hwf hext
              simp only [insertNew]
              exact List.getElem?_set_ne (fun h => e2 h.symm)
            rw [this]
            exact hb
      · rw [e] at h
        simp only [Option.some.injEq, Prod.mk.injEq] at h
        rw [← h.2]
        exact Keeps_of_frame hwf (bucketsExt_set _ _ r _ hr rfl rfl rfl rfl) rfl

theorem Keeps_setFunc {st st2 : SymTab} (hwf : WF st) {l : BucketList}
    {f : FuncRec → FuncRec} (h : setFunc st l f = some st2) : Keeps st st2 :=
  Keeps_of_frame hwf (bucketsExt_setFunc h).1 (setFunc_length h)

theorem Keeps_recordSignature {tab tab2 : SymTab} (hwf : WF tab) {l : BucketList}
    {param : TreeNode} (h : recordSignature tab l param = some tab2) : Keeps tab tab2 := by
  unfold recordSignature at h
  cases hp : param.type? with
  | none => simp [hp] at h
  | some pty =>
    simp only [hp] at h
    by_cases e : pty ≠ Void
    · rw [if_pos e] at h
      exact Keeps_setFunc hwf h
    · rw [if_neg e] at h
      cases h
      exact Keeps_refl _

theorem Keeps_enterNewScope {s s2 : State} {n : String} (hok : s.OK)
    (h : enterNewScope s n = some s2) : Keeps s.tab s2.tab := by
  cases hc : s.currentScope with
  | none => simp [enterNewScope, createScope, buildScope, addChildScope, hc] at h
  | some S =>
    have hS := hok.2 S hc
    obtain ⟨s3, h3, _, _, hlen, _, _, _, _, hb, _, _, _, _, hold⟩ :=
      enterNewScope_spec hok.1 hc hS n
    rw [h] at h3
    cases h3
    refine ⟨by rw [hb]; exact bucketsExt_refl _, by rw [hlen]; exact Nat.le_succ _,
      fun a ha => scopes_kept (SameTree_refl _) hold a ha, ?_⟩
    intro a b hb2
    by_cases ha : a < s.tab.scopes.length
    · obtain ⟨r2, hr2, _, _, hbk⟩ := hold a _ (List.getElem?_eq_getElem ha)
      rw [tableOf_mono hok.1 (by rw [hb]; exact bucketsExt_refl _)
        (List.getElem?_eq_getElem ha) hr2 hbk]
      exact hb2
    · simp [tableOf, List.getElem?_eq_none (Nat.le_of_not_lt ha)] at hb2

theorem semanticError_tab {t : TreeNode} {m : Msg} {s s2 : State}
    (h : semanticError t m s = some s2) : s2.tab = s.tab := by
  obtain ⟨_, _, e⟩ := semanticError_eq h
  rw [e]

/-- A step of the declaration pass keeps what the table holds. -/
theorem Keeps_insertNode {t : TreeNode} {s s2 : State} (hok : s.OK)
    (h : insertNode t s = some s2) : Keeps s.tab s2.tab := by
  unfold insertNode at h
  split at h
  · simp at h
  · cases h; exact Keeps_refl _
  · split at h
    · simp at h
    · rw [semanticError_tab h]; exact Keeps_refl _
    · split at h
      · simp at h
      · rename_i l tab hins
        cases h
        exact Keeps_st_insert hok.1 hins
  · split at h
    · simp at h
    · rw [semanticError_tab h]; exact Keeps_refl _
    · split at h
      · simp at h
      · rename_i l tab hins
        cases h
        exact Keeps_st_insert hok.1 hins
  · split at h
    · simp at h
    · rw [semanticError_tab h]; exact Keeps_refl _
    · split at h
      · simp at h
      · rename_i l tab hins
        split at h
        · simp at h
        · rename_i tab2 hsf
          have hwf1 := WF_st_insert hok.1 hins
          have hwf2 : WF tab2 := WF_setFunc hwf1 hsf
          have hlen2 : tab2.scopes.length = s.tab.scopes.length := by
            rw [setFunc_length hsf, st_insert_length hins]
          split at h
          · simp at h
          · rename_i tab3 htab3
            have h3 := recordSignature_WF hwf2 htab3
            split at h
            · simp at h
            · rename_i s3 hent
              cases h
              have hok3 : (State.mk tab3 s.currentScope s.func_decl_flag s.Error s.listing s.indet).OK :=
                ⟨h3.1, fun c hc => by rw [h3.2, hlen2]; exact hok.2 c hc⟩
              have hk : Keeps tab3 s3.tab := Keeps_enterNewScope hok3 hent
              exact Keeps_trans (Keeps_st_insert hok.1 hins)
                (Keeps_trans (Keeps_setFunc hwf1 hsf)
                  (Keeps_trans (Keeps_recordSignature hwf2 htab3) hk))
  · split at h
    · cases h; exact Keeps_refl _
    · split at h
      · simp at h
      · split at h
        · simp at h
        · exact Keeps_enterNewScope hok h
  · cases h; exact Keeps_refl _
  · split at h
    · simp at h
    · rw [semanticError_tab h]; exact Keeps_refl _
    · split at h
      · simp at h
      · split at h
        · simp at h
        · rename_i l tab hins
          cases h
          exact Keeps_st_insert hok.1 hins
  · split at h
    · simp at h
    · rw [semanticError_tab h]; exact Keeps_refl _
    · split at h
      · simp at h
      · split at h
        · simp at h
        · rename_i l tab hins
          cases h
          exact Keeps_st_insert hok.1 hins
  · cases h; exact Keeps_refl _

theorem afterInsertProc_tab {t : TreeNode} {s s2 : State} {ty : ExpType}
    (h : afterInsertProc t s = some (ty, s2)) : s2.tab = s.tab := by
  unfold afterInsertProc at h
  split at h
  · rename_i ty0 s0 _ hs0
    cases h
    unfold afterInsertNode at hs0
    split at hs0
    · simp at hs0
    · exact (leaveScope_same hs0).2.2.2
    · cases hs0; rfl
  · simp at h

/-- The declaration pass over a tree keeps what the table held when it started. -/
theorem Keeps_traverse {t t2 : TreeNode} {s s2 : State} (hok : s.OK)
    (h : traverse insertNode afterInsertProc t s = some (t2, s2)) : Keeps s.tab s2.tab :=
  (traverse_inv (fun x => x.OK ∧ Keeps s.tab x.tab)
    (fun _ _ _ hi hp => ⟨insertNode_OK hi.1 hp, Keeps_trans hi.2 (Keeps_insertNode hi.1 hp)⟩)
    (fun _ _ _ _ hi hp => ⟨afterInsertProc_OK hi.1 hp, by
      rw [afterInsertProc_tab hp]; exact hi.2⟩) _ _ _ _ ⟨hok, Keeps_refl _⟩ h).2

/-! ## The built-in functions -/

set_option maxRecDepth 4096 in
/-- The table of `init_symtab`, read field by field. -/
theorem init_symtab_table :
    init_symtab.map (fun st => st.globalScope) = some (some 0) ∧
    init_symtab.map (fun st => st.scopes.length) = some 1 ∧
    init_symtab.map (fun st => scopeName st 0) = some (some "global") ∧
    init_symtab.map (fun st => parentOf st.scopes 0) = some (some none) ∧
    init_symtab.map (fun st => children st 0) = some [] ∧
    init_symtab.map (fun st => tableOf st 0) = some [1, 0] ∧
    init_symtab.map (fun st => st.buckets.map (fun b => (b.name, b.type, b.scope))) =
      some [("output", Function, some 0), ("input", Function, some 0)] ∧
    init_symtab.map (fun st => st.buckets.map (fun b => (b.func.type, b.func.params))) =
      some [(some Void, some 1), (some Integer, some 0)] ∧
    init_symtab.map (fun st => st.buckets.map (fun b => b.func.param 0)) =
      some [some ⟨"value", Integer⟩, none] :=
  ⟨by decide, by decide, by decide, by decide, by decide, by decide, by decide, by decide,
    by decide⟩

theorem shadow_buckets_one : 1 < (stateAfter progShadow).tab.buckets.length := by decide

/-- The call `output(input())` in a state where the two names resolve to symbols with
the signatures of the built-in functions: the type-checking pass types `input()` with
`Integer` and the call of `output` with `Void` and leaves the state as it is. -/
theorem typeCheck_output_input (s : State) (lo li : Nat) (ro ri : BucketListRec)
    (ln ln2 : Int) (ty ty2 : ExpType)
    (hlo : st_lookup s.tab s.currentScope "output" = some (some lo))
    (hro : s.tab.buckets[lo]? = some ro)
    (hpo : ro.func.params = some 1) (hto : ro.func.type = some Void)
    (hp0 : ro.func.param 0 = some ⟨"value", Integer⟩)
    (hli : st_lookup s.tab s.currentScope "input" = some (some li))
    (hri : s.tab.buckets[li]? = some ri)
    (hpi : ri.func.params = some 0) (hti : ri.func.type = some Integer) :
    typeCheck (.node (.ExpK .CallK) ln "output" ty
        (.node (.ExpK .CallK) ln2 "input" ty2 .null .null .null .null) .null .null .null) s =
      some (.node (.ExpK .CallK) ln "output" Void
        (.node (.ExpK .CallK) ln2 "input" Integer .null .null .null .null)
        .null .null .null, s) := by
  simp [typeCheck, traverse, beforeCheckNode, checkNode, hlo, hro, hpo, hto, hp0, hli, hri,
    hpi, hti, countArgs, checkArgs, FuncRec.paramsRead, FuncRec.typeRead, FuncRec.paramAt]

theorem init_symtab_declares {st : SymTab} (h : init_symtab = some st) :
    Declares st 0 "output" ∧ Declares st 0 "input" := by
  have h1 := init_symtab_table.2.2.2.2.2.1
  have h2 : init_symtab.map (fun st => (symName st 0, symName st 1)) =
      some (some "output", some "input") := by decide
  rw [h] at h1 h2
  simp only [Option.map_some', Option.some.injEq, Prod.mk.injEq] at h1 h2
  exact ⟨⟨0, by simp [h1], h2.1⟩, ⟨1, by simp [h1], h2.2⟩⟩

/-- A declaration of a name that the current scope holds already is reported as a
redefinition, of a variable or of a function, and changes nothing else. -/
theorem insertNode_redeclared {s : State} (hwf : WF s.tab) {S : Nat}
    (hcur : s.currentScope = some S) (hS : S < s.tab.scopes.length) {nm : String}
    (hd : Declares s.tab S nm) (ln : Int) (ty : ExpType) (c0 c1 c2 sib : TreeNode) :
    insertNode (.node (.StmtK .VarDeclK) ln nm ty c0 c1 c2 sib) s =
      some (s.report (.redefinedVariable nm) ln) ∧
    insertNode (.node (.StmtK .FuncDeclK) ln nm ty c0 c1 c2 sib) s =
      some (s.report (.redefinedFunction nm) ln) := by
  have h := (declaredHere_spec hwf hcur hS nm).1 hd
  constructor <;> simp [insertNode, h, semanticError, TreeNode.lineno?, State.report]

/-! ## Names that the two passes resolve -/

theorem scopeChain_kept {st st2 : SymTab} (hwf : WF st) (hk : Keeps st st2) {S : Nat}
    (hS : S < st.scopes.length) : scopeChain st2 S = scopeChain st S := by
  obtain ⟨hc, hl⟩ := scopeChain_chain hwf hS
  refine walk_of_chain (chain_congr hc fun a ha => ?_) _ (le_trans hl hk.2.1)
  obtain ⟨k, hka⟩ := chain_valid hc a ha
  apply (hk.2.2.1 a _).2
  unfold parentOf at hka
  cases hr : st.scopes[a]? with
  | none => simp [hr] at hka
  | some r => exact (List.getElem?_eq_some.1 hr).1

/-- A name that `st_lookup` resolves from a scope is resolved from that scope in every
table that keeps what the first holds: what the declaration pass resolves at a node,
the type-checking pass resolves from the same scope. -/
theorem st_lookup_kept {st st2 : SymTab} (hwf : WF st) (hwf2 : WF st2) (hk : Keeps st st2)
    {S : Nat} (hS : S < st.scopes.length) {n : String} {l : Nat}
    (h : st_lookup st (some S) n = some (some l)) :
    ∃ l2, st_lookup st2 (some S) n = some (some l2) := by
  rw [st_lookup_findSome hwf hS n] at h
  simp only [Option.some.injEq] at h
  obtain ⟨sc, hsc, hlf⟩ := List.exists_of_findSome?_eq_some h
  obtain ⟨hmem, hname⟩ := (localFind_spec hwf n sc).1 l hlf
  obtain ⟨b, hb, hbn⟩ := Keeps_Declares hk ⟨l, hmem, hname⟩
  have hS2 : S < st2.scopes.length := Nat.lt_of_lt_of_le hS hk.2.1
  rw [st_lookup_findSome hwf2 hS2 n, scopeChain_kept hwf hk hS]
  cases hres : (scopeChain st S).findSome? (localFind st2 n) with
  | some l2 => exact ⟨l2, rfl⟩
  | none =>
    rw [List.findSome?_eq_none_iff] at hres
    exact absurd hbn ((localFind_spec hwf2 n sc).2 (hres sc hsc) b hb)

/-- C22, at the trees `progUseBeforeDecl` and `progIndexBeforeDecl`, in which `x` is used
in `main` at line 2 and declared in the global scope at line 3.  The declaration pass
reports the undefined identifier `x` for the use.  The type-checking pass looks `x` up
in the finished table, from the scope `main` (address 1), and resolves it to the global
variable (the symbol at address 3): the use is typed `Integer`, not with the error
sentinel; and where the use is `x[0]` the type-checking pass adds the error for the
index on a non-array to the undefined-identifier error of the same node. -/
theorem use_before_declaration_resolved :
    (buildSymtab progUseBeforeDecl initState).map (fun r => r.2.listing) =
      some [⟨.undefinedIdentifier "x", 2⟩] ∧
    st_lookup (stateAfter progUseBeforeDecl).tab (some 1) "x" = some (some 3) ∧
    (analyze progUseBeforeDecl).map (fun r => r.1) =
      some (.node (.StmtK .FuncDeclK) 1 "main" Void
        (leaf (.StmtK .VoidParamK) 1 "" Void)
        (.node (.StmtK .CompoundK) 1 "" Void
          .null
          (leaf (.ExpK .VarAccessK) 2 "x" Integer)
          .null .null)
        .null
        (leaf (.StmtK .VarDeclK) 3 "x" Integer)) ∧
    (analyze progUseBeforeDecl).map (fun r => r.2.listing) =
      some [⟨.undefinedIdentifier "x", 2⟩] ∧
    (analyze progIndexBeforeDecl).map (fun r => r.2.listing) =
      some [⟨.undefinedIdentifier "x", 2⟩, ⟨.indexOnNonArray, 2⟩] := by
  decide

/-! ## The symbol records through the declaration pass -/

theorem FuncsKept_refl (n : Nat) (bs : List BucketListRec) : FuncsKept n bs bs :=
  fun _ r _ h => ⟨r, h, rfl, rfl⟩

theorem FuncsKept_trans {n : Nat} {a b c : List BucketListRec} (h1 : FuncsKept n a b)
    (h2 : FuncsKept n b c) : FuncsKept n a c := by
  intro x r hx hr
  obtain ⟨r2, hr2, e1, e2⟩ := h1 x r hx hr
  obtain ⟨r3, hr3, f1, f2⟩ := h2 x r2 hx hr2
  exact ⟨r3, hr3, f1.trans e1, f2.trans e2⟩

theorem FuncsKept_of_eq {n : Nat} {a b : List BucketListRec} (h : b = a) : FuncsKept n a b := by
  subst h
  exact FuncsKept_refl _ _

/-- `st_insert` keeps the name and the function record of every symbol; a record it adds
has the name inserted. -/
theorem st_insert_records {st st2 : SymTab} (hwf : WF st) {sc : ScopeList} {n : String}
    {t : ExpType} {k loc : Int} {l : BucketList}
    (h : st_insert st sc n t k loc = some (l, st2)) :
    FuncsKept st.buckets.length st.buckets st2.buckets ∧
    ∀ b r2, st2.buckets[b]? = some r2 → st.buckets.length ≤ b → r2.name = n := by
  cases sc with
  | none => simp [st_insert] at h
  | some s =>
    cases hs : st.scopes[s]? with
    | none => simp [st_insert, hs] at h
    | some sr =>
      rcases st_insert_cases hwf hs n t k loc with ⟨hnone, e⟩ | ⟨b, r, _, _, hr, e⟩
      · rw [e] at h
        simp only [Option.some.injEq, Prod.mk.injEq] at h
        rw [← h.2]
        constructor
        · intro x rx hx hrx
          refine ⟨rx, ?_, rfl, rfl⟩
          simp only [insertNew]
          rw [List.getElem?_append_left hx]
          exact hrx
        · intro x r2 hr2 hx
          simp only [insertNew] at hr2
          have hlen := (List.getElem?_eq_some.1 hr2).1
          simp only [List.length_append, List.length_singleton] at hlen
          have : x = st.buckets.length := by omega
          subst this
          simp at hr2
          rw [← hr2]
      · rw [e] at h
        simp only [Option.some.injEq, Prod.mk.injEq] at h
        rw [← h.2]
        have hb : b < st.buckets.length := (List.getElem?_eq_some.1 hr).1
        constructor
        · intro x rx hx hrx
          simp only [insertLine]
          by_cases e2 : b = x
          · subst e2
            rw [hr] at hrx
            cases hrx
            exact ⟨_, List.getElem?_set_self hb, rfl, rfl⟩
          · exact ⟨rx, by rw [List.getElem?_set_ne e2]; exact hrx, rfl, rfl⟩
        · intro x r2 hr2 hx
          simp only [insertLine] at hr2
          have hlen := (List.getElem?_eq_some.1 hr2).1
          simp only [List.length_set] at hlen
          omega

/-- `setFunc` at an address not below `n` keeps the records below `n`. -/
theorem setFunc_records {st st2 : SymTab} {l n : Nat} {f : FuncRec → FuncRec}
    (hl : n ≤ l) (h : setFunc st (some l) f = some st2) :
    FuncsKept n st.buckets st2.buckets := by
  unfold setFunc at h
  cases hr : st.buckets[l]? with
  | none => simp [hr] at h
  | some r =>
    simp only [hr, Option.some.injEq] at h
    subst h
    intro x rx hx hrx
    refine ⟨rx, ?_, rfl, rfl⟩
    simp only
    rw [List.getElem?_set_ne (by omega)]
    exact hrx

theorem recordSignature_records {tab tab2 : SymTab} {l n : Nat} {param : TreeNode}
    (hl : n ≤ l) (h : recordSignature tab (some l) param = some tab2) :
    FuncsKept n tab.buckets tab2.buckets := by
  unfold recordSignature at h
  cases hp : param.type? with
  | none => simp [hp] at h
  | some pty =>
    simp only [hp] at h
    by_cases e : pty ≠ Void
    · rw [if_pos e] at h
      exact setFunc_records hl h
    · rw [if_neg e] at h
      cases h
      exact FuncsKept_refl _ _

theorem recordSignature_buckets_length {tab tab2 : SymTab} {l : BucketList}
    {param : TreeNode} (h : recordSignature tab l param = some tab2) :
    tab2.buckets.length = tab.buckets.length := by
  unfold recordSignature at h
  cases hp : param.type? with
  | none => simp [hp] at h
  | some pty =>
    simp only [hp] at h
    by_cases e : pty ≠ Void
    · rw [if_pos e] at h
      exact (bucketsExt_setFunc h).2
    · rw [if_neg e] at h
      cases h
      rfl

theorem enterNewScope_effect {s s2 : State} {n : String} (hok : s.OK)
    (h : enterNewScope s n = some s2) :
    s2.tab.buckets = s.tab.buckets ∧
    ∀ a, s.tab.scopes.length ≤ a → a < s2.tab.scopes.length →
      ∃ P, P < s.tab.scopes.length ∧ parentOf s2.tab.scopes a = some (some P) := by
  cases hc : s.currentScope with
  | none => simp [enterNewScope, createScope, buildScope, addChildScope, hc] at h
  | some S =>
    have hS := hok.2 S hc
    obtain ⟨s3, h3, _, _, hlen, _, _, hpar, _, hb, _⟩ := enterNewScope_spec hok.1 hc hS n
    rw [h] at h3
    cases h3
    refine ⟨hb, ?_⟩
    intro a ha1 ha2
    have : a = s.tab.scopes.length := by omega
    subst this
    exact ⟨S, hS, hpar⟩

/-- The effect of a step of the declaration pass on the stores: the name and the
function record of every symbol stay; a symbol record is added only by a declaration
node, under the name of the node; a scope is added only as a child of a scope there
was. -/
theorem insertNode_effect {t : TreeNode} {s s2 : State} (hok : s.OK)
    (h : insertNode t s = some s2) :
    FuncsKept s.tab.buckets.length s.tab.buckets s2.tab.buckets ∧
    (∀ b r2, s2.tab.buckets[b]? = some r2 → s.tab.buckets.length ≤ b →
      declaresName r2.name t = true) ∧
    (∀ a, s.tab.scopes.length ≤ a → a < s2.tab.scopes.length →
      ∃ P, P < s.tab.scopes.length ∧ parentOf s2.tab.scopes a = some (some P)) := by
  have hsame : ∀ {s3 : State}, s3.tab = s.tab →
      FuncsKept s.tab.buckets.length s.tab.buckets s3.tab.buckets ∧
      (∀ b r2, s3.tab.buckets[b]? = some r2 → s.tab.buckets.length ≤ b →
        declaresName r2.name t = true) ∧
      (∀ a, s.tab.scopes.length ≤ a → a < s3.tab.scopes.length →
        ∃ P, P < s.tab.scopes.length ∧ parentOf s3.tab.scopes a = some (some P)) := by
    intro s3 e
    rw [e]
    refine ⟨FuncsKept_refl _ _, ?_, ?_⟩
    · intro b r2 hr2 hb
      have := (List.getElem?_eq_some.1 hr2).1
      omega
    · intro a h1 h2
      omega
  cases t with
  | null => simp [insertNode] at h
  | node k ln nm ty param c1 c2 sib =>
    cases k with
    | StmtK sk =>
      cases sk with
      | VarDeclK =>
        simp only [insertNode] at h
        split at h
        · simp at h
        · exact hsame (semanticError_tab h)
        · split at h
          · simp at h
          · rename_i l tab hins
            cases h
            obtain ⟨hA, hB⟩ := st_insert_records hok.1 hins
            refine ⟨hA, ?_, ?_⟩
            · intro b r2 hr2 hb
              rw [hB b r2 hr2 hb]
              simp [declaresName]
            · intro a h1 h2
              simp only at h2
              rw [st_insert_length hins] at h2
              omega
      | ParamK =>
        simp only [insertNode] at h
        split at h
        · simp at h
        · exact hsame (semanticError_tab h)
        · split at h
          · simp at h
          · rename_i l tab hins
            cases h
            obtain ⟨hA, hB⟩ := st_insert_records hok.1 hins
            refine ⟨hA, ?_, ?_⟩
            · intro b r2 hr2 hb
              rw [hB b r2 hr2 hb]
              simp [declaresName]
            · intro a h1 h2
              simp only at h2
              rw [st_insert_length hins] at h2
              omega
      | VoidParamK =>
        simp only [insertNode] at h
        cases h; exact hsame rfl
      | FuncDeclK =>
        simp only [insertNode] at h
        split at h
        · simp at h
        · exact hsame (semanticError_tab h)
        · rename_i hd
          split at h
          · simp at h
          · rename_i l tab hins
            split at h
            · simp at h
            · rename_i tab2 hsf
              split at h
              · simp at h
              · rename_i tab3 htab3
                split at h
                · simp at h
                · rename_i s3 hent
                  cases h
                  cases hc : s.currentScope with
                  | none =>
                    rw [hc] at hins
                    simp [st_insert] at hins
                  | some S =>
                    have hS := hok.2 S hc
                    obtain ⟨sr, hs⟩ : ∃ sr, s.tab.scopes[S]? = some sr :=
                      ⟨_, List.getElem?_eq_getElem hS⟩
                    have hnone : ∀ b ∈ tableOf s.tab S, symName s.tab b ≠ some nm := by
                      intro b hb hbn
                      have := (declaredHere_spec hok.1 hc hS nm).1 ⟨b, hb, hbn⟩
                      rw [hd] at this
                      cases this
                    rw [hc] at hins
                    rcases st_insert_cases hok.1 hs nm Function ln ln with
                      ⟨_, e⟩ | ⟨b, _, hb, hbn, _, _⟩
                    · have hins0 := hins
                      rw [e] at hins
                      simp only [Option.some.injEq, Prod.mk.injEq] at hins
                      obtain ⟨e1, e2⟩ := hins
                      subst e1
                      obtain ⟨hA1, hB1⟩ := st_insert_records hok.1 hins0
                      have hwf1 := WF_st_insert hok.1 hins0
                      have hwf2 : WF tab2 := WF_setFunc hwf1 hsf
                      have hlen1 : tab.buckets.length = s.tab.buckets.length + 1 := by
                        rw [← e2]
                        simp [insertNew]
                      have hA2 : FuncsKept s.tab.buckets.length tab.buckets tab2.buckets :=
                        setFunc_records (Nat.le_refl _) hsf
                      have hA3 : FuncsKept s.tab.buckets.length tab2.buckets tab3.buckets :=
                        recordSignature_records (Nat.le_refl _) htab3
                      have h3 := recordSignature_WF hwf2 htab3
                      have hlen2 : tab2.scopes.length = s.tab.scopes.length := by
                        rw [setFunc_length hsf, st_insert_length hins0]
                      have hok3 : (State.mk tab3 (some S) s.func_decl_flag s.Error s.listing
                          s.indet).OK :=
                        ⟨h3.1, fun c hc2 => by
                          simp only [Option.some.injEq] at hc2
                          rw [h3.2, hlen2, ← hc2]
                          exact hS⟩
                      rw [hc] at hent
                      obtain ⟨hb4, hC4⟩ := enterNewScope_effect hok3 hent
                      simp only at hb4 hC4
                      have hk23 : Keeps tab tab3 :=
                        Keeps_trans (Keeps_setFunc hwf1 hsf) (Keeps_recordSignature hwf2 htab3)
                      refine ⟨?_, ?_, ?_⟩
                      · simp only
                        rw [hb4]
                        exact FuncsKept_trans hA1 (FuncsKept_trans hA2 hA3)
                      · intro b r2 hr2 hb
                        simp only at hr2
                        rw [hb4] at hr2
                        have hlt : s.tab.buckets.length < tab.buckets.length := by omega
                        obtain ⟨r3, hr3, en, _⟩ := hk23.1 _ _ (List.getElem?_eq_getElem hlt)
                        have hn1 := hB1 _ _ (List.getElem?_eq_getElem hlt) (Nat.le_refl _)
                        have hlen3 : tab3.buckets.length = s.tab.buckets.length + 1 := by
                          rw [recordSignature_buckets_length htab3, (bucketsExt_setFunc hsf).2,
                            hlen1]
                        have hb2 := (List.getElem?_eq_some.1 hr2).1
                        have : b = s.tab.buckets.length := by omega
                        subst this
                        rw [hr3] at hr2
                        cases hr2
                        rw [en, hn1]
                        simp [declaresName]
                      · intro a h1 h2
                        simp only at h2
                        have := hC4 a (by rw [h3.2, hlen2]; exact h1) h2
                        rw [h3.2, hlen2] at this
                        exact this
                    · exact absurd hbn (hnone b hb)
      | CompoundK =>
        simp only [insertNode] at h
        split at h
        · cases h; exact hsame rfl
        · split at h
          · simp at h
          · split at h
            · simp at h
            · obtain ⟨hb, hC⟩ := enterNewScope_effect hok h
              refine ⟨FuncsKept_of_eq hb, ?_, hC⟩
              intro b r2 hr2 hb2
              rw [hb] at hr2
              have := (List.getElem?_eq_some.1 hr2).1
              omega
      | IfK => simp only [insertNode] at h; cases h; exact hsame rfl
      | IfElseK => simp only [insertNode] at h; cases h; exact hsame rfl
      | WhileK => simp only [insertNode] at h; cases h; exact hsame rfl
      | ReturnK => simp only [insertNode] at h; cases h; exact hsame rfl
    | ExpK ek =>
      cases ek with
      | OpK => simp only [insertNode] at h; cases h; exact hsame rfl
      | ConstK => simp only [insertNode] at h; cases h; exact hsame rfl
      | AssignK => simp only [insertNode] at h; cases h; exact hsame rfl
      | VarAccessK =>
        simp only [insertNode] at h
        split at h
        · simp at h
        · exact hsame (semanticError_tab h)
        · rename_i l hl
          split at h
          · simp at h
          · rename_i r hr
            split at h
            · simp at h
            · rename_i l2 tab hins
              cases h
              cases hc : s.currentScope with
              | none =>
                rw [hc] at hl
                cases hn : s.tab.scopes.length <;> simp [st_lookup, st_lookupLoop, hn] at hl
              | some S =>
                rw [hc] at hl
                obtain ⟨r3, sc, hr3, _, _, _, hfound⟩ := insert_found hok.1 (hok.2 S hc) hl
                rw [hr] at hr3
                cases hr3
                rw [hfound] at hins
                simp only [Option.some.injEq, Prod.mk.injEq] at hins
                obtain ⟨hA, _⟩ := st_insert_records hok.1 (hfound r.type ln ln)
                rw [← hins.2]
                refine ⟨hA, ?_, ?_⟩
                · intro b r2 hr2 hb
                  have := (List.getElem?_eq_some.1 hr2).1
                  simp only [insertLine, List.length_set] at this
                  omega
                · intro a h1 h2
                  simp only [insertLine] at h2
                  omega
      | CallK =>
        simp only [insertNode] at h
        split at h
        · simp at h
        · exact hsame (semanticError_tab h)
        · rename_i l hl
          split at h
          · simp at h
          · rename_i r hr
            split at h
            · simp at h
            · rename_i l2 tab hins
              cases h
              cases hc : s.currentScope with
              | none =>
                rw [hc] at hl
                cases hn : s.tab.scopes.length <;> simp [st_lookup, st_lookupLoop, hn] at hl
              | some S =>
                rw [hc] at hl
                obtain ⟨r3, sc, hr3, _, _, _, hfound⟩ := insert_found hok.1 (hok.2 S hc) hl
                rw [hr] at hr3
                cases hr3
                rw [hfound] at hins
                simp only [Option.some.injEq, Prod.mk.injEq] at hins
                obtain ⟨hA, _⟩ := st_insert_records hok.1 (hfound r.type ln ln)
                rw [← hins.2]
                refine ⟨hA, ?_, ?_⟩
                · intro b r2 hr2 hb
                  have := (List.getElem?_eq_some.1 hr2).1
                  simp only [insertLine, List.length_set] at this
                  omega
                · intro a h1 h2
                  simp only [insertLine] at h2
                  omega

/-! ## The built-in functions through the declaration pass -/

theorem declaresName_node {n : String} {k : NodeKind} {ln : Int} {nm : String} {ty : ExpType}
    {c0 c1 c2 sib : TreeNode} (h : declaresName n (.node k ln nm ty c0 c1 c2 sib) = false) :
    declaresName n c0 = false ∧ declaresName n c1 = false ∧ declaresName n c2 = false ∧
      declaresName n sib = false := by
  simp only [declaresName, Bool.or_eq_false_iff] at h
  exact ⟨h.1.1.1.2, h.1.1.2, h.1.2, h.2⟩

/-- A step of the declaration pass at a node that declares neither `output` nor `input`
keeps the built-in functions. -/
theorem BuiltinsKept_insertNode {t : TreeNode} {s s2 : State} (hok : s.OK)
    (hb : BuiltinsKept s.tab) (h1 : declaresName "output" t = false)
    (h2 : declaresName "input" t = false) (h : insertNode t s = some s2) :
    BuiltinsKept s2.tab := by
  obtain ⟨⟨ro, hro, hro1, hro2, hro3, hro4⟩, ⟨ri, hri, hri1, hri2, hri3⟩, hm0, hm1, huniq,
    hchain⟩ := hb
  have hk := Keeps_insertNode hok h
  obtain ⟨hA, hB, hC⟩ := insertNode_effect hok h
  have hok2 := insertNode_OK hok h
  have hl0 : 0 < s.tab.buckets.length := (List.getElem?_eq_some.1 hro).1
  have hl1 : 1 < s.tab.buckets.length := (List.getElem?_eq_some.1 hri).1
  refine ⟨?_, ?_, hk.2.2.2 0 0 hm0, hk.2.2.2 0 1 hm1, ?_, ?_⟩
  · obtain ⟨r2, hr2, e1, e2⟩ := hA 0 ro hl0 hro
    exact ⟨r2, hr2, e1.trans hro1, by rw [e2]; exact hro2, by rw [e2]; exact hro3,
      by rw [e2]; exact hro4⟩
  · obtain ⟨r2, hr2, e1, e2⟩ := hA 1 ri hl1 hri
    exact ⟨r2, hr2, e1.trans hri1, by rw [e2]; exact hri2, by rw [e2]; exact hri3⟩
  · intro b r2 hr2
    by_cases hlt : b < s.tab.buckets.length
    · obtain ⟨r3, hr3, e1, _⟩ := hA b _ hlt (List.getElem?_eq_getElem hlt)
      rw [hr2] at hr3
      cases hr3
      rw [e1]
      exact huniq b _ (List.getElem?_eq_getElem hlt)
    · have hd := hB b r2 hr2 (Nat.le_of_not_lt hlt)
      constructor
      · intro e
        rw [e, h1] at hd
        cases hd
      · intro e
        rw [e, h2] at hd
        cases hd
  · intro S hS
    by_cases hlt : S < s.tab.scopes.length
    · rw [scopeChain_kept hok.1 hk hlt]
      exact hchain S hlt
    · obtain ⟨P, hP, hpar⟩ := hC S (Nat.le_of_not_lt hlt) hS
      unfold parentOf at hpar
      cases hsr : s2.tab.scopes[S]? with
      | none => simp [hsr] at hpar
      | some sr =>
        simp only [hsr, Option.map_some', Option.some.injEq] at hpar
        rw [scopeChain_cons hok2.1 hsr, hpar]
        simp only
        rw [scopeChain_kept hok.1 hk hP]
        exact List.mem_cons_of_mem _ (hchain P hP)

/-- The declaration pass over a tree that declares neither `output` nor `input` keeps
the built-in functions. -/
theorem BuiltinsKept_traverse :
    ∀ (t : TreeNode), declaresName "output" t = false → declaresName "input" t = false →
      ∀ (s : State) (t2 : TreeNode) (s2 : State), s.OK → BuiltinsKept s.tab →
        traverse insertNode afterInsertProc t s = some (t2, s2) →
        s2.OK ∧ BuiltinsKept s2.tab := by
  intro t
  induction t with
  | null =>
    intro _ _ s t2 s2 hok hb h
    simp only [traverse, Option.some.injEq, Prod.mk.injEq] at h
    rw [← h.2]; exact ⟨hok, hb⟩
  | node k ln nm ty c0 c1 c2 sib ih0 ih1 ih2 ihs =>
    intro h1 h2 s t2 s2 hok hb h
    obtain ⟨a0, a1, a2, a3⟩ := declaresName_node h1
    obtain ⟨b0, b1, b2, b3⟩ := declaresName_node h2
    simp only [traverse] at h
    split at h
    · simp at h
    · rename_i s1 hs1
      split at h
      · simp at h
      · rename_i c0b s3 h3
        split at h
        · simp at h
        · rename_i c1b s4 h4
          split at h
          · simp at h
          · rename_i c2b s5 h5
            split at h
            · simp at h
            · rename_i ty2 s6 h6
              split at h
              · simp at h
              · rename_i sib2 s7 h7
                simp only [Option.some.injEq, Prod.mk.injEq] at h
                rw [← h.2]
                have i1 : s1.OK ∧ BuiltinsKept s1.tab :=
                  ⟨insertNode_OK hok hs1, BuiltinsKept_insertNode hok hb h1 h2 hs1⟩
                have i3 := ih0 a0 b0 _ _ _ i1.1 i1.2 h3
                have i4 := ih1 a1 b1 _ _ _ i3.1 i3.2 h4
                have i5 := ih2 a2 b2 _ _ _ i4.1 i4.2 h5
                have i6 : s6.OK ∧ BuiltinsKept s6.tab :=
                  ⟨afterInsertProc_OK i5.1 h6, by rw [afterInsertProc_tab h6]; exact i5.2⟩
                exact ihs a3 b3 _ _ _ i6.1 i6.2 h7

/-- A name that only one symbol has, a symbol of the scope at address 0, is resolved to
that symbol from every scope whose parent chain reaches the scope at address 0. -/
theorem st_lookup_only {st : SymTab} (hwf : WF st) {S : Nat} (hS : S < st.scopes.length)
    {n : String} {a : Nat} (ha : a ∈ tableOf st 0) (hn : symName st a = some n)
    (huniq : ∀ b r, st.buckets[b]? = some r → r.name = n → b = a)
    (hch : 0 ∈ scopeChain st S) : st_lookup st (some S) n = some (some a) := by
  rw [st_lookup_findSome hwf hS n]
  cases hres : (scopeChain st S).findSome? (localFind st n) with
  | none =>
    rw [List.findSome?_eq_none_iff] at hres
    exact absurd hn ((localFind_spec hwf n 0).2 (hres 0 hch) a ha)
  | some l =>
    obtain ⟨sc, _, hlf⟩ := List.exists_of_findSome?_eq_some hres
    obtain ⟨_, hname⟩ := (localFind_spec hwf n sc).1 l hlf
    unfold symName at hname
    cases hr : st.buckets[l]? with
    | none => simp [hr] at hname
    | some r =>
      simp only [hr, Option.map_some', Option.some.injEq] at hname
      rw [huniq l r hr hname]

theorem init_symtab_BuiltinsKept {st : SymTab} (h : init_symtab = some st) :
    BuiltinsKept st := by
  obtain ⟨_, hlen, _, _, _, htab, hnames, hfun, hpar⟩ := init_symtab_table
  have hch : init_symtab.map (fun st => scopeChain st 0) = some [0] := by decide
  rw [h] at hlen htab hnames hfun hpar hch
  simp only [Option.map_some', Option.some.injEq] at hlen htab hnames hfun hpar hch
  have hbl : st.buckets.length = 2 := by
    have := congrArg List.length hnames
    simpa using this
  have g0 : st.buckets[0]? = some (st.buckets.get ⟨0, by omega⟩) := List.getElem?_eq_getElem _
  have g1 : st.buckets[1]? = some (st.buckets.get ⟨1, by omega⟩) := List.getElem?_eq_getElem _
  have n0 := congrArg (fun l => l[0]?) hnames
  have n1 := congrArg (fun l => l[1]?) hnames
  have f0 := congrArg (fun l => l[0]?) hfun
  have f1 := congrArg (fun l => l[1]?) hfun
  have p0 := congrArg (fun l => l[0]?) hpar
  simp only [List.getElem?_map, g0, g1, Option.map_some', List.getElem?_cons_zero,
    List.getElem?_cons_succ, Option.some.injEq, Prod.mk.injEq] at n0 n1 f0 f1 p0
  refine ⟨⟨_, g0, n0.1, f0.1, f0.2, p0⟩, ⟨_, g1, n1.1, f1.1, f1.2⟩, by simp [htab],
    by simp [htab], ?_, ?_⟩
  · intro b r hr
    have hb := (List.getElem?_eq_some.1 hr).1
    have : b = 0 ∨ b = 1 := by omega
    rcases this with rfl | rfl
    · rw [g0] at hr
      cases hr
      exact ⟨fun _ => rfl, fun e => by rw [n0.1] at e; simp at e⟩
    · rw [g1] at hr
      cases hr
      exact ⟨fun e => by rw [n1.1] at e; simp at e, fun _ => rfl⟩
  · intro S hS
    have : S = 0 := by omega
    subst this
    simp [hch]

/-- In a table that keeps the built-in functions, `output` and `input` resolve to them
from every scope. -/
theorem builtin_lookup {st : SymTab} (hwf : WF st) (hb : BuiltinsKept st) {S : Nat}
    (hS : S < st.scopes.length) :
    st_lookup st (some S) "output" = some (some 0) ∧
    st_lookup st (some S) "input" = some (some 1) := by
  obtain ⟨⟨ro, hro, hro1, _⟩, ⟨ri, hri, hri1, _⟩, hm0, hm1, huniq, hchain⟩ := hb
  exact ⟨st_lookup_only hwf hS hm0 (by simp [symName, hro, hro1])
      (fun b r hr e => (huniq b r hr).1 e) (hchain S hS),
    st_lookup_only hwf hS hm1 (by simp [symName, hri, hri1])
      (fun b r hr e => (huniq b r hr).2 e) (hchain S hS)⟩

/-- After the declaration pass over a tree that declares neither `output` nor `input`,
the call `output(input())` is typed without a diagnostic wherever it stands: in every
state with the table of the declaration pass and the cursor at a scope of it, the
type-checking pass types `input()` with `Integer` and the call of `output` with `Void`
and leaves the state as it is. -/
theorem builtin_call_silent {t t1 : TreeNode} {s s1 : State}
    (h1 : declaresName "output" t = false) (h2 : declaresName "input" t = false)
    (h : buildSymtab t s = some (t1, s1)) (s3 : State) (S : Nat) (htab : s3.tab = s1.tab)
    (hcur : s3.currentScope = some S) (hS : S < s1.tab.scopes.length)
    (ln ln2 : Int) (ty ty2 : ExpType) :
    typeCheck (.node (.ExpK .CallK) ln "output" ty
        (.node (.ExpK .CallK) ln2 "input" ty2 .null .null .null .null) .null .null .null) s3 =
      some (.node (.ExpK .CallK) ln "output" Void
        (.node (.ExpK .CallK) ln2 "input" Integer .null .null .null .null)
        .null .null .null, s3) := by
  unfold buildSymtab at h
  split at h
  · simp at h
  · rename_i tab0 htab0
    obtain ⟨hwf0, hg, hlen0⟩ := init_symtab_OK htab0
    have hok0 : (State.mk tab0 tab0.globalScope s.func_decl_flag s.Error s.listing
        s.indet).OK :=
      ⟨hwf0, fun c hc => by
        simp only at hc
        rw [hg] at hc
        cases hc
        exact hlen0⟩
    obtain ⟨hok1, hb1⟩ := BuiltinsKept_traverse t h1 h2 _ _ _ hok0
      (init_symtab_BuiltinsKept htab0) h
    obtain ⟨hlo, hli⟩ := builtin_lookup hok1.1 hb1 hS
    obtain ⟨⟨ro, hro, _, hro2, hro3, hro4⟩, ⟨ri, hri, _, hri2, hri3⟩, _⟩ := hb1
    rw [← htab] at hlo hli hro hri
    rw [← hcur] at hlo hli
    exact typeCheck_output_input s3 0 1 ro ri ln ln2 ty ty2 hlo hro hro3 hro2 hro4 hli hri
      hri3 hri2

/-! ## The type-checking pass and the built-in functions -/

theorem map_semanticError_tab {t : TreeNode} {m : Msg} {s s2 : State} {ty ty2 : ExpType}
    (h : (semanticError t m s).map (fun s => (ty, s)) = some (ty2, s2)) : s2.tab = s.tab := by
  cases hs : semanticError t m s with
  | none => simp [hs] at h
  | some s3 =>
    simp only [hs, Option.map_some', Option.some.injEq, Prod.mk.injEq] at h
    rw [← h.2]
    exact semanticError_tab hs

theorem map_leaveScope_tab {s s2 : State} {ty ty2 : ExpType}
    (h : (leaveScope s).map (fun s => (ty, s)) = some (ty2, s2)) : s2.tab = s.tab := by
  cases hs : leaveScope s with
  | none => simp [hs] at h
  | some s3 =>
    simp only [hs, Option.map_some', Option.some.injEq, Prod.mk.injEq] at h
    rw [← h.2]
    exact (leaveScope_same hs).2.2.2

theorem beforeCheckNode_tab {t : TreeNode} {s s2 : State}
    (h : beforeCheckNode t s = some s2) : s2.tab = s.tab := by
  unfold beforeCheckNode at h
  split at h
  · simp at h
  · split at h
    · simp at h
    · cases h; rfl
  · split at h
    · cases h; rfl
    · split at h
      · simp at h
      · split at h
        · simp at h
        · split at h
          · simp at h
          · cases h; rfl
  · cases h; rfl

theorem checkNode_tab {t : TreeNode} {s s2 : State} {ty : ExpType}
    (h : checkNode t s = some (ty, s2)) : s2.tab = s.tab := by
  unfold checkNode at h
  repeat' split at h
  all_goals
    first
    | (simp at h; done)
    | exact map_semanticError_tab h
    | exact map_leaveScope_tab h
    | (simp only [Option.some.injEq, Prod.mk.injEq] at h; rw [← h.2])
    | skip
  all_goals
    dsimp only at h
    repeat' split at h
  all_goals
    first
    | (simp at h; done)
    | exact map_semanticError_tab h
    | (simp only [Option.some.injEq, Prod.mk.injEq] at h; rw [← h.2])
  rename_i mismatch _ _ s3 hs3
  cases mismatch with
  | none =>
    simp only [Option.some.injEq] at hs3
    rw [← hs3]
  | some m => exact semanticError_tab hs3

/-- The type-checking pass leaves the symbol table as the declaration pass built it. -/
theorem typeCheck_tab {t t2 : TreeNode} {s s2 : State} (h : typeCheck t s = some (t2, s2)) :
    s2.tab = s.tab :=
  traverse_inv (fun x => x.tab = s.tab)
    (fun _ _ _ hi hp => (beforeCheckNode_tab hp).trans hi)
    (fun _ _ _ _ hi hp => (checkNode_tab hp).trans hi) _ _ _ _ rfl h

/-- The declaration pass over a tree that declares neither `output` nor `input` ends
in a well-formed state that keeps the built-in functions. -/
theorem buildSymtab_BuiltinsKept {t t1 : TreeNode} {s s1 : State}
    (h1 : declaresName "output" t = false) (h2 : declaresName "input" t = false)
    (h : buildSymtab t s = some (t1, s1)) : s1.OK ∧ BuiltinsKept s1.tab := by
  unfold buildSymtab at h
  split at h
  · simp at h
  · rename_i tab0 htab0
    obtain ⟨hwf0, hg, hlen0⟩ := init_symtab_OK htab0
    have hok0 : (State.mk tab0 tab0.globalScope s.func_decl_flag s.Error s.listing
        s.indet).OK :=
      ⟨hwf0, fun c hc => by
        simp only at hc
        rw [hg] at hc
        cases hc
        exact hlen0⟩
    exact BuiltinsKept_traverse t h1 h2 _ _ _ hok0 (init_symtab_BuiltinsKept htab0) h

/-- The declaration pass over `progShadow` has a result; `stateAfter` is its state. -/
theorem shadow_pass :
    ∃ t1, buildSymtab progShadow initState = some (t1, stateAfter progShadow) := by
  have hs : (buildSymtab progShadow initState).isSome = true := by decide
  obtain ⟨⟨t1, s1⟩, h⟩ := Option.isSome_iff_exists.1 hs
  exact ⟨t1, by simp [stateAfter, h]⟩

/-- C21: the table of `init_symtab` and what follows from it.  (1) `init_symtab` returns
a table with one scope, at address 0, named `global`, without parent and without
children, which is the global scope; its table holds exactly the two symbols at the
addresses 0 and 1, `output` and `input`, both of type `Function` and owned by the global
scope; `output` has the return type `Void` and one parameter, `value` of type
`Integer`; `input` has the return type `Integer` and zero parameters.  (2) The
declaration pass over any tree keeps both names in the table of the global scope, and
so does any part of it, started in any state the analyzer can be in.  (3) With the
cursor at a scope whose table holds a name, a variable declaration of that name gets
the redefined-variable error and a function declaration the redefined-function error;
so the programs `int input;` and `void output(void) { }` get their redeclaration
error from the declaration pass.  (4) Where `output` and `input` resolve to symbols
with the built-in signatures, the type-checking pass over `output(input())` writes no
diagnostic and types `input()` with `Integer` and the call of `output` with `Void`;
the program `void main(void) { output(input()); }` is analyzed without a
diagnostic.  (5) For every tree that declares neither `output` nor `input` (no
variable, parameter or function declaration node of one of the names): the
type-checking pass leaves the table of the declaration pass as it is, and in every
state with that table and the cursor at a scope of it the two names resolve to the
built-in functions with the signatures `init_symtab` wrote, so that the type-checking
pass over `output(input())` writes no diagnostic there. -/
theorem init_symtab_builtins :
    (∃ st, init_symtab = some st ∧ st.globalScope = some 0 ∧ st.scopes.length = 1 ∧
      scopeName st 0 = some "global" ∧ parentOf st.scopes 0 = some none ∧
      children st 0 = [] ∧ tableOf st 0 = [1, 0] ∧
      st.buckets.map (fun b => (b.name, b.type, b.scope)) =
        [("output", Function, some 0), ("input", Function, some 0)] ∧
      st.buckets.map (fun b => (b.func.type, b.func.params)) =
        [(some Void, some 1), (some Integer, some 0)] ∧
      st.buckets.map (fun b => b.func.param 0) = [some ⟨"value", Integer⟩, none]) ∧
    (∀ (t t2 : TreeNode) (s s2 : State), buildSymtab t s = some (t2, s2) →
      Declares s2.tab 0 "output" ∧ Declares s2.tab 0 "input") ∧
    (∀ (t t2 : TreeNode) (s s2 : State) (n : String), s.OK →
      traverse insertNode afterInsertProc t s = some (t2, s2) →
      Declares s.tab 0 n → Declares s2.tab 0 n) ∧
    (∀ (s : State) (S : Nat) (nm : String), WF s.tab → s.currentScope = some S →
      S < s.tab.scopes.length → Declares s.tab S nm →
      ∀ (ln : Int) (ty : ExpType) (c0 c1 c2 sib : TreeNode),
        insertNode (.node (.StmtK .VarDeclK) ln nm ty c0 c1 c2 sib) s =
          some (s.report (.redefinedVariable nm) ln) ∧
        insertNode (.node (.StmtK .FuncDeclK) ln nm ty c0 c1 c2 sib) s =
          some (s.report (.redefinedFunction nm) ln)) ∧
    (buildSymtab progDeclInput initState).map (fun r => r.2.listing) =
      some [⟨.redefinedVariable "input", 1⟩] ∧
    (buildSymtab progDeclOutput initState).map (fun r => r.2.listing) =
      some [⟨.redefinedFunction "output", 1⟩] ∧
    (∀ (s : State) (lo li : Nat) (ro ri : BucketListRec) (ln ln2 : Int) (ty ty2 : ExpType),
      st_lookup s.tab s.currentScope "output" = some (some lo) →
      s.tab.buckets[lo]? = some ro → ro.func.params = some 1 → ro.func.type = some Void →
      ro.func.param 0 = some ⟨"value", Integer⟩ →
      st_lookup s.tab s.currentScope "input" = some (some li) →
      s.tab.buckets[li]? = some ri → ri.func.params = some 0 →
      ri.func.type = some Integer →
      typeCheck (.node (.ExpK .CallK) ln "output" ty
          (.node (.ExpK .CallK) ln2 "input" ty2 .null .null .null .null)
          .null .null .null) s =
        some (.node (.ExpK .CallK) ln "output" Void
          (.node (.ExpK .CallK) ln2 "input" Integer .null .null .null .null)
          .null .null .null, s)) ∧
    (analyze progBuiltinCall).map (fun r => r.2.listing) = some [] ∧
    (∀ (t t2 : TreeNode) (s s2 : State), typeCheck t s = some (t2, s2) → s2.tab = s.tab) ∧
    (∀ (t t1 : TreeNode) (s s1 s3 : State) (S : Nat) (ln ln2 : Int) (ty ty2 : ExpType),
      declaresName "output" t = false → declaresName "input" t = false →
      buildSymtab t s = some (t1, s1) → s3.tab = s1.tab → s3.currentScope = some S →
      S < s1.tab.scopes.length →
      st_lookup s3.tab s3.currentScope "output" = some (some 0) ∧
      st_lookup s3.tab s3.currentScope "input" = some (some 1) ∧
      BuiltinsKept s3.tab ∧
      typeCheck (.node (.ExpK .CallK) ln "output" ty
          (.node (.ExpK .CallK) ln2 "input" ty2 .null .null .null .null)
          .null .null .null) s3 =
        some (.node (.ExpK .CallK) ln "output" Void
          (.node (.ExpK .CallK) ln2 "input" Integer .null .null .null .null)
          .null .null .null, s3)) := by
  refine ⟨?_, ?_, ?_, ?_, by decide, by decide, ?_, by decide,
    fun t t2 s s2 h => typeCheck_tab h, ?_⟩
  · obtain ⟨st, h⟩ := init_symtab_some
    obtain ⟨h1, h2, h3, h4, h5, h6, h7, h8, h9⟩ := init_symtab_table
    rw [h] at h1 h2 h3 h4 h5 h6 h7 h8 h9
    simp only [Option.map_some', Option.some.injEq] at h1 h2 h3 h4 h5 h6 h7 h8 h9
    exact ⟨st, h, h1, h2, h3, h4, h5, h6, h7, h8, h9⟩
  · intro t t2 s s2 h
    unfold buildSymtab at h
    split at h
    · simp at h
    · rename_i tab htab
      obtain ⟨hwf, hg, hlen⟩ := init_symtab_OK htab
      obtain ⟨hdo, hdi⟩ := init_symtab_declares htab
      have hok : (State.mk tab tab.globalScope s.func_decl_flag s.Error s.listing s.indet).OK :=
        ⟨hwf, fun c hc => by
          simp only at hc
          rw [hg] at hc
          cases hc
          exact hlen⟩
      have hk := Keeps_traverse hok h
      exact ⟨Keeps_Declares hk hdo, Keeps_Declares hk hdi⟩
  · intro t t2 s s2 n hok h hd
    exact Keeps_Declares (Keeps_traverse hok h) hd
  · intro s S nm hwf hcur hS hd ln ty c0 c1 c2 sib
    exact insertNode_redeclared hwf hcur hS hd ln ty c0 c1 c2 sib
  · intro s lo li ro ri ln ln2 ty ty2 hlo hro hpo hto hp0 hli hri hpi hti
    exact typeCheck_output_input s lo li ro ri ln ln2 ty ty2 hlo hro hpo hto hp0 hli hri
      hpi hti
  · intro t t1 s s1 s3 S ln ln2 ty ty2 h1 h2 h htab hcur hS
    obtain ⟨hok1, hb1⟩ := buildSymtab_BuiltinsKept h1 h2 h
    obtain ⟨hlo, hli⟩ := builtin_lookup hok1.1 hb1 hS
    rw [← htab] at hlo hli hb1
    rw [← hcur] at hlo hli
    exact ⟨hlo, hli, hb1, builtin_call_silent h1 h2 h s3 S htab hcur hS ln ln2 ty ty2⟩

theorem shadow_declares_input : Declares (stateAfter progShadow).tab 0 "input" := by
  unfold Declares
  decide

/-- C21 at the state after the declaration pass over `progShadow`, the cursor at the
global scope: a declaration `int input;` at line 9 gets the redefined-variable error,
and the call `output(input())` at line 9 is typed without a diagnostic; and since
`progShadow` declares neither `output` nor `input`, the call is typed without a
diagnostic with the cursor in the scope `main` as well. -/
theorem init_symtab_builtins_witness :
    Declares (stateAfter progShadow).tab 0 "input" ∧
    insertNode (leaf (.StmtK .VarDeclK) 9 "input" Integer) (stateAfter progShadow) =
      some ((stateAfter progShadow).report (.redefinedVariable "input") 9) ∧
    typeCheck (.node (.ExpK .CallK) 9 "output" Void (leaf (.ExpK .CallK) 9 "input" Void)
        .null .null .null) (stateAfter progShadow) =
      some (.node (.ExpK .CallK) 9 "output" Void (leaf (.ExpK .CallK) 9 "input" Integer)
        .null .null .null, stateAfter progShadow) ∧
    typeCheck (.node (.ExpK .CallK) 9 "output" Void (leaf (.ExpK .CallK) 9 "input" Void)
        .null .null .null) { stateAfter progShadow with currentScope := some 1 } =
      some (.node (.ExpK .CallK) 9 "output" Void (leaf (.ExpK .CallK) 9 "input" Integer)
        .null .null .null, { stateAfter progShadow with currentScope := some 1 }) :=
  ⟨shadow_declares_input,
    (init_symtab_builtins.2.2.2.1 (stateAfter progShadow) 0 "input"
      (stateAfter_OK progShadow).1 shadow_cursor shadow_scopes_length shadow_declares_input
      9 Integer .null .null .null .null).1,
    init_symtab_builtins.2.2.2.2.2.2.1 (stateAfter progShadow) 0 1
      ((stateAfter progShadow).tab.buckets.get ⟨0, shadow_buckets_length⟩)
      ((stateAfter progShadow).tab.buckets.get ⟨1, shadow_buckets_one⟩) 9 9 Void Void
      (by decide) (List.getElem?_eq_getElem _) (by decide) (by decide) (by decide)
      (by decide) (List.getElem?_eq_getElem _) (by decide) (by decide),
    shadow_pass.elim fun t1 h =>
      (init_symtab_builtins.2.2.2.2.2.2.2.2.2 progShadow t1 initState (stateAfter progShadow)
        { stateAfter progShadow with currentScope := some 1 } 1 9 9 Void Void
        (by decide) (by decide) h rfl rfl (by decide)).2.2.2⟩

end Cminus
